import Mathlib

/-!
# App catalog server (`server.js`): shallow embedding and verified properties

The request handlers of `server.js` are embedded as pure functions over an explicit
server state (session map, persisted JSON document, uploaded files).  Values that the
code takes from a parsed JSON body are kept dynamic (`JVal`); values the server itself
assigns (ids, timestamps, counters, flags it coerces with `!!`) are typed.

Platform primitives whose code is not part of the repository (`crypto.scryptSync`,
`String.prototype.localeCompare`, `decodeURIComponent`) are parameters (`Platform`);
the per-request nondeterminism (`Date.now()`, `crypto.randomUUID()`,
`crypto.randomBytes`) is an explicit input (`Env`).

A handler returns `Except JsError (State × Response)`: `.error` is an exception that
escapes the request listener, so that no response is sent.  The document passes through
`JSON.stringify` and `JSON.parse` between a write and the next read (`JVal.roundTrip`),
conversions to string follow `ToString` and can throw (`JVal.toStr`), and the listener
parses the request URL before any route is tried (`handle`).  The file system is taken
to work: reads and writes of the document and of uploads do not fail.
-/

namespace Catalog

/-! ## JavaScript values and errors -/

/-- A thrown JavaScript error, by constructor, with its message. -/
inductive JsError where
  | typeError (message : String)
  | rangeError (message : String)
  | uriError (message : String)
  | error (message : String)
deriving DecidableEq, Repr

/-- The `err.message` of a thrown error. -/
def JsError.message : JsError → String
  | .typeError m => m
  | .rangeError m => m
  | .uriError m => m
  | .error m => m

/-- A value as produced by `JSON.parse`, plus `undefined` for an absent property. A number
is identified by the text that `String(x)` gives for it (`"42"`, `"1.5"`, `"1e+21"`,
`"Infinity"` for the parse of `1e400`, `"0"` for both zeros): two numbers are `===`
exactly when these texts are equal. -/
inductive JVal where
  | undefined
  | null
  | bool (b : Bool)
  | num (text : String)
  | str (s : String)
  | arr (xs : List JVal)
  | obj (fields : List (String × JVal))

/-- JavaScript truthiness (`!!v`). -/
def JVal.truthy : JVal → Bool
  | .undefined => false
  | .null => false
  | .bool b => b
  | .num text => text != "0" && text != "NaN"
  | .str s => s != ""
  | .arr _ => true
  | .obj _ => true

/-- The expression `a || b`. -/
def JVal.or (a b : JVal) : JVal := if a.truthy then a else b

/-- Last binding of a key in a parsed object (`JSON.parse` keeps the last duplicate). -/
def lookupField (k : String) : List (String × JVal) → JVal
  | [] => .undefined
  | (k', v) :: rest =>
    match lookupField k rest with
    | .undefined => if k' = k then v else .undefined
    | w => w

/-- Property read `v.k` for the data properties the handlers read: throws a `TypeError`
on `null` and `undefined`, is `undefined` on any primitive or array. -/
def JVal.get (v : JVal) (k : String) : Except JsError JVal :=
  match v with
  | .undefined => .error (.typeError ("Cannot read properties of undefined (reading " ++ k ++ ")"))
  | .null => .error (.typeError ("Cannot read properties of null (reading " ++ k ++ ")"))
  | .obj fields => .ok (lookupField k fields)
  | _ => .ok .undefined

/-- Optional chaining `v?.k`. -/
def JVal.getOpt (v : JVal) (k : String) : JVal :=
  match v with
  | .obj fields => lookupField k fields
  | _ => .undefined

/-- Strict equality `a === b` between values held by two different records (or a record
and a request string): primitives compare by value, arrays and objects are distinct
references and never equal. It is also the `SameValueZero` used by `Set` on such values. -/
def JVal.strictEq : JVal → JVal → Bool
  | .undefined, .undefined => true
  | .null, .null => true
  | .bool a, .bool b => a == b
  | .num a, .num b => a == b
  | .str a, .str b => a == b
  | _, _ => false

/-- Whether a parsed object has an own property `k`. -/
def hasOwn (k : String) (fields : List (String × JVal)) : Bool :=
  match lookupField k fields with
  | .undefined => false
  | _ => true

mutual
/-- The conversion `ToString(v)`. An array converts through `join(',')`. An object
converts through its `toString`: a parsed object with an own `toString` property (never
callable) has no usable conversion and the engine throws a `TypeError`; any other parsed
object gives `"[object Object]"`. -/
def JVal.toStr : JVal → Except JsError String
  | .undefined => .ok "undefined"
  | .null => .ok "null"
  | .bool true => .ok "true"
  | .bool false => .ok "false"
  | .num text => .ok text
  | .str s => .ok s
  | .arr xs =>
    match JVal.toStrElems xs with
    | .error e => .error e
    | .ok parts => .ok (String.intercalate "," parts)
  | .obj fields =>
    if hasOwn "toString" fields then
      .error (.typeError "Cannot convert object to primitive value")
    else .ok "[object Object]"
/-- The element strings of `Array.prototype.join`: `null` and `undefined` give `""`, any
other element is converted with `ToString`, left to right. -/
def JVal.toStrElems : List JVal → Except JsError (List String)
  | [] => .ok []
  | .undefined :: xs =>
    match JVal.toStrElems xs with
    | .error e => .error e
    | .ok rest => .ok ("" :: rest)
  | .null :: xs =>
    match JVal.toStrElems xs with
    | .error e => .error e
    | .ok rest => .ok ("" :: rest)
  | x :: xs =>
    match JVal.toStr x with
    | .error e => .error e
    | .ok s =>
      match JVal.toStrElems xs with
      | .error e => .error e
      | .ok rest => .ok (s :: rest)
end

/-- Texts of the numbers that `JSON.stringify` writes as `null`. -/
def isNonFinite (text : String) : Bool :=
  text == "Infinity" || text == "-Infinity" || text == "NaN"

mutual
/-- The value `JSON.parse(JSON.stringify(v))` for a property value `v`: a non-finite
number becomes `null`, an `undefined` array element becomes `null`, an `undefined`
property is dropped; an `undefined` property value stays absent. -/
def JVal.roundTrip : JVal → JVal
  | .undefined => .undefined
  | .null => .null
  | .bool b => .bool b
  | .num text => if isNonFinite text then .null else .num text
  | .str s => .str s
  | .arr xs => .arr (JVal.roundTripElems xs)
  | .obj fields => .obj (JVal.roundTripFields fields)
/-- The elements of a serialised and re-parsed array. -/
def JVal.roundTripElems : List JVal → List JVal
  | [] => []
  | .undefined :: xs => .null :: JVal.roundTripElems xs
  | x :: xs => JVal.roundTrip x :: JVal.roundTripElems xs
/-- The properties of a serialised and re-parsed object. -/
def JVal.roundTripFields : List (String × JVal) → List (String × JVal)
  | [] => []
  | (_, .undefined) :: rest => JVal.roundTripFields rest
  | (k, v) :: rest => (k, JVal.roundTrip v) :: JVal.roundTripFields rest
end

/-! ## Strings -/

/-- The segments of `s.split(sep)` for a one-character separator. -/
def splitChars (sep : Char) : List Char → List (List Char)
  | [] => [[]]
  | c :: cs =>
    if c = sep then [] :: splitChars sep cs
    else
      match splitChars sep cs with
      | [] => [[c]]
      | seg :: segs => (c :: seg) :: segs

/-- The method `s.split(sep)` for a one-character separator. -/
def jsSplit (sep : Char) (s : String) : List String :=
  (splitChars sep s.data).map String.mk

/-- White space and line terminators removed by `String.prototype.trim`. -/
def isJsSpace (c : Char) : Bool :=
  c.toNat = 9 || c.toNat = 10 || c.toNat = 11 || c.toNat = 12 || c.toNat = 13 ||
  c.toNat = 32 || c.toNat = 160 || c.toNat = 5760 ||
  (8192 ≤ c.toNat && c.toNat ≤ 8202) || c.toNat = 8232 || c.toNat = 8233 ||
  c.toNat = 8239 || c.toNat = 8287 || c.toNat = 12288 || c.toNat = 65279

/-- The method `s.trim()`. -/
def jsTrim (s : String) : String :=
  String.mk ((s.data.dropWhile isJsSpace).reverse.dropWhile isJsSpace).reverse

/-! ## Credential store (`hashPassword`, `verifyPassword`) -/

/-- A byte of a `Buffer`. -/
abbrev Byte := Fin 256

/-- The function `crypto.scryptSync(password, salt, keylen)`: a buffer of `keylen` bytes. -/
abbrev Scrypt := String → String → (keylen : Nat) → { l : List Byte // l.length = keylen }

/-- One lower-case hexadecimal digit. -/
def hexDigit (n : Nat) : Char :=
  if n < 10 then Char.ofNat (48 + n) else Char.ofNat (87 + n)

/-- Value of a hexadecimal digit, either case. -/
def hexVal (c : Char) : Option Nat :=
  if 48 ≤ c.toNat ∧ c.toNat ≤ 57 then some (c.toNat - 48)
  else if 97 ≤ c.toNat ∧ c.toNat ≤ 102 then some (c.toNat - 87)
  else if 65 ≤ c.toNat ∧ c.toNat ≤ 70 then some (c.toNat - 55)
  else none

/-- Characters of `buffer.toString('hex')`. -/
def hexChars : List Byte → List Char
  | [] => []
  | b :: bs => hexDigit (b.val / 16) :: hexDigit (b.val % 16) :: hexChars bs

/-- The conversion `buffer.toString('hex')`. -/
def toHex (bs : List Byte) : String := String.mk (hexChars bs)

/-- Bytes of `Buffer.from(s, 'hex')`: decoding stops at the first pair that is not two
hexadecimal digits. -/
def bytesFromHex : List Char → List Byte
  | c1 :: c2 :: rest =>
    match hexVal c1, hexVal c2 with
    | some a, some b => Fin.ofNat (a * 16 + b) :: bytesFromHex rest
    | _, _ => []
  | _ => []

/-- The conversion `Buffer.from(s, 'hex')`. -/
def bufferFromHex (s : String) : List Byte := bytesFromHex s.data

/-- The function `crypto.timingSafeEqual(a, b)`: throws when the lengths differ. -/
def timingSafeEqual (a b : List Byte) : Except JsError Bool :=
  if a.length = b.length then .ok (decide (a = b))
  else .error (.rangeError "Input buffers must have the same byte length")

/-- The function `hashPassword(password, salt)` with the salt given. -/
def hashPassword (scryptSync : Scrypt) (password salt : String) : String :=
  salt ++ ":" ++ toHex (scryptSync password salt 64).val

/-- The call `hashPassword(password)`: the salt defaults to
`crypto.randomBytes(16).toString('hex')`, `rnd` being the random bytes drawn. -/
def hashPasswordDefault (scryptSync : Scrypt) (password : String) (rnd : List Byte) : String :=
  hashPassword scryptSync password (toHex rnd)

/-- The function `verifyPassword(password, stored)`. `scryptSync` throws on a password
that is not a string; `Buffer.from(undefined, 'hex')` throws when `stored` has no colon. -/
def verifyPassword (scryptSync : Scrypt) (password : JVal) (stored : String) :
    Except JsError Bool :=
  match jsSplit ':' stored with
  | [] => .error (.typeError "The salt argument must be of type string")
  | salt :: rest =>
    match password with
    | .str p =>
      let test := toHex (scryptSync p salt 64).val
      match rest with
      | [] => .error (.typeError "The first argument must be of type string")
      | hash :: _ => timingSafeEqual (bufferFromHex hash) (bufferFromHex test)
    | _ => .error (.typeError "The password argument must be of type string")

/-! ### Passwords as UTF-16 strings

A JavaScript string is a sequence of UTF-16 code units and may hold a surrogate that is
not part of a pair, which `String` cannot represent. `scryptSync` hashes the UTF-8
encoding of a string argument, and that encoding writes every unpaired surrogate as
U+FFFD. The definitions below are `hashPassword` and `verifyPassword` with the password
given by its code units and the key derivation given on bytes. -/

/-- A UTF-16 code unit. -/
abbrev CodeUnit := Fin 65536

/-- A JavaScript string, as its code units. -/
abbrev JsString := List CodeUnit

/-- The function `crypto.scryptSync` on the bytes of its arguments. -/
abbrev ScryptBytes :=
  List Byte → List Byte → (keylen : Nat) → { l : List Byte // l.length = keylen }

/-- The UTF-8 bytes of a code point. -/
def utf8Bytes (cp : Nat) : List Byte :=
  if cp < 128 then [Fin.ofNat cp]
  else if cp < 2048 then [Fin.ofNat (192 + cp / 64), Fin.ofNat (128 + cp % 64)]
  else if cp < 65536 then
    [Fin.ofNat (224 + cp / 4096), Fin.ofNat (128 + cp / 64 % 64), Fin.ofNat (128 + cp % 64)]
  else
    [Fin.ofNat (240 + cp / 262144), Fin.ofNat (128 + cp / 4096 % 64),
     Fin.ofNat (128 + cp / 64 % 64), Fin.ofNat (128 + cp % 64)]

/-- The bytes `EF BF BD` of U+FFFD, written for an unpaired surrogate. -/
def replacementBytes : List Byte := [239, 191, 189]

/-- Whether a code unit is a high (leading) surrogate. -/
def isHighSurrogate (u : CodeUnit) : Bool := 55296 ≤ u.val && u.val < 56320

/-- Whether a code unit is a low (trailing) surrogate. -/
def isLowSurrogate (u : CodeUnit) : Bool := 56320 ≤ u.val && u.val < 57344

/-- The encoder behind `Buffer.from(s, 'utf8')`, `pending` being a high surrogate read
and not yet paired. -/
def utf8From : Option CodeUnit → List CodeUnit → List Byte
  | none, [] => []
  | some _, [] => replacementBytes
  | none, u :: rest =>
    if isHighSurrogate u then utf8From (some u) rest
    else if isLowSurrogate u then replacementBytes ++ utf8From none rest
    else utf8Bytes u.val ++ utf8From none rest
  | some h, u :: rest =>
    if isLowSurrogate u then
      utf8Bytes (65536 + (h.val - 55296) * 1024 + (u.val - 56320)) ++ utf8From none rest
    else if isHighSurrogate u then replacementBytes ++ utf8From (some u) rest
    else replacementBytes ++ utf8Bytes u.val ++ utf8From none rest

/-- The bytes `Buffer.from(s, 'utf8')` of a JavaScript string. -/
def utf8Encode (s : JsString) : List Byte := utf8From none s

/-- The code units of a character. -/
def charUnits (c : Char) : List CodeUnit :=
  if c.toNat < 65536 then [Fin.ofNat c.toNat]
  else
    [Fin.ofNat (55296 + (c.toNat - 65536) / 1024),
     Fin.ofNat (56320 + (c.toNat - 65536) % 1024)]

/-- The code units of a string without unpaired surrogates. -/
def utf16Units (s : String) : JsString := s.data.flatMap charUnits

/-- The function `crypto.scryptSync` on string arguments, from the one on bytes. -/
def scryptOfBytes (K : ScryptBytes) : Scrypt :=
  fun password salt keylen =>
    K (utf8Encode (utf16Units password)) (utf8Encode (utf16Units salt)) keylen

/-- The function `hashPassword(password, salt)` for a password given by its code units. -/
def hashPasswordUnits (K : ScryptBytes) (password : JsString) (salt : String) : String :=
  salt ++ ":" ++ toHex (K (utf8Encode password) (utf8Encode (utf16Units salt)) 64).val

/-- The call `hashPassword(password)` for a password given by its code units, `rnd` being
the random bytes drawn for the salt. -/
def hashPasswordUnitsDefault (K : ScryptBytes) (password : JsString) (rnd : List Byte) :
    String :=
  hashPasswordUnits K password (toHex rnd)

/-- The function `verifyPassword(password, stored)` for a string password given by its
code units. -/
def verifyPasswordUnits (K : ScryptBytes) (password : JsString) (stored : String) :
    Except JsError Bool :=
  match jsSplit ':' stored with
  | [] => .error (.typeError "The salt argument must be of type string")
  | salt :: rest =>
    let test := toHex (K (utf8Encode password) (utf8Encode (utf16Units salt)) 64).val
    match rest with
    | [] => .error (.typeError "The first argument must be of type string")
    | hash :: _ => timingSafeEqual (bufferFromHex hash) (bufferFromHex test)

/-! ## Platform and per-request environment -/

/-- Built-ins of the runtime whose code is outside the repository. -/
structure Platform where
  /-- The function `crypto.scryptSync`. -/
  scryptSync : Scrypt
  /-- Sort key of the default collation: `a.localeCompare(b)` compares the keys of `a`
  and `b` lexicographically. -/
  collationKey : String → List Nat
  /-- The function `decodeURIComponent`, which throws a `URIError` on a malformed escape. -/
  decodeURIComponent : String → Except JsError String
  /-- The method `String.prototype.toLowerCase`. -/
  toLowerCase : String → String

/-- What one request draws from the clock and the random source. One clock reading
stands for all reads made while the request is handled. -/
structure Env where
  /-- The reading `Date.now()`, in milliseconds. -/
  now : Nat
  /-- The value of `crypto.randomUUID()` drawn by the handler. -/
  uuid : String
  /-- The value of `crypto.randomUUID()` drawn by `seedData`. -/
  seedUuid : String
  /-- The bytes `crypto.randomBytes(16)` drawn for the first seed user. -/
  seedSalt1 : List Byte
  /-- The bytes `crypto.randomBytes(16)` drawn for the second seed user. -/
  seedSalt2 : List Byte

/-- Three-way comparison of two collation keys, as the sign `localeCompare` returns. -/
def compareKeys : List Nat → List Nat → Int
  | [], [] => 0
  | [], _ :: _ => -1
  | _ :: _, [] => 1
  | a :: as, b :: bs => if a < b then -1 else if b < a then 1 else compareKeys as bs

/-- The call `a.localeCompare(b)` on two strings. -/
def Platform.localeCompare (P : Platform) (a b : String) : Int :=
  compareKeys (P.collationKey a) (P.collationKey b)

/-! ## Data model -/

/-- A user of `db.users`. -/
structure User where
  id : String
  username : String
  role : String
  passwordHash : String
deriving DecidableEq, Repr

/-- The user data bound to a session: `{ id, username, role }`. -/
structure SessionUser where
  id : String
  username : String
  role : String
deriving DecidableEq, Repr

/-- A value of the `sessions` map. -/
structure Session where
  user : SessionUser
  expiresAt : Nat
deriving DecidableEq, Repr

/-- The `sessions` map, keyed by session id. -/
abbrev Sessions := List (String × Session)

/-- The call `sessions.get(sid)`. -/
def Sessions.get (m : Sessions) (sid : String) : Option Session :=
  match m with
  | [] => none
  | (k, v) :: rest => if k = sid then some v else Sessions.get rest sid

/-- The call `sessions.delete(sid)`. -/
def Sessions.delete (m : Sessions) (sid : String) : Sessions :=
  m.filter (fun e => decide (e.1 ≠ sid))

/-- The call `sessions.set(sid, s)`. -/
def Sessions.set (m : Sessions) (sid : String) (s : Session) : Sessions :=
  Sessions.delete m sid ++ [(sid, s)]

/-- The discriminator `fileType`. -/
inductive FileType where
  | url
  | file
deriving DecidableEq, Repr

/-- An app record of `db.apps`. The fields copied from a request body are dynamic; the
fields the server assigns or coerces are typed. `filePath`, `fileName` and `mime` are
present only after `saveUploadedFile` returned an object. -/
structure App where
  id : String
  title : JVal
  description : JVal
  version : JVal
  category : JVal
  tags : List String
  uploadDate : Nat
  isPublished : Bool
  featured : Bool
  fileType : FileType
  downloadUrl : JVal
  views : Nat
  filePath : Option String
  fileName : Option String
  mime : Option String

/-- The persisted JSON document. -/
structure Db where
  users : List User
  apps : List App

/-- The server state: the session map, the document at `DB_PATH` (absent before the first
read; held as a document that `JSON.stringify` writes as the file) and the paths of the
files written under `UPLOAD_DIR`. -/
structure State where
  sessions : Sessions
  db : Option Db
  files : List String

/-- The projection sent to clients (`toClientApp`'s result). -/
structure ClientApp where
  id : String
  title : JVal
  description : JVal
  version : JVal
  category : JVal
  tags : List String
  uploadDate : Nat
  isPublished : Bool
  featured : Bool
  views : Nat
  downloadUrl : JVal

/-- Payload of a response. -/
inductive ResBody where
  | message (m : String)
  | user (u : Option SessionUser)
  | categories (names : List JVal)
  | apps (apps : List ClientApp)
  | app (app : ClientApp)
  | detail (app : ClientApp) (related : List ClientApp)
  | ok
  | redirect (location : JVal)
  | file (path : String) (disposition : String)

/-- An HTTP response: status, payload and the `Set-Cookie` header when one is sent. -/
structure Response where
  status : Nat
  body : ResBody
  setCookie : Option String

/-- The helper `json(res, status, payload)`. The response holds the payload handed to
`JSON.stringify`; a client reads its round trip. -/
def json (status : Nat) (payload : ResBody) : Response :=
  { status := status, body := payload, setCookie := none }

/-- A request as the handlers see it: the `Cookie` header (`""` when absent), the query
parameters, the outcome of `parseBody` (`{}` for an empty body, a rejection for an
oversized or malformed one), and the error that `new URL(req.url, ...)` throws at the top
of the listener on a malformed `Host` header or request target, if any. -/
structure Request where
  cookie : String
  search : Option String
  category : Option String
  sort : Option String
  body : Except JsError JVal
  urlError : Option JsError := none

/-- The constant `SESSION_TTL_MS`. -/
def SESSION_TTL_MS : Nat := 1000 * 60 * 60 * 8

/-- The directory `UPLOAD_DIR`, as the prefix of the paths built by `path.join`. -/
def UPLOAD_DIR : String := "uploads/"

/-! ## Cookies, sessions, authorization -/

/-- One cookie of the header: `[k, ...v] = c.trim().split('=')`, the value being
`decodeURIComponent(v.join('='))`. -/
def parseCookie (P : Platform) (c : String) : Except JsError (String × String) :=
  match jsSplit '=' (jsTrim c) with
  | [] => .ok ("", "")
  | k :: v =>
    match P.decodeURIComponent (String.intercalate "=" v) with
    | .ok d => .ok (k, d)
    | .error e => .error e

/-- The entries mapped from the cookies, in order; the first throwing one aborts. -/
def parseCookieList (P : Platform) : List String → Except JsError (List (String × String))
  | [] => .ok []
  | c :: cs =>
    match parseCookie P c with
    | .error e => .error e
    | .ok kv =>
      match parseCookieList P cs with
      | .error e => .error e
      | .ok rest => .ok (kv :: rest)

/-- The function `parseCookies(req)`, as the list of entries given to
`Object.fromEntries`. -/
def parseCookies (P : Platform) (req : Request) : Except JsError (List (String × String)) :=
  parseCookieList P ((jsSplit ';' req.cookie).filter (fun c => c != ""))

/-- Property `k` of `Object.fromEntries(entries)`: the last entry under `k` wins. -/
def entriesGet (k : String) : List (String × String) → Option String
  | [] => none
  | (k', v) :: rest =>
    match entriesGet k rest with
    | some w => some w
    | none => if k' = k then some v else none

/-- The expression `parseCookies(req).sid`. -/
def cookieSid (P : Platform) (req : Request) : Except JsError (Option String) :=
  match parseCookies P req with
  | .error e => .error e
  | .ok entries => .ok (entriesGet "sid" entries)

/-- The function `getSessionUser(req)`: the session map afterwards and the user or
`null`. An absent or empty `sid` returns `null` without touching the map. -/
def getSessionUser (P : Platform) (env : Env) (sessions : Sessions) (req : Request) :
    Except JsError (Sessions × Option SessionUser) :=
  match cookieSid P req with
  | .error e => .error e
  | .ok none => .ok (sessions, none)
  | .ok (some sid) =>
    if sid = "" then .ok (sessions, none)
    else
      match Sessions.get sessions sid with
      | none => .ok (Sessions.delete sessions sid, none)
      | some session =>
        if env.now > session.expiresAt then .ok (Sessions.delete sessions sid, none)
        else .ok (sessions, some session.user)

/-- Result of an authorization helper: the response it already sent, or the user. -/
inductive Auth where
  | reject (r : Response)
  | user (u : SessionUser)

/-- The function `requireAuth(req, res)`. -/
def requireAuth (P : Platform) (env : Env) (st : State) (req : Request) :
    Except JsError (State × Auth) :=
  match getSessionUser P env st.sessions req with
  | .error e => .error e
  | .ok (sessions, none) =>
    .ok ({ st with sessions := sessions }, .reject (json 401 (.message "Unauthorized")))
  | .ok (sessions, some user) => .ok ({ st with sessions := sessions }, .user user)

/-- The function `requireAdmin(req, res)`. -/
def requireAdmin (P : Platform) (env : Env) (st : State) (req : Request) :
    Except JsError (State × Auth) :=
  match requireAuth P env st req with
  | .error e => .error e
  | .ok (st1, .reject r) => .ok (st1, .reject r)
  | .ok (st1, .user user) =>
    if user.role ≠ "admin" then .ok (st1, .reject (json 403 (.message "Forbidden")))
    else .ok (st1, .user user)

/-! ## Record store -/

/-- The function `seedData()`. -/
def seedData (P : Platform) (env : Env) : Db :=
  { users :=
      [ { id := "u-admin", username := "admin", role := "admin",
          passwordHash := hashPasswordDefault P.scryptSync "admin123" env.seedSalt1 },
        { id := "u-user", username := "user", role := "user",
          passwordHash := hashPasswordDefault P.scryptSync "user123" env.seedSalt2 } ],
    apps :=
      [ { id := env.seedUuid,
          title := .str "Starter CRM",
          description := .str "Prebuilt CRM app starter template.",
          version := .str "1.0.0",
          category := .str "Business",
          tags := ["crm", "starter"],
          uploadDate := env.now,
          fileType := .url,
          downloadUrl := .str "https://example.com/starter-crm",
          isPublished := true,
          featured := true,
          views := 0,
          filePath := none, fileName := none, mime := none } ] }

/-- The record `JSON.parse(JSON.stringify(app))`: the properties copied from a request
body pass through `JVal.roundTrip`; the typed ones are unchanged. -/
def roundTripApp (a : App) : App :=
  { a with
    title := a.title.roundTrip,
    description := a.description.roundTrip,
    version := a.version.roundTrip,
    category := a.category.roundTrip,
    downloadUrl := a.downloadUrl.roundTrip }

/-- The document `JSON.parse(JSON.stringify(db))`. -/
def roundTripDb (db : Db) : Db := { db with apps := db.apps.map roundTripApp }

/-- The function `readDb()`: seeds and persists the document when none exists. The file
holds the text `JSON.stringify` wrote for `st.db`, so reading an existing file returns
`roundTripDb db`; that document is written as the same file (a second round trip
changes nothing, `roundTripDb_idem`) and is the one kept in the state afterwards. -/
def readDb (P : Platform) (env : Env) (st : State) : Db × State :=
  match st.db with
  | some db => (roundTripDb db, { st with db := some (roundTripDb db) })
  | none => (seedData P env, { st with db := some (seedData P env) })

/-- The function `writeDb(data)`: the state keeps the document handed to
`JSON.stringify`; what a later `readDb` returns is its round trip. -/
def writeDb (st : State) (data : Db) : State := { st with db := some data }

/-- The function `toClientApp(app)`. -/
def toClientApp (app : App) : ClientApp :=
  { id := app.id,
    title := app.title,
    description := app.description,
    version := app.version,
    category := app.category,
    tags := app.tags,
    uploadDate := app.uploadDate,
    isPublished := app.isPublished,
    featured := app.featured,
    views := app.views,
    downloadUrl :=
      if app.fileType = .file then .str ("/api/apps/" ++ app.id ++ "/download")
      else app.downloadUrl }

/-! ## File ingestion -/

/-- Line terminators, which `.` of a regular expression does not match. -/
def isLineTerminator (c : Char) : Bool :=
  c.toNat = 10 || c.toNat = 13 || c.toNat = 8232 || c.toNat = 8233

/-- Removes the literal `lit` from the front of `s`, if `s` starts with it. -/
def stripLiteral : List Char → List Char → Option (List Char)
  | [], s => some s
  | _ :: _, [] => none
  | p :: ps, c :: cs => if p = c then stripLiteral ps cs else none

/-- Greedy match of `(.+)marker(.+)` against a whole string without line terminators:
the first group is the longest non-empty one that leaves `marker` and a non-empty rest. -/
def greedySplit (marker : List Char) : List Char → Option (List Char × List Char)
  | [] => none
  | c :: cs =>
    match greedySplit marker cs with
    | some (pre, post) => some (c :: pre, post)
    | none =>
      match stripLiteral marker cs with
      | some (p :: post) => some ([c], p :: post)
      | _ => none

/-- The match of `/^data:(.+);base64,(.+)$/` against `s`: groups 1 and 2. -/
def matchDataUrl (s : String) : Option (String × String) :=
  match stripLiteral "data:".data s.data with
  | none => none
  | some rest =>
    if rest.any isLineTerminator then none
    else
      match greedySplit ";base64,".data rest with
      | none => none
      | some (mime, payload) => some (String.mk mime, String.mk payload)

/-- Characters kept by `.replace(/[^a-zA-Z0-9._-]/g, '')`. -/
def isSafeNameChar (c : Char) : Bool :=
  (97 ≤ c.toNat && c.toNat ≤ 122) || (65 ≤ c.toNat && c.toNat ≤ 90) ||
  (48 ≤ c.toNat && c.toNat ≤ 57) || c = '.' || c = '_' || c = '-'

/-- The object returned by `saveUploadedFile`. -/
structure FileInfo where
  filePath : String
  fileName : String
  mime : String

/-- The function `saveUploadedFile(fileObj)`: `null` when the payload does not match the
data-URL pattern; otherwise the file is written and its description returned. `exec`
converts its argument with `ToString`, which can throw; a truthy `name` that is not a
string has no `replace` method, which throws before the write. -/
def saveUploadedFile (env : Env) (st : State) (fileObj : JVal) :
    Except JsError (State × Option FileInfo) :=
  match ((fileObj.getOpt "base64").or (.str "")).toStr with
  | .error e => .error e
  | .ok text =>
    match matchDataUrl text with
    | none => .ok (st, none)
    | some (mime, _) =>
      match (fileObj.getOpt "name").or (.str "upload.bin") with
      | .str name =>
        let safeName := toString env.now ++ "-" ++ String.mk (name.data.filter isSafeNameChar)
        let filePath := UPLOAD_DIR ++ safeName
        let fileName :=
          match (fileObj.getOpt "name").or (.str safeName) with
          | .str n => n
          | _ => safeName
        .ok ({ st with files := filePath :: st.files },
             some { filePath := filePath, fileName := fileName, mime := mime })
      | _ => .error (.typeError "fileObj.name.replace is not a function")

/-- The call `Object.assign(app, fileInfo)`; `null` assigns nothing. -/
def assignFileInfo (app : App) : Option FileInfo → App
  | none => app
  | some info =>
    { app with filePath := some info.filePath, fileName := some info.fileName,
               mime := some info.mime }

/-! ## Reading an app from a request body -/

/-- The body properties read by the create and update handlers, coerced as they do. -/
structure BodyFields where
  title : JVal
  description : JVal
  version : JVal
  category : JVal
  tags : List String
  isPublished : Bool
  featured : Bool
  file : JVal
  downloadUrl : JVal

/-- The expression `(tags || '').split(',').map(t => t.trim()).filter(Boolean)`: a
truthy value that is not a string has no `split` method. -/
def parseTags (tags : JVal) : Except JsError (List String) :=
  match tags.or (.str "") with
  | .str s => .ok (((jsSplit ',' s).map jsTrim).filter (fun t => t != ""))
  | _ => .error (.typeError "body.tags.split is not a function")

/-- The property reads `body.title`, ..., in the order of the object literal. -/
def readFields (body : JVal) : Except JsError BodyFields :=
  match body.get "title" with
  | .error e => .error e
  | .ok title =>
    match parseTags (body.getOpt "tags") with
    | .error e => .error e
    | .ok tags =>
      .ok { title := title,
            description := body.getOpt "description",
            version := body.getOpt "version",
            category := body.getOpt "category",
            tags := tags,
            isPublished := (body.getOpt "isPublished").truthy,
            featured := (body.getOpt "featured").truthy,
            file := body.getOpt "file",
            downloadUrl := body.getOpt "downloadUrl" }

/-! ## Catalog queries -/

/-- Whether `s` starts with `pre`. -/
def startsWithChars : List Char → List Char → Bool
  | [], _ => true
  | _ :: _, [] => false
  | p :: ps, c :: cs => p == c && startsWithChars ps cs

/-- The method `hay.includes(needle)`. -/
def includesChars (needle : List Char) : List Char → Bool
  | [] => needle.isEmpty
  | c :: cs => startsWithChars needle (c :: cs) || includesChars needle cs

/-- The text searched: `[a.title, a.description, ...(a.tags || [])].join(' ')`; `join`
converts each element, which throws on an object without a usable `toString`. -/
def searchText (a : App) : Except JsError String :=
  match JVal.toStrElems ([a.title, a.description] ++ a.tags.map JVal.str) with
  | .error e => .error e
  | .ok parts => .ok (String.intercalate " " parts)

/-- The search predicate of `GET /api/apps`, `search` being already lower-cased. -/
def matchesSearch (P : Platform) (search : String) (a : App) : Except JsError Bool :=
  match searchText a with
  | .error e => .error e
  | .ok text => .ok (includesChars search.data (P.toLowerCase text).data)

/-- The call `apps.filter(a => ...)` with the search predicate: the records are tested in
order and the first throwing test aborts the filter. -/
def filterSearch (P : Platform) (search : String) : List App → Except JsError (List App)
  | [] => .ok []
  | a :: rest =>
    match matchesSearch P search a with
    | .error e => .error e
    | .ok keep =>
      match filterSearch P search rest with
      | .error e => .error e
      | .ok kept => .ok (if keep then a :: kept else kept)

/-- The comparator given to `apps.sort`. With `sort=title` the receiver `a.title` must be
a string (anything else has no `localeCompare`); the argument is converted with
`ToString`, which can throw. -/
def compareApps (P : Platform) (sort : String) (a b : App) : Except JsError Int :=
  if sort = "oldest" then .ok ((a.uploadDate : Int) - (b.uploadDate : Int))
  else if sort = "title" then
    match a.title with
    | .str s =>
      match b.title.toStr with
      | .error e => .error e
      | .ok t => .ok (P.localeCompare s t)
    | _ => .error (.typeError "a.title.localeCompare is not a function")
  else .ok ((b.uploadDate : Int) - (a.uploadDate : Int))

/-- Insertion of `x` into a sorted run: `x` goes before the first element it compares
below. The comparator is called as `comparefn(x, y)` with `x` the later array element. -/
def insertOrdered {α : Type} (cmp : α → α → Except JsError Int) (x : α) :
    List α → Except JsError (List α)
  | [] => .ok [x]
  | y :: ys =>
    match cmp x y with
    | .error e => .error e
    | .ok c =>
      if c < 0 then .ok (x :: y :: ys)
      else
        match insertOrdered cmp x ys with
        | .error e => .error e
        | .ok r => .ok (y :: r)

/-- Sorting loop: `run` is the sorted run built so far, the list the elements left. -/
def arraySortFrom {α : Type} (cmp : α → α → Except JsError Int) :
    List α → List α → Except JsError (List α)
  | run, [] => .ok run
  | run, x :: xs =>
    match insertOrdered cmp x run with
    | .error e => .error e
    | .ok run1 => arraySortFrom cmp run1 xs

/-- The method `Array.prototype.sort(comparefn)`: a stable insertion sort, each element
after the first being inserted into the run before it (the calls the engine makes on
short arrays); a throwing comparator aborts the sort. For a comparator that is a
consistent ordering the result is the one any stable sort gives. -/
def arraySort {α : Type} (cmp : α → α → Except JsError Int) (xs : List α) :
    Except JsError (List α) :=
  arraySortFrom cmp [] xs

/-- The spread `[...new Set(values)]`: first occurrences, in order. -/
def dedupValues : List JVal → List JVal
  | [] => []
  | v :: vs => v :: (dedupValues vs).filter (fun w => !(v.strictEq w))

/-! ## Request handlers -/

/-- First record satisfying `a.id === id` rewritten by `f` (mutation of the object that
`find` returned). -/
def updateFirst (id : String) (f : App → App) : List App → List App
  | [] => []
  | a :: rest => if a.id = id then f a :: rest else a :: updateFirst id f rest

/-- The call `apps.splice(index, 1)` at the index `findIndex` returned. -/
def removeFirst (id : String) : List App → List App
  | [] => []
  | a :: rest => if a.id = id then rest else a :: removeFirst id rest

/-- The call `db.apps.find(a => a.id === id)`. -/
def findApp (id : String) (apps : List App) : Option App :=
  apps.find? (fun a => decide (a.id = id))

/-- Handler of `POST /api/auth/login`. -/
def handleLogin (P : Platform) (env : Env) (st : State) (req : Request) :
    Except JsError (State × Response) :=
  match req.body with
  | .error e => .ok (st, json 400 (.message e.message))
  | .ok body =>
    match readDb P env st with
    | (db, st1) =>
      if db.users.isEmpty then .ok (st1, json 401 (.message "Invalid credentials"))
      else
        match body.get "username" with
        | .error e => .ok (st1, json 400 (.message e.message))
        | .ok username =>
          match db.users.find? (fun u => (JVal.str u.username).strictEq username) with
          | none => .ok (st1, json 401 (.message "Invalid credentials"))
          | some user =>
            match verifyPassword P.scryptSync ((body.getOpt "password").or (.str ""))
                user.passwordHash with
            | .error e => .ok (st1, json 400 (.message e.message))
            | .ok false => .ok (st1, json 401 (.message "Invalid credentials"))
            | .ok true =>
              let userData : SessionUser :=
                { id := user.id, username := user.username, role := user.role }
              let session : Session :=
                { user := userData, expiresAt := env.now + SESSION_TTL_MS }
              .ok ({ st1 with sessions := Sessions.set st1.sessions env.uuid session },
                   { status := 200, body := .user (some userData),
                     setCookie := some ("sid=" ++ env.uuid ++
                       "; HttpOnly; SameSite=Strict; Path=/") })

/-- Handler of `POST /api/auth/logout`. -/
def handleLogout (P : Platform) (st : State) (req : Request) :
    Except JsError (State × Response) :=
  match cookieSid P req with
  | .error e => .error e
  | .ok sid =>
    let sessions :=
      match sid with
      | none => st.sessions
      | some k => if k = "" then st.sessions else Sessions.delete st.sessions k
    .ok ({ st with sessions := sessions },
         { status := 200, body := .ok, setCookie := some "sid=; Max-Age=0; Path=/" })

/-- Handler of `GET /api/auth/me`. -/
def handleMe (P : Platform) (env : Env) (st : State) (req : Request) :
    Except JsError (State × Response) :=
  match getSessionUser P env st.sessions req with
  | .error e => .error e
  | .ok (sessions, none) => .ok ({ st with sessions := sessions }, json 401 (.user none))
  | .ok (sessions, some u) => .ok ({ st with sessions := sessions }, json 200 (.user (some u)))

/-- The records a user may see: `user.role === 'admin' ? db.apps : db.apps.filter(a => a.isPublished)`. -/
def visibleApps (user : SessionUser) (apps : List App) : List App :=
  if user.role = "admin" then apps else apps.filter (fun a => a.isPublished)

/-- Handler of `GET /api/categories`. -/
def handleCategories (P : Platform) (env : Env) (st : State) (req : Request) :
    Except JsError (State × Response) :=
  match requireAuth P env st req with
  | .error e => .error e
  | .ok (st1, .reject r) => .ok (st1, r)
  | .ok (st1, .user user) =>
    match readDb P env st1 with
    | (db, st2) =>
      .ok (st2, json 200 (.categories (dedupValues
        (((visibleApps user db.apps).map (fun a => a.category)).filter JVal.truthy))))

/-- The records of `GET /api/apps` before sorting: visible, then filtered by `search`
(when non-empty) and by `category` (when non-empty). The search filter can throw. -/
def filteredApps (P : Platform) (user : SessionUser) (req : Request) (apps : List App) :
    Except JsError (List App) :=
  let search := P.toLowerCase (req.search.getD "")
  let category := req.category.getD ""
  let apps1 := visibleApps user apps
  match (if search ≠ "" then filterSearch P search apps1 else .ok apps1) with
  | .error e => .error e
  | .ok apps2 =>
    .ok (if category ≠ "" then apps2.filter (fun a => a.category.strictEq (.str category))
         else apps2)

/-- The sort mode: `url.searchParams.get('sort') || 'newest'`. -/
def sortMode (req : Request) : String :=
  match req.sort with
  | none => "newest"
  | some s => if s = "" then "newest" else s

/-- Handler of `GET /api/apps`. -/
def handleList (P : Platform) (env : Env) (st : State) (req : Request) :
    Except JsError (State × Response) :=
  match requireAuth P env st req with
  | .error e => .error e
  | .ok (st1, .reject r) => .ok (st1, r)
  | .ok (st1, .user user) =>
    match readDb P env st1 with
    | (db, st2) =>
      match filteredApps P user req db.apps with
      | .error e => .error e
      | .ok selected =>
        match arraySort (compareApps P (sortMode req)) selected with
        | .error e => .error e
        | .ok sorted => .ok (st2, json 200 (.apps (sorted.map toClientApp)))

/-- The record built by `POST /api/apps` before any file is attached. -/
def newApp (env : Env) (f : BodyFields) : App :=
  { id := env.uuid,
    title := f.title,
    description := f.description,
    version := f.version,
    category := f.category,
    tags := f.tags,
    uploadDate := env.now,
    isPublished := f.isPublished,
    featured := f.featured,
    fileType := if (f.file.getOpt "base64").truthy then .file else .url,
    downloadUrl := f.downloadUrl.or (.str ""),
    views := 0,
    filePath := none, fileName := none, mime := none }

/-- Handler of `POST /api/apps`. -/
def handleCreate (P : Platform) (env : Env) (st : State) (req : Request) :
    Except JsError (State × Response) :=
  match requireAdmin P env st req with
  | .error e => .error e
  | .ok (st1, .reject r) => .ok (st1, r)
  | .ok (st1, .user _) =>
    match req.body with
    | .error e => .ok (st1, json 400 (.message e.message))
    | .ok body =>
      match readDb P env st1 with
      | (db, st2) =>
        match readFields body with
        | .error e => .ok (st2, json 400 (.message e.message))
        | .ok f =>
          if (newApp env f).fileType = .file then
            match saveUploadedFile env st2 f.file with
            | .error e => .ok (st2, json 400 (.message e.message))
            | .ok (st3, info) =>
              .ok (writeDb st3 { db with apps := db.apps ++ [assignFileInfo (newApp env f) info] },
                   json 201 (.app (toClientApp (assignFileInfo (newApp env f) info))))
          else
            .ok (writeDb st2 { db with apps := db.apps ++ [newApp env f] },
                 json 201 (.app (toClientApp (newApp env f))))

/-- The statement `app.views = (app.views || 0) + 1`. -/
def bumpViews (a : App) : App := { a with views := a.views + 1 }

/-- The `related` list of the detail response: at most three other records of the same
category that the user may see, in store order. -/
def relatedApps (user : SessionUser) (app : App) (apps : List App) : List ClientApp :=
  ((apps.filter (fun a =>
      a.id != app.id && a.category.strictEq app.category &&
        (user.role == "admin" || a.isPublished))).take 3).map toClientApp

/-- Handler of `GET /api/apps/:id`. -/
def handleDetail (P : Platform) (env : Env) (st : State) (req : Request) (id : String) :
    Except JsError (State × Response) :=
  match requireAuth P env st req with
  | .error e => .error e
  | .ok (st1, .reject r) => .ok (st1, r)
  | .ok (st1, .user user) =>
    match readDb P env st1 with
    | (db, st2) =>
      match findApp id db.apps with
      | none => .ok (st2, json 404 (.message "Not found"))
      | some app =>
        if !app.isPublished && user.role != "admin" then
          .ok (st2, json 404 (.message "Not found"))
        else
          .ok (writeDb st2 { db with apps := updateFirst id bumpViews db.apps },
               json 200 (.detail (toClientApp (bumpViews app))
                 (relatedApps user (bumpViews app) (updateFirst id bumpViews db.apps))))

/-- The first `Object.assign` of `PUT /api/apps/:id`. -/
def applyFields (app : App) (f : BodyFields) : App :=
  { app with
    title := f.title,
    description := f.description,
    version := f.version,
    category := f.category,
    tags := f.tags,
    isPublished := f.isPublished,
    featured := f.featured,
    downloadUrl := f.downloadUrl.or app.downloadUrl }

/-- Handler of `PUT /api/apps/:id`. -/
def handleUpdate (P : Platform) (env : Env) (st : State) (req : Request) (id : String) :
    Except JsError (State × Response) :=
  match requireAdmin P env st req with
  | .error e => .error e
  | .ok (st1, .reject r) => .ok (st1, r)
  | .ok (st1, .user _) =>
    match req.body with
    | .error e => .ok (st1, json 400 (.message e.message))
    | .ok body =>
      match readDb P env st1 with
      | (db, st2) =>
        match findApp id db.apps with
        | none => .ok (st2, json 404 (.message "Not found"))
        | some app =>
          match readFields body with
          | .error e => .ok (st2, json 400 (.message e.message))
          | .ok f =>
            if (f.file.getOpt "base64").truthy then
              match saveUploadedFile env st2 f.file with
              | .error e => .ok (st2, json 400 (.message e.message))
              | .ok (st3, info) =>
                let app2 := assignFileInfo { (applyFields app f) with fileType := .file } info
                .ok (writeDb st3 { db with apps := updateFirst id (fun _ => app2) db.apps },
                     json 200 (.app (toClientApp app2)))
            else
              let app2 : App :=
                if f.downloadUrl.truthy then { (applyFields app f) with fileType := .url }
                else applyFields app f
              .ok (writeDb st2 { db with apps := updateFirst id (fun _ => app2) db.apps },
                   json 200 (.app (toClientApp app2)))

/-- Handler of `DELETE /api/apps/:id`. -/
def handleDelete (P : Platform) (env : Env) (st : State) (req : Request) (id : String) :
    Except JsError (State × Response) :=
  match requireAdmin P env st req with
  | .error e => .error e
  | .ok (st1, .reject r) => .ok (st1, r)
  | .ok (st1, .user _) =>
    match readDb P env st1 with
    | (db, st2) =>
      match findApp id db.apps with
      | none => .ok (st2, json 404 (.message "Not found"))
      | some _ => .ok (writeDb st2 { db with apps := removeFirst id db.apps }, json 200 .ok)

/-- Whether a header value passes the check of `res.writeHead`: only tab, printable
ASCII and the characters 128 to 255. -/
def validHeaderValue (s : String) : Bool :=
  s.data.all (fun c => c.toNat = 9 || (32 ≤ c.toNat && c.toNat ≤ 126) ||
    (128 ≤ c.toNat && c.toNat ≤ 255))

/-- Characters of `path.basename(p)`: trailing slashes dropped, then what follows the
last slash. -/
def basenameChars (p : List Char) : List Char :=
  ((p.reverse.dropWhile (fun c => c == '/')).takeWhile (fun c => c != '/')).reverse

/-- The function `sendDownload(res, app)`; `writeHead` throws on a header value with a
character outside the accepted set. -/
def sendDownload (st : State) (app : App) : Except JsError Response :=
  match app.fileType, app.filePath with
  | .file, some filePath =>
    if filePath = "" || !(st.files.contains filePath) then
      .ok (json 404 (.message "File not found"))
    else
      let shown : String :=
        match app.fileName with
        | some n => if n = "" then "app.bin" else n
        | none => "app.bin"
      let disposition := "attachment; filename=" ++ String.mk [Char.ofNat 34] ++
        String.mk (basenameChars shown.data) ++ String.mk [Char.ofNat 34]
      if validHeaderValue disposition then .ok (json 200 (.file filePath disposition))
      else .error (.typeError "Invalid character in header content [Content-Disposition]")
  | _, _ => .ok (json 404 (.message "File not found"))

/-- Handler of `GET /api/apps/:id/download`; `writeHead` throws on an `undefined`
`Location`, on one that `ToString` cannot convert and on one with a character outside the
accepted set. -/
def handleDownload (P : Platform) (env : Env) (st : State) (req : Request) (id : String) :
    Except JsError (State × Response) :=
  match requireAuth P env st req with
  | .error e => .error e
  | .ok (st1, .reject r) => .ok (st1, r)
  | .ok (st1, .user user) =>
    match readDb P env st1 with
    | (db, st2) =>
      match findApp id db.apps with
      | none => .ok (st2, json 404 (.message "Not found"))
      | some app =>
        if !app.isPublished && user.role != "admin" then
          .ok (st2, json 404 (.message "Not found"))
        else if app.fileType = .url then
          match app.downloadUrl with
          | .undefined => .error (.typeError "Invalid value undefined for header Location")
          | loc =>
            match loc.toStr with
            | .error e => .error e
            | .ok text =>
              if validHeaderValue text then .ok (st2, json 302 (.redirect loc))
              else .error (.typeError "Invalid character in header content [Location]")
        else
          match sendDownload st2 app with
          | .error e => .error e
          | .ok r => .ok (st2, r)

/-! ## A concrete platform, for evaluating the model on examples -/

/-- A stand-in key derivation (not cryptographic): the bytes of the salt length and of
the password, padded or cut to `keylen`. -/
def demoScrypt : Scrypt := fun password salt keylen =>
  ⟨((Fin.ofNat salt.length :: password.data.map (fun (c : Char) => Fin.ofNat c.toNat)) ++
      List.replicate keylen 0).take keylen,
    by simp only [List.length_take, List.length_append, List.length_cons, List.length_map,
      List.length_replicate]; omega⟩

/-- A stand-in key derivation on bytes (not cryptographic): the salt length and the
password bytes, padded or cut to `keylen`. -/
def demoScryptBytes : ScryptBytes := fun password salt keylen =>
  ⟨((Fin.ofNat salt.length :: password) ++ List.replicate keylen 0).take keylen,
    by simp only [List.length_take, List.length_append, List.length_cons,
      List.length_replicate]; omega⟩

/-- A platform with code-point collation, identity URI decoding and ASCII lower-casing. -/
def demoPlatform : Platform :=
  { scryptSync := demoScrypt,
    collationKey := fun s => s.data.map Char.toNat,
    decodeURIComponent := fun s => .ok s,
    toLowerCase := fun s => String.mk (s.data.map Char.toLower) }

/-- An environment with the given clock reading and handler UUID. -/
def demoEnv (now : Nat) (uuid : String) : Env :=
  { now := now, uuid := uuid, seedUuid := "seed-app", seedSalt1 := [1, 2], seedSalt2 := [3, 4] }

/-- The state of a server started without a database file. -/
def initState : State := { sessions := [], db := none, files := [] }

/-- A request without query parameters. -/
def demoRequest (cookie : String) (body : JVal) : Request :=
  { cookie := cookie, search := none, category := none, sort := none, body := .ok body }

/-- A state with the seed document and one session of the seed user `user`. -/
def userState : State :=
  { sessions := [("s-user", { user := { id := "u-user", username := "user", role := "user" },
                              expiresAt := 50000 })],
    db := some (seedData demoPlatform (demoEnv 1 "x")), files := [] }

/-- What sorting needs of a comparator: a total, transitive order `le` such that a
successful call `cmp x y` is negative exactly when `x` is strictly below `y`. -/
structure SortOrder (α : Type) (cmp : α → α → Except JsError Int) (le : α → α → Prop) :
    Prop where
  total : ∀ a b, le a b ∨ le b a
  trans : ∀ a b c, le a b → le b c → le a c
  neg_iff : ∀ x y c, cmp x y = .ok c → (c < 0 ↔ ¬ le y x)

/-- A url-type record with the given id, title, upload time and publication flag. -/
def demoApp (id title : String) (uploadDate : Nat) (isPublished : Bool) : App :=
  { id := id, title := .str title, description := .str "demo", version := .str "1.0.0",
    category := .str "Tools", tags := ["demo"], uploadDate := uploadDate,
    isPublished := isPublished, featured := false, fileType := .url,
    downloadUrl := .str "https://example.com/demo", views := 0,
    filePath := none, fileName := none, mime := none }

/-- A document with four records, two of them sharing a title and two an upload time. -/
def catalogDb : Db :=
  { users := (seedData demoPlatform (demoEnv 1 "x")).users,
    apps := [demoApp "a1" "Zeta" 30 true, demoApp "a2" "Alpha" 10 false,
             demoApp "a3" "Zeta" 20 true, demoApp "a4" "Mid" 20 true] }

/-- The session user of the seed administrator. -/
def adminUser : SessionUser := { id := "u-admin", username := "admin", role := "admin" }

/-- The session user of the seed non-administrator. -/
def plainUser : SessionUser := { id := "u-user", username := "user", role := "user" }

/-- A state holding `catalogDb` and one live session for each seed user. -/
def catalogState : State :=
  { sessions := [("s-admin", { user := adminUser, expiresAt := 50000 }),
                 ("s-user", { user := plainUser, expiresAt := 50000 })],
    db := some catalogDb, files := [] }

/-- A list request with the given session cookie and `sort` parameter. -/
def listRequest (cookie : String) (sort : Option String) : Request :=
  { cookie := cookie, search := none, category := none, sort := sort, body := .ok (.obj []) }

/-- The JSON property `k` of a client app, for the properties a create body also has. -/
def ClientApp.field (c : ClientApp) (k : String) : JVal :=
  if k = "title" then c.title
  else if k = "description" then c.description
  else if k = "version" then c.version
  else if k = "category" then c.category
  else if k = "tags" then .arr (c.tags.map JVal.str)
  else if k = "isPublished" then .bool c.isPublished
  else if k = "featured" then .bool c.featured
  else if k = "downloadUrl" then c.downloadUrl
  else .undefined

/-- The body of a create request with a title, a tag string and a download URL. -/
def tagsBody : JVal :=
  .obj [("title", .str "Notes"), ("tags", .str "a,b"), ("downloadUrl", .str "https://x.test/a")]

/-- The API routes of `server.js`. -/
inductive Call where
  | login
  | logout
  | me
  | categories
  | list
  | create
  | detail (id : String)
  | update (id : String)
  | delete (id : String)
  | download (id : String)

/-- The route dispatch of the request listener, for the API routes. -/
def dispatch (P : Platform) (env : Env) (st : State) (req : Request) :
    Call → Except JsError (State × Response)
  | .login => handleLogin P env st req
  | .logout => handleLogout P st req
  | .me => handleMe P env st req
  | .categories => handleCategories P env st req
  | .list => handleList P env st req
  | .create => handleCreate P env st req
  | .detail id => handleDetail P env st req id
  | .update id => handleUpdate P env st req id
  | .delete id => handleDelete P env st req id
  | .download id => handleDownload P env st req id

/-- The request listener on an API route: `new URL(req.url, ...)` is evaluated first,
outside every `try`, and what it throws escapes; then the route is dispatched. -/
def handle (P : Platform) (env : Env) (st : State) (req : Request) (call : Call) :
    Except JsError (State × Response) :=
  match req.urlError with
  | some e => .error e
  | none => dispatch P env st req call

/-- States reachable from a server without a database file (its first read seeds the
store) through any sequence of answered API requests. -/
inductive Reachable (P : Platform) : State → Prop where
  | init : Reachable P initState
  | step (st st1 : State) (env : Env) (req : Request) (call : Call) (r : Response) :
      Reachable P st → handle P env st req call = .ok (st1, r) → Reachable P st1

/-- The invariant as the specification words it: exactly the download source matching
`fileType` is populated. -/
def SpecFileInvariant (a : App) : Prop :=
  match a.fileType with
  | .url => a.downloadUrl.truthy = true ∧ a.filePath = none ∧ a.fileName = none
  | .file => a.filePath.isSome = true ∧ a.fileName.isSome = true ∧ a.downloadUrl.truthy = false

/-- What the handlers maintain for a record: `filePath` and `fileName` are set together,
a set `filePath` is the path of a file that was written, directly under `UPLOAD_DIR`, its
name being a time stamp, a dash and characters that `saveUploadedFile` keeps (no path
separator among them), and `downloadUrl` is never absent: it is the empty string, `null`
(what a non-finite number is persisted as) or a truthy value. -/
def FileFieldsOk (files : List String) (a : App) : Prop :=
  (a.filePath.isSome = a.fileName.isSome) ∧
  (∀ p, a.filePath = some p → p ∈ files ∧
    ∃ (stamp : Nat) (safe : String),
      p = UPLOAD_DIR ++ (toString stamp ++ "-" ++ safe) ∧ safe.data.all isSafeNameChar = true) ∧
  (a.downloadUrl = .str "" ∨ a.downloadUrl = .null ∨ a.downloadUrl.truthy = true)

/-- Every record of the document held by the state satisfies `FileFieldsOk`. -/
def HeldOk (st : State) : Prop :=
  ∀ db, st.db = some db → ∀ a ∈ db.apps, FileFieldsOk st.files a

/-- Every record of the document held by the state, and every record of the document
that a read of the file it is written to returns, satisfies `FileFieldsOk`. -/
def StoreOk (st : State) : Prop :=
  HeldOk st ∧ ∀ db, st.db = some db → ∀ a ∈ (roundTripDb db).apps, FileFieldsOk st.files a

/-- The body of a login request for the seed administrator. -/
def loginBody : JVal := .obj [("username", .str "admin"), ("password", .str "admin123")]

/-- The body of a create request that names only a title: no URL, no file. -/
def bareBody : JVal := .obj [("title", .str "Untitled")]

/-- The state after the seed administrator logged in on a fresh server. -/
def afterLogin : State :=
  match handleLogin demoPlatform (demoEnv 1000 "sid-1") initState (demoRequest "" loginBody) with
  | .ok (st, _) => st
  | .error _ => initState

/-- The state after that administrator then posted `bareBody`. -/
def afterCreate : State :=
  match handleCreate demoPlatform (demoEnv 2000 "app-1") afterLogin
      (demoRequest "sid=sid-1" bareBody) with
  | .ok (st, _) => st
  | .error _ => afterLogin

/-- The record that `POST /api/apps` stores for `bareBody`. -/
def bareApp : App :=
  { id := "app-1", title := .str "Untitled", description := .undefined,
    version := .undefined, category := .undefined, tags := [], uploadDate := 2000,
    isPublished := false, featured := false, fileType := .url, downloadUrl := .str "",
    views := 0, filePath := none, fileName := none, mime := none }

/-- The body of a create request carrying both a download URL and a file payload. -/
def fileBody : JVal :=
  .obj [("title", .str "Tool"), ("downloadUrl", .str "https://x.test/a"),
        ("file", .obj [("name", .str "tool.bin"),
                       ("base64", .str "data:application/octet-stream;base64,QQ==")])]

/-- The state after the administrator then posted `fileBody`. -/
def afterUpload : State :=
  match handleCreate demoPlatform (demoEnv 3000 "app-2") afterCreate
      (demoRequest "sid=sid-1" fileBody) with
  | .ok (st, _) => st
  | .error _ => afterCreate

/-- The record that `POST /api/apps` stores for `fileBody`. -/
def uploadedApp : App :=
  { id := "app-2", title := .str "Tool", description := .undefined,
    version := .undefined, category := .undefined, tags := [], uploadDate := 3000,
    isPublished := false, featured := false, fileType := .file,
    downloadUrl := .str "https://x.test/a", views := 0,
    filePath := some "uploads/3000-tool.bin", fileName := some "tool.bin",
    mime := some "application/octet-stream" }

/-- The body of an update request that names a title and a download URL. -/
def switchBody : JVal :=
  .obj [("title", .str "Tool"), ("downloadUrl", .str "https://x.test/b")]

/-- The state after the administrator then updated `app-2` with `switchBody`. -/
def afterSwitch : State :=
  match handleUpdate demoPlatform (demoEnv 4000 "unused") afterUpload
      (demoRequest "sid=sid-1" switchBody) "app-2" with
  | .ok (st, _) => st
  | .error _ => afterUpload

/-- The record `app-2` after that update. -/
def switchedApp : App :=
  { uploadedApp with fileType := .url, downloadUrl := .str "https://x.test/b" }

/-- The specification's notion of substring: `needle` occurs somewhere inside `hay`. -/
def IsSubstring (needle hay : List Char) : Prop :=
  ∃ pre post, hay = pre ++ needle ++ post

/-- The body of an answer is well-shaped for its route: the status is below 400, or the
body is `{ message }`, or the route is `GET /api/auth/me` answering 401 with
`{ user: null }`. -/
def ErrorShape (call : Call) (r : Response) : Prop :=
  r.status < 400 ∨ (∃ m, r.body = .message m) ∨
    (call = .me ∧ r.status = 401 ∧ r.body = .user none)

/-- The state after the logged-in administrator posted an empty body `{}`. -/
def afterUntitled1 : State :=
  match handleCreate demoPlatform (demoEnv 2000 "app-x") afterLogin
      (demoRequest "sid=sid-1" (.obj [])) with
  | .ok (st, _) => st
  | .error _ => afterLogin

/-- The state after a second post of an empty body. -/
def afterUntitled2 : State :=
  match handleCreate demoPlatform (demoEnv 3000 "app-y") afterUntitled1
      (demoRequest "sid=sid-1" (.obj [])) with
  | .ok (st, _) => st
  | .error _ => afterUntitled1

/-- The state after the administrator then deleted the seed record: the store holds the
two records without a title. -/
def untitledState : State :=
  match handleDelete demoPlatform (demoEnv 4000 "unused") afterUntitled2
      (demoRequest "sid=sid-1" (.obj [])) "seed-app" with
  | .ok (st, _) => st
  | .error _ => afterUntitled2

/-- The record that `POST /api/apps` stores for the body `{}`. -/
def untitledApp (id : String) (uploadDate : Nat) : App :=
  { id := id, title := .undefined, description := .undefined, version := .undefined,
    category := .undefined, tags := [], uploadDate := uploadDate, isPublished := false,
    featured := false, fileType := .url, downloadUrl := .str "", views := 0,
    filePath := none, fileName := none, mime := none }

/-- The body the client sends for the publish toggle of an app of its list:
`{ ...app, tags: (app.tags || []).join(','), isPublished: !app.isPublished }`
(`public/app.js`). The `uploadDate` and `views`, which the update handler does not read,
are carried as numbers. -/
def toggleBody (app : ClientApp) : JVal :=
  .obj [("id", .str app.id),
        ("title", app.title),
        ("description", app.description),
        ("version", app.version),
        ("category", app.category),
        ("tags", .str (String.intercalate "," app.tags)),
        ("uploadDate", .num (toString app.uploadDate)),
        ("isPublished", .bool (!app.isPublished)),
        ("featured", .bool app.featured),
        ("views", .num (toString app.views)),
        ("downloadUrl", app.downloadUrl)]

/-- The state after the administrator toggled publication of the file-type record
`app-2` of `afterUpload`. -/
def afterToggle : State :=
  match handleUpdate demoPlatform (demoEnv 5000 "unused") afterUpload
      (demoRequest "sid=sid-1" (toggleBody (toClientApp uploadedApp))) "app-2" with
  | .ok (st, _) => st
  | .error _ => afterUpload

/-- The record `app-2` after the toggle. -/
def toggledApp : App :=
  { uploadedApp with isPublished := true, fileType := .url,
                     downloadUrl := .str "/api/apps/app-2/download" }

/-- Tags as the create and update handlers store them: non-empty, trimmed, without a
comma. -/
def CleanTags (tags : List String) : Prop :=
  ∀ t ∈ tags, t ≠ "" ∧ jsTrim t = t ∧ ',' ∉ t.data

/-- The text `ToString(v)` where the conversion succeeds, the empty string where it
throws. -/
def textOf (v : JVal) : String :=
  match v.toStr with
  | .ok s => s
  | .error _ => ""

/-- Whether `ToString(v)` succeeds with the text `t`. -/
def textIs (t : String) (v : JVal) : Bool :=
  match v.toStr with
  | .ok s => s == t
  | .error _ => false

/-- The body of a create request whose title is the number `1e400` (parsed as `Infinity`),
with a tag string, a string for `isPublished`, a number for `featured` and no
`downloadUrl`. -/
def mixedBody : JVal :=
  .obj [("title", .num "Infinity"), ("tags", .str "a,b"), ("isPublished", .str "yes"),
        ("featured", .num "1")]

/-- The body of a create request whose `downloadUrl` is the number `1e400` (parsed as
`Infinity`). -/
def infiniteBody : JVal := .obj [("title", .str "Big"), ("downloadUrl", .num "Infinity")]

/-- The state after the administrator of `afterLogin` posted `infiniteBody`. -/
def afterInfinite : State :=
  match handleCreate demoPlatform (demoEnv 2000 "app-9") afterLogin
      (demoRequest "sid=sid-1" infiniteBody) with
  | .ok (st, _) => st
  | .error _ => afterLogin

/-- The record that `POST /api/apps` builds for `infiniteBody`. -/
def infiniteApp : App :=
  { id := "app-9", title := .str "Big", description := .undefined,
    version := .undefined, category := .undefined, tags := [], uploadDate := 2000,
    isPublished := false, featured := false, fileType := .url,
    downloadUrl := .num "Infinity", views := 0, filePath := none, fileName := none,
    mime := none }

/-- A login request whose request line or `Host` header makes `new URL(req.url, ...)`
throw (for example the request target `//`). -/
def badUrlRequest : Request :=
  { cookie := "", search := none, category := none, sort := none, body := .ok loginBody,
    urlError := some (.typeError "Invalid URL") }

/-! # Theorems -/

/-! ## Credential store: proofs -/

theorem hexVal_hexDigit (n : Nat) (h : n < 16) : hexVal (hexDigit n) = some n := by
  interval_cases n <;> decide

theorem hexDigit_ne_colon (n : Nat) (h : n < 16) : hexDigit n ≠ ':' := by
  interval_cases n <;> decide

theorem bytesFromHex_hexChars (bs : List Byte) : bytesFromHex (hexChars bs) = bs := by
  induction bs with
  | nil => rfl
  | cons b bs ih =>
    have h1 : b.val / 16 < 16 := by omega
    have h2 : b.val % 16 < 16 := by omega
    have h3 : (Fin.ofNat (b.val / 16 * 16 + b.val % 16) : Byte) = b := by
      apply Fin.ext
      simp only [Fin.ofNat, Nat.div_add_mod']
      omega
    simp only [hexChars, bytesFromHex, hexVal_hexDigit _ h1, hexVal_hexDigit _ h2, h3, ih]

theorem colon_not_mem_hexChars (bs : List Byte) : ':' ∉ hexChars bs := by
  induction bs with
  | nil => simp [hexChars]
  | cons b bs ih =>
    have h1 : b.val / 16 < 16 := by omega
    have h2 : b.val % 16 < 16 := by omega
    simp only [hexChars, List.mem_cons, not_or]
    exact ⟨(hexDigit_ne_colon _ h1).symm, (hexDigit_ne_colon _ h2).symm, ih⟩

theorem splitChars_of_not_mem (sep : Char) (s : List Char) (h : sep ∉ s) :
    splitChars sep s = [s] := by
  induction s with
  | nil => rfl
  | cons c cs ih =>
    simp only [List.mem_cons, not_or] at h
    have hc : ¬ c = sep := fun e => h.1 e.symm
    simp [splitChars, hc, ih h.2]

theorem splitChars_append (sep : Char) (a b : List Char) (h : sep ∉ a) :
    splitChars sep (a ++ sep :: b) = a :: splitChars sep b := by
  induction a with
  | nil => simp [splitChars]
  | cons c cs ih =>
    simp only [List.mem_cons, not_or] at h
    have hc : ¬ c = sep := fun e => h.1 e.symm
    simp [splitChars, hc, ih h.2]

theorem jsSplit_hashPassword (S : Scrypt) (p : String) (rnd : List Byte) :
    jsSplit ':' (hashPasswordDefault S p rnd) =
      [toHex rnd, toHex (S p (toHex rnd) 64).val] := by
  have hd : (hashPasswordDefault S p rnd).data =
      hexChars rnd ++ ':' :: hexChars (S p (toHex rnd) 64).val := by
    simp [hashPasswordDefault, hashPassword, toHex, String.data_append]
  unfold jsSplit
  rw [hd, splitChars_append _ _ _ (colon_not_mem_hexChars rnd),
    splitChars_of_not_mem _ _ (colon_not_mem_hexChars _)]
  rfl

theorem bufferFromHex_toHex (bs : List Byte) : bufferFromHex (toHex bs) = bs := by
  simp [bufferFromHex, toHex, bytesFromHex_hexChars]

theorem verifyPassword_hashPassword (S : Scrypt) (p w : String) (rnd : List Byte) :
    verifyPassword S (.str w) (hashPasswordDefault S p rnd) =
      .ok (decide ((S p (toHex rnd) 64).val = (S w (toHex rnd) 64).val)) := by
  unfold verifyPassword
  rw [jsSplit_hashPassword]
  simp only [bufferFromHex_toHex, timingSafeEqual]
  rw [if_pos (by rw [(S p (toHex rnd) 64).property, (S w (toHex rnd) 64).property])]

/-- C4: verifying a password against the stored string that `hashPassword` produced for
that same password, with the salt it generated, returns `true`. -/
theorem verify_accepts_own_hash (S : Scrypt) (p : String) (rnd : List Byte) :
    verifyPassword S (.str p) (hashPasswordDefault S p rnd) = .ok true := by
  rw [verifyPassword_hashPassword]
  simp

theorem jsSplit_hashPasswordUnits (K : ScryptBytes) (p : JsString) (rnd : List Byte) :
    jsSplit ':' (hashPasswordUnitsDefault K p rnd) =
      [toHex rnd,
        toHex (K (utf8Encode p) (utf8Encode (utf16Units (toHex rnd))) 64).val] := by
  have hd : (hashPasswordUnitsDefault K p rnd).data =
      hexChars rnd ++
        ':' :: hexChars (K (utf8Encode p) (utf8Encode (utf16Units (toHex rnd))) 64).val := by
    simp [hashPasswordUnitsDefault, hashPasswordUnits, toHex, String.data_append]
  unfold jsSplit
  rw [hd, splitChars_append _ _ _ (colon_not_mem_hexChars rnd),
    splitChars_of_not_mem _ _ (colon_not_mem_hexChars _)]
  rfl

theorem verifyPasswordUnits_hashPassword (K : ScryptBytes) (p w : JsString)
    (rnd : List Byte) :
    verifyPasswordUnits K w (hashPasswordUnitsDefault K p rnd) =
      .ok (decide ((K (utf8Encode p) (utf8Encode (utf16Units (toHex rnd))) 64).val =
        (K (utf8Encode w) (utf8Encode (utf16Units (toHex rnd))) 64).val)) := by
  unfold verifyPasswordUnits
  rw [jsSplit_hashPasswordUnits]
  simp only [bufferFromHex_toHex, timingSafeEqual]
  rw [if_pos (by rw [(K (utf8Encode p) _ 64).property, (K (utf8Encode w) _ 64).property])]

theorem verifyPasswordUnits_of_string (K : ScryptBytes) (w stored : String) :
    verifyPasswordUnits K (utf16Units w) stored =
      verifyPassword (scryptOfBytes K) (.str w) stored := by
  unfold verifyPasswordUnits verifyPassword
  cases jsSplit ':' stored with
  | nil => rfl
  | cons salt rest => cases rest <;> rfl

theorem hashPasswordUnits_of_string (K : ScryptBytes) (p : String) (rnd : List Byte) :
    hashPasswordUnitsDefault K (utf16Units p) rnd =
      hashPasswordDefault (scryptOfBytes K) p rnd := rfl

/-- C5 (as amended): against the stored hash of `p`, a candidate string `w` is never
answered with an exception, and it is accepted exactly when `scryptSync` derives the same
key from the UTF-8 bytes of `w` as from those of `p` under the stored salt. So a candidate
is rejected whenever the derived keys differ, and a candidate with the UTF-8 bytes of `p`
is accepted, `w = p` or not. -/
theorem verify_accepts_iff_same_key (K : ScryptBytes) (p w : JsString) (rnd : List Byte) :
    verifyPasswordUnits K w (hashPasswordUnitsDefault K p rnd) =
      .ok (decide ((K (utf8Encode p) (utf8Encode (utf16Units (toHex rnd))) 64).val =
        (K (utf8Encode w) (utf8Encode (utf16Units (toHex rnd))) 64).val)) ∧
    ((K (utf8Encode w) (utf8Encode (utf16Units (toHex rnd))) 64).val ≠
        (K (utf8Encode p) (utf8Encode (utf16Units (toHex rnd))) 64).val →
      verifyPasswordUnits K w (hashPasswordUnitsDefault K p rnd) = .ok false) ∧
    (utf8Encode w = utf8Encode p →
      verifyPasswordUnits K w (hashPasswordUnitsDefault K p rnd) = .ok true) := by
  refine ⟨verifyPasswordUnits_hashPassword K p w rnd, ?_, ?_⟩
  · intro hkey
    rw [verifyPasswordUnits_hashPassword]
    have h : ¬ (K (utf8Encode p) (utf8Encode (utf16Units (toHex rnd))) 64).val =
        (K (utf8Encode w) (utf8Encode (utf16Units (toHex rnd))) 64).val := fun e => hkey e.symm
    simp [h]
  · intro henc
    rw [verifyPasswordUnits_hashPassword, henc]
    simp

theorem verify_accepts_iff_same_key_witness :
    (demoScryptBytes (utf8Encode (utf16Units "wrong"))
        (utf8Encode (utf16Units (toHex [7, 9]))) 64).val ≠
      (demoScryptBytes (utf8Encode (utf16Units "secret1"))
        (utf8Encode (utf16Units (toHex [7, 9]))) 64).val ∧
    verifyPasswordUnits demoScryptBytes (utf16Units "wrong")
      (hashPasswordUnitsDefault demoScryptBytes (utf16Units "secret1") [7, 9]) = .ok false :=
  ⟨by decide,
    (verify_accepts_iff_same_key demoScryptBytes (utf16Units "secret1") (utf16Units "wrong")
      [7, 9]).2.1 (by decide)⟩

set_option maxRecDepth 200000 in
theorem verifyPasswordUnits_surrogates :
    verifyPasswordUnits demoScryptBytes [56319]
      (hashPasswordUnitsDefault demoScryptBytes [55296] [7, 9]) = .ok true := rfl

/-- C5 (as stated) fails: the string made of the one code unit `D800` and the string made
of the one code unit `DBFF`, each an unpaired surrogate, are different passwords with the
same UTF-8 bytes `EF BF BD`, so the second is accepted against the stored hash of the
first, for every key derivation and every salt; the instance with the stand-in derivation
and the salt bytes `07 09` evaluates to `true`. -/
theorem verify_rejects_counterexample :
    ([56319] : JsString) ≠ [55296] ∧
    utf8Encode [55296] = [239, 191, 189] ∧ utf8Encode [56319] = [239, 191, 189] ∧
    (∀ (K : ScryptBytes) (rnd : List Byte),
      verifyPasswordUnits K [56319] (hashPasswordUnitsDefault K [55296] rnd) = .ok true) ∧
    verifyPasswordUnits demoScryptBytes [56319]
      (hashPasswordUnitsDefault demoScryptBytes [55296] [7, 9]) = .ok true :=
  ⟨by decide, rfl, rfl,
    fun K rnd => by
      rw [verifyPasswordUnits_hashPassword]
      have h : utf8Encode [56319] = utf8Encode [55296] := rfl
      rw [h]
      simp,
    verifyPasswordUnits_surrogates⟩

/-! ## Sessions: proofs -/

theorem Sessions.get_delete_self (m : Sessions) (sid : String) :
    Sessions.get (Sessions.delete m sid) sid = none := by
  induction m with
  | nil => rfl
  | cons e rest ih =>
    obtain ⟨k, v⟩ := e
    unfold Sessions.delete at ih ⊢
    by_cases h : k = sid
    · rw [List.filter_cons_of_neg (by simp [h])]; exact ih
    · rw [List.filter_cons_of_pos (by simp [h])]
      simp only [Sessions.get, h, if_false]; exact ih

theorem Sessions.get_delete_other (m : Sessions) (sid k : String) (hk : k ≠ sid) :
    Sessions.get (Sessions.delete m sid) k = Sessions.get m k := by
  induction m with
  | nil => rfl
  | cons e rest ih =>
    obtain ⟨k1, v⟩ := e
    unfold Sessions.delete at ih ⊢
    by_cases h : k1 = sid
    · have h2 : ¬ k1 = k := fun e => hk (e ▸ h)
      rw [List.filter_cons_of_neg (by simp [h])]
      simp only [Sessions.get, h2, if_false]; exact ih
    · rw [List.filter_cons_of_pos (by simp [h])]
      simp only [Sessions.get]; rw [ih]

theorem Sessions.get_append_of_none (m n : Sessions) (sid : String)
    (h : Sessions.get m sid = none) : Sessions.get (m ++ n) sid = Sessions.get n sid := by
  induction m with
  | nil => rfl
  | cons e rest ih =>
    obtain ⟨k, v⟩ := e
    by_cases hk : k = sid
    · simp [Sessions.get, hk] at h
    · simp only [Sessions.get, hk, if_false] at h
      simp [Sessions.get, hk, ih h]

theorem Sessions.get_set_self (m : Sessions) (sid : String) (s : Session) :
    Sessions.get (Sessions.set m sid s) sid = some s := by
  unfold Sessions.set
  rw [Sessions.get_append_of_none _ _ _ (Sessions.get_delete_self m sid)]
  simp [Sessions.get]

theorem getSessionUser_of_sid (P : Platform) (env : Env) (m : Sessions) (req : Request)
    (sid : String) (hsid : cookieSid P req = .ok (some sid)) (hne : sid ≠ "") :
    getSessionUser P env m req =
      match Sessions.get m sid with
      | none => .ok (Sessions.delete m sid, none)
      | some session =>
        if env.now > session.expiresAt then .ok (Sessions.delete m sid, none)
        else .ok (m, some session.user) := by
  simp only [getSessionUser, hsid, hne, if_false]

theorem handleLogin_session (P : Platform) (env : Env) (st st1 : State) (req : Request)
    (r : Response) (h : handleLogin P env st req = .ok (st1, r)) (h200 : r.status = 200) :
    ∃ u, Sessions.get st1.sessions env.uuid =
      some { user := u, expiresAt := env.now + SESSION_TTL_MS } := by
  unfold handleLogin at h
  split at h
  · simp only [Except.ok.injEq, Prod.mk.injEq] at h
    rw [← h.2] at h200; simp [json] at h200
  · split at h
    split at h
    · simp only [Except.ok.injEq, Prod.mk.injEq] at h
      rw [← h.2] at h200; simp [json] at h200
    · split at h
      · simp only [Except.ok.injEq, Prod.mk.injEq] at h
        rw [← h.2] at h200; simp [json] at h200
      · split at h
        · simp only [Except.ok.injEq, Prod.mk.injEq] at h
          rw [← h.2] at h200; simp [json] at h200
        · split at h
          · simp only [Except.ok.injEq, Prod.mk.injEq] at h
            rw [← h.2] at h200; simp [json] at h200
          · simp only [Except.ok.injEq, Prod.mk.injEq] at h
            rw [← h.2] at h200; simp [json] at h200
          · simp only [Except.ok.injEq, Prod.mk.injEq] at h
            rw [← h.1]
            exact ⟨_, Sessions.get_set_self _ _ _⟩

/-- C3: with a session id `sid` present in the cookie, `getSessionUser` returns the bound
user exactly when the map holds a session under `sid` with `now ≤ expiresAt`; in every
other case it returns `null`, the map afterwards holds nothing under `sid` and every
other key is unchanged. A login answered 200 at time `t` stores `expiresAt = t + 8 h`,
and a session with that expiry is answered 401 and removed at any time after `t + 8 h`. -/
theorem getSessionUser_resolves (P : Platform) (env : Env) (m : Sessions) (req : Request)
    (sid : String) (hsid : cookieSid P req = .ok (some sid)) (hne : sid ≠ "") :
    (∀ u, (∃ m1, getSessionUser P env m req = .ok (m1, some u)) ↔
        ∃ s, Sessions.get m sid = some s ∧ env.now ≤ s.expiresAt ∧ s.user = u) ∧
    ((¬ ∃ s, Sessions.get m sid = some s ∧ env.now ≤ s.expiresAt) →
        ∃ m1, getSessionUser P env m req = .ok (m1, none) ∧ Sessions.get m1 sid = none ∧
          ∀ k, k ≠ sid → Sessions.get m1 k = Sessions.get m k) ∧
    (∀ (st : State) (t : Nat) (u : SessionUser), st.sessions = m →
        Sessions.get m sid = some { user := u, expiresAt := t + 8 * 60 * 60 * 1000 } →
        env.now > t + 8 * 60 * 60 * 1000 →
        ∃ st1, requireAuth P env st req =
            .ok (st1, .reject (json 401 (.message "Unauthorized"))) ∧
          Sessions.get st1.sessions sid = none) ∧
    (∀ (env0 : Env) (st0 st1 : State) (req0 : Request) (r : Response),
        handleLogin P env0 st0 req0 = .ok (st1, r) → r.status = 200 →
        ∃ u, Sessions.get st1.sessions env0.uuid =
          some { user := u, expiresAt := env0.now + 8 * 60 * 60 * 1000 }) := by
  have hg := getSessionUser_of_sid P env m req sid hsid hne
  refine ⟨?_, ?_, ?_, ?_⟩
  · intro u
    rw [hg]
    cases hget : Sessions.get m sid with
    | none => simp
    | some s =>
      by_cases hexp : env.now > s.expiresAt
      · simp only [hexp, if_true]
        constructor
        · rintro ⟨m1, h⟩; simp at h
        · rintro ⟨s1, h1, h2, _⟩
          simp only [Option.some.injEq] at h1
          subst h1; omega
      · simp only [hexp, if_false]
        constructor
        · rintro ⟨m1, h⟩
          simp only [Except.ok.injEq, Prod.mk.injEq, Option.some.injEq] at h
          exact ⟨s, rfl, by omega, h.2⟩
        · rintro ⟨s1, h1, _, h3⟩
          simp only [Option.some.injEq] at h1
          subst h1
          exact ⟨m, by rw [h3]⟩
  · intro hno
    refine ⟨Sessions.delete m sid, ?_, Sessions.get_delete_self m sid,
      fun k hk => Sessions.get_delete_other m sid k hk⟩
    rw [hg]
    cases hget : Sessions.get m sid with
    | none => rfl
    | some s =>
      have hexp : env.now > s.expiresAt := by
        by_contra hc
        exact hno ⟨s, hget, by omega⟩
      simp only [hexp, if_true]
  · intro st t u hst hget hlate
    refine ⟨{ st with sessions := Sessions.delete m sid }, ?_, Sessions.get_delete_self m sid⟩
    unfold requireAuth
    rw [hst, hg, hget]
    simp only [hlate, if_true]
  · intro env0 st0 st1 req0 r h h200
    exact handleLogin_session P env0 st0 st1 req0 r h h200

theorem getSessionUser_resolves_witness :
    cookieSid demoPlatform (demoRequest "theme=dark; sid=abc" (.obj [])) = .ok (some "abc") ∧
    "abc" ≠ "" ∧
    ∃ st1, requireAuth demoPlatform (demoEnv 28800006 "x")
        { sessions := [("abc", { user := { id := "u-user", username := "user", role := "user" },
                                 expiresAt := 5 + 8 * 60 * 60 * 1000 })],
          db := none, files := [] }
        (demoRequest "theme=dark; sid=abc" (.obj [])) =
          .ok (st1, .reject (json 401 (.message "Unauthorized"))) ∧
      Sessions.get st1.sessions "abc" = none :=
  ⟨rfl, by decide,
    (getSessionUser_resolves demoPlatform (demoEnv 28800006 "x") _
      (demoRequest "theme=dark; sid=abc" (.obj [])) "abc" rfl (by decide)).2.2.1
      _ 5 _ rfl rfl (by decide)⟩

/-! ## Authorization: proofs -/

theorem requireAuth_eq (P : Platform) (env : Env) (st : State) (req : Request) :
    requireAuth P env st req =
      match getSessionUser P env st.sessions req with
      | .error e => .error e
      | .ok (m1, none) =>
        .ok ({ st with sessions := m1 }, .reject (json 401 (.message "Unauthorized")))
      | .ok (m1, some u) => .ok ({ st with sessions := m1 }, .user u) := by
  unfold requireAuth
  split <;> simp_all

theorem requireAuth_db (P : Platform) (env : Env) (st st1 : State) (req : Request) (a : Auth)
    (h : requireAuth P env st req = .ok (st1, a)) : st1.db = st.db ∧ st1.files = st.files := by
  rw [requireAuth_eq] at h
  split at h
  · simp at h
  · simp only [Except.ok.injEq, Prod.mk.injEq] at h; rw [← h.1]; exact ⟨rfl, rfl⟩
  · simp only [Except.ok.injEq, Prod.mk.injEq] at h; rw [← h.1]; exact ⟨rfl, rfl⟩

theorem requireAdmin_db (P : Platform) (env : Env) (st st1 : State) (req : Request) (a : Auth)
    (h : requireAdmin P env st req = .ok (st1, a)) : st1.db = st.db ∧ st1.files = st.files := by
  unfold requireAdmin at h
  split at h
  · simp at h
  · rename_i st2 r hra
    simp only [Except.ok.injEq, Prod.mk.injEq] at h; rw [← h.1]
    exact requireAuth_db P env st st2 req _ hra
  · rename_i st2 u hra
    split at h <;>
    · simp only [Except.ok.injEq, Prod.mk.injEq] at h; rw [← h.1]
      exact requireAuth_db P env st st2 req _ hra

theorem requireAdmin_reject_status (P : Platform) (env : Env) (st st1 : State)
    (req : Request) (r : Response) (h : requireAdmin P env st req = .ok (st1, .reject r)) :
    r.status = 401 ∨ r.status = 403 := by
  simp only [requireAdmin, requireAuth_eq] at h
  cases hg : getSessionUser P env st.sessions req with
  | error e => simp [hg] at h
  | ok v =>
    obtain ⟨m1, ou⟩ := v
    cases ou with
    | none =>
      simp only [hg, Except.ok.injEq, Prod.mk.injEq, Auth.reject.injEq] at h
      rw [← h.2]; left; rfl
    | some u1 =>
      simp only [hg] at h
      by_cases hrole : u1.role = "admin"
      · simp [hrole] at h
      · simp only [hrole, ne_eq, not_false_eq_true, if_true, Except.ok.injEq,
          Prod.mk.injEq, Auth.reject.injEq] at h
        rw [← h.2]; right; rfl

/-- C2: `requireAdmin` answers 401 when `getSessionUser` finds no valid session, 403 when
the session is valid and the role is not `admin`, and returns a user only if that user
is the session user and has role `admin`. Whenever it rejects (or the cookie header
throws), `POST /api/apps`, `PUT /api/apps/:id` and `DELETE /api/apps/:id` answer with that
rejection and leave the persisted document and the uploaded files as they were. -/
theorem requireAdmin_gate (P : Platform) (env : Env) (st : State) (req : Request) :
    (∀ m1, getSessionUser P env st.sessions req = .ok (m1, none) →
        requireAdmin P env st req =
          .ok ({ st with sessions := m1 }, .reject (json 401 (.message "Unauthorized")))) ∧
    (∀ m1 u, getSessionUser P env st.sessions req = .ok (m1, some u) → u.role ≠ "admin" →
        requireAdmin P env st req =
          .ok ({ st with sessions := m1 }, .reject (json 403 (.message "Forbidden")))) ∧
    (∀ st1 u, requireAdmin P env st req = .ok (st1, .user u) →
        u.role = "admin" ∧ getSessionUser P env st.sessions req = .ok (st1.sessions, some u)) ∧
    (∀ st1 r, requireAdmin P env st req = .ok (st1, .reject r) →
        (r.status = 401 ∨ r.status = 403) ∧ st1.db = st.db ∧ st1.files = st.files ∧
        handleCreate P env st req = .ok (st1, r) ∧
        ∀ id, handleUpdate P env st req id = .ok (st1, r) ∧
          handleDelete P env st req id = .ok (st1, r)) ∧
    (∀ e, requireAdmin P env st req = .error e →
        handleCreate P env st req = .error e ∧
        ∀ id, handleUpdate P env st req id = .error e ∧
          handleDelete P env st req id = .error e) := by
  refine ⟨?_, ?_, ?_, ?_, ?_⟩
  · intro m1 h
    simp only [requireAdmin, requireAuth_eq, h]
  · intro m1 u h hrole
    simp only [requireAdmin, requireAuth_eq, h, hrole, ne_eq, not_false_eq_true, if_true]
  · intro st1 u h
    simp only [requireAdmin, requireAuth_eq] at h
    cases hg : getSessionUser P env st.sessions req with
    | error e => simp [hg] at h
    | ok v =>
      obtain ⟨m1, ou⟩ := v
      cases ou with
      | none => simp [hg] at h
      | some u1 =>
        simp only [hg] at h
        by_cases hrole : u1.role = "admin"
        · simp only [hrole, ne_eq, not_true_eq_false, if_false, Except.ok.injEq, Prod.mk.injEq,
            Auth.user.injEq] at h
          obtain ⟨h1, h2⟩ := h
          subst h2; subst h1
          exact ⟨hrole, rfl⟩
        · simp [hrole] at h
  · intro st1 r h
    have hdb := requireAdmin_db P env st st1 req _ h
    refine ⟨?_, hdb.1, hdb.2, ?_, fun id => ⟨?_, ?_⟩⟩
    · exact requireAdmin_reject_status P env st st1 req r h
    · simp only [handleCreate, h]
    · simp only [handleUpdate, h]
    · simp only [handleDelete, h]
  · intro e h
    refine ⟨?_, fun id => ⟨?_, ?_⟩⟩
    · simp only [handleCreate, h]
    · simp only [handleUpdate, h]
    · simp only [handleDelete, h]

theorem requireAdmin_gate_witness :
    handleCreate demoPlatform (demoEnv 100 "new-id") userState
        (demoRequest "sid=s-user" (.obj [("title", .str "Injected")])) =
      .ok (userState, json 403 (.message "Forbidden")) ∧
    handleDelete demoPlatform (demoEnv 100 "new-id") userState
        (demoRequest "sid=s-user" (.obj [("title", .str "Injected")])) "seed-app" =
      .ok (userState, json 403 (.message "Forbidden")) :=
  have h := (requireAdmin_gate demoPlatform (demoEnv 100 "new-id") userState
    (demoRequest "sid=s-user" (.obj [("title", .str "Injected")]))).2.2.2.1
      userState (json 403 (.message "Forbidden")) rfl
  ⟨h.2.2.2.1, (h.2.2.2.2 "seed-app").2⟩

/-! ## Sorting: proofs -/

theorem insertOrdered_split {α : Type} (cmp : α → α → Except JsError Int) (x : α)
    (ys r : List α) (h : insertOrdered cmp x ys = .ok r) :
    ∃ l1 l2, ys = l1 ++ l2 ∧ r = l1 ++ x :: l2 ∧
      (∀ y ∈ l1, ∃ c, cmp x y = .ok c ∧ ¬ c < 0) ∧
      (∀ y, l2.head? = some y → ∃ c, cmp x y = .ok c ∧ c < 0) := by
  induction ys generalizing r with
  | nil =>
    simp only [insertOrdered, Except.ok.injEq] at h
    exact ⟨[], [], rfl, by rw [← h]; rfl, by simp, by simp⟩
  | cons y ys ih =>
    simp only [insertOrdered] at h
    cases hc : cmp x y with
    | error e => simp [hc] at h
    | ok c =>
      simp only [hc] at h
      by_cases hlt : c < 0
      · simp only [hlt, if_true, Except.ok.injEq] at h
        refine ⟨[], y :: ys, rfl, by rw [← h]; rfl, by simp, ?_⟩
        intro y1 hy1
        simp only [List.head?_cons, Option.some.injEq] at hy1
        subst hy1
        exact ⟨c, hc, hlt⟩
      · simp only [hlt, if_false] at h
        cases hr : insertOrdered cmp x ys with
        | error e => simp [hr] at h
        | ok r1 =>
          simp only [hr, Except.ok.injEq] at h
          obtain ⟨l1, l2, h1, h2, h3, h4⟩ := ih r1 hr
          refine ⟨y :: l1, l2, by rw [h1]; rfl, by rw [← h, h2]; rfl, ?_, h4⟩
          intro z hz
          simp only [List.mem_cons] at hz
          rcases hz with hz | hz
          · subst hz; exact ⟨c, hc, hlt⟩
          · exact h3 z hz

theorem insertOrdered_pairwise {α : Type} {cmp : α → α → Except JsError Int}
    {le : α → α → Prop} (O : SortOrder α cmp le) (x : α) (ys r : List α)
    (hs : ys.Pairwise le) (h : insertOrdered cmp x ys = .ok r) : r.Pairwise le := by
  obtain ⟨l1, l2, h1, h2, h3, h4⟩ := insertOrdered_split cmp x ys r h
  subst h1; subst h2
  rw [List.pairwise_append] at hs ⊢
  obtain ⟨hs1, hs2, hs3⟩ := hs
  have hx1 : ∀ a ∈ l1, le a x := by
    intro a ha
    obtain ⟨c, hc, hnlt⟩ := h3 a ha
    by_contra hle
    exact hnlt ((O.neg_iff x a c hc).2 hle)
  have hx2 : ∀ b ∈ l2, le x b := by
    intro b hb
    cases l2 with
    | nil => simp at hb
    | cons y l2 =>
      obtain ⟨c, hc, hlt⟩ := h4 y rfl
      have hxy : le x y := by
        rcases O.total x y with h | h
        · exact h
        · exact absurd h ((O.neg_iff x y c hc).1 hlt)
      simp only [List.mem_cons] at hb
      rcases hb with hb | hb
      · subst hb; exact hxy
      · exact O.trans _ _ _ hxy (List.rel_of_pairwise_cons hs2 hb)
  refine ⟨hs1, List.pairwise_cons.2 ⟨hx2, hs2⟩, ?_⟩
  intro a ha b hb
  simp only [List.mem_cons] at hb
  rcases hb with hb | hb
  · subst hb; exact hx1 a ha
  · exact hs3 a ha b hb

theorem insertOrdered_filter {α : Type} {cmp : α → α → Except JsError Int}
    {le : α → α → Prop} (O : SortOrder α cmp le) (p : α → Bool)
    (hp : ∀ a b, p a = true → p b = true → le a b) (x : α) (ys r : List α)
    (hs : ys.Pairwise le) (h : insertOrdered cmp x ys = .ok r) :
    r.filter p = (ys ++ [x]).filter p := by
  obtain ⟨l1, l2, h1, h2, _, h4⟩ := insertOrdered_split cmp x ys r h
  subst h1; subst h2
  cases hpx : p x with
  | false => simp [List.filter_append, List.filter_cons, hpx]
  | true =>
    have hl2 : l2.filter p = [] := by
      rw [List.filter_eq_nil_iff]
      intro z hz hpz
      cases l2 with
      | nil => simp at hz
      | cons y l2 =>
        obtain ⟨c, hc, hlt⟩ := h4 y rfl
        have hnle : ¬ le y x := (O.neg_iff x y c hc).1 hlt
        have hzx : le z x := hp z x hpz hpx
        rw [List.pairwise_append] at hs
        simp only [List.mem_cons] at hz
        rcases hz with hz | hz
        · subst hz; exact hnle hzx
        · exact hnle (O.trans _ _ _ (List.rel_of_pairwise_cons hs.2.1 hz) hzx)
    simp [List.filter_append, List.filter_cons, hpx, hl2]

theorem arraySortFrom_spec {α : Type} {cmp : α → α → Except JsError Int}
    {le : α → α → Prop} (O : SortOrder α cmp le) (p : α → Bool)
    (hp : ∀ a b, p a = true → p b = true → le a b) (xs run r : List α)
    (hs : run.Pairwise le) (h : arraySortFrom cmp run xs = .ok r) :
    r.Pairwise le ∧ r.Perm (run ++ xs) ∧ r.filter p = (run ++ xs).filter p := by
  induction xs generalizing run with
  | nil =>
    simp only [arraySortFrom, Except.ok.injEq] at h
    subst h
    simp [hs]
  | cons x xs ih =>
    simp only [arraySortFrom] at h
    cases hi : insertOrdered cmp x run with
    | error e => simp [hi] at h
    | ok run1 =>
      simp only [hi] at h
      have hs1 := insertOrdered_pairwise O x run run1 hs hi
      have hf1 := insertOrdered_filter O p hp x run run1 hs hi
      obtain ⟨l1, l2, h1, h2, _, _⟩ := insertOrdered_split cmp x run run1 hi
      obtain ⟨ih1, ih2, ih3⟩ := ih run1 hs1 h
      refine ⟨ih1, ?_, ?_⟩
      · refine ih2.trans ?_
        subst h1; subst h2
        simp only [List.append_assoc, List.cons_append]
        exact List.Perm.append_left l1 (List.perm_middle.symm)
      · rw [ih3, List.filter_append, hf1]
        simp only [List.filter_append, List.append_assoc]
        rw [← List.filter_append]; rfl

theorem arraySort_spec {α : Type} {cmp : α → α → Except JsError Int}
    {le : α → α → Prop} (O : SortOrder α cmp le) (p : α → Bool)
    (hp : ∀ a b, p a = true → p b = true → le a b) (xs r : List α)
    (h : arraySort cmp xs = .ok r) :
    r.Pairwise le ∧ r.Perm xs ∧ r.filter p = xs.filter p := by
  simpa using arraySortFrom_spec O p hp xs [] r List.Pairwise.nil h

theorem arraySortFrom_perm {α : Type} (cmp : α → α → Except JsError Int)
    (xs run r : List α) (h : arraySortFrom cmp run xs = .ok r) : r.Perm (run ++ xs) := by
  induction xs generalizing run with
  | nil =>
    simp only [arraySortFrom, Except.ok.injEq] at h
    subst h; simp
  | cons x xs ih =>
    simp only [arraySortFrom] at h
    cases hi : insertOrdered cmp x run with
    | error e => simp [hi] at h
    | ok run1 =>
      simp only [hi] at h
      obtain ⟨l1, l2, h1, h2, _, _⟩ := insertOrdered_split cmp x run run1 hi
      refine (ih run1 h).trans ?_
      subst h1; subst h2
      simp only [List.append_assoc, List.cons_append]
      exact List.Perm.append_left l1 (List.perm_middle.symm)

theorem arraySort_perm {α : Type} (cmp : α → α → Except JsError Int)
    (xs r : List α) (h : arraySort cmp xs = .ok r) : r.Perm xs := by
  simpa using arraySortFrom_perm cmp xs [] r h

theorem compareKeys_swap (a b : List Nat) : compareKeys b a = - compareKeys a b := by
  induction a generalizing b with
  | nil => cases b <;> simp [compareKeys]
  | cons x xs ih =>
    cases b with
    | nil => simp [compareKeys]
    | cons y ys =>
      simp only [compareKeys]
      by_cases h1 : x < y
      · have h2 : ¬ y < x := by omega
        simp [h1, h2]
      · by_cases h2 : y < x
        · simp [h1, h2]
        · simp [h1, h2, ih ys]

theorem compareKeys_self (a : List Nat) : compareKeys a a = 0 := by
  induction a with
  | nil => rfl
  | cons x xs ih => simp [compareKeys, ih]

theorem compareKeys_trans (a b c : List Nat) (h1 : compareKeys a b ≤ 0)
    (h2 : compareKeys b c ≤ 0) : compareKeys a c ≤ 0 := by
  induction a generalizing b c with
  | nil => cases c <;> simp [compareKeys]
  | cons x xs ih =>
    cases b with
    | nil => simp [compareKeys] at h1
    | cons y ys =>
      cases c with
      | nil => simp [compareKeys] at h2
      | cons z zs =>
        simp only [compareKeys] at h1 h2 ⊢
        by_cases hxy : x < y
        · by_cases hyz : y < z
          · have : x < z := by omega
            simp [this]
          · by_cases hzy : z < y
            · simp [hyz, hzy] at h2
            · have : x < z := by omega
              simp [this]
        · by_cases hyx : y < x
          · simp [hxy, hyx] at h1
          · simp only [hxy, hyx, if_false] at h1
            have hxeq : x = y := by omega
            subst hxeq
            by_cases hyz : x < z
            · simp [hyz]
            · by_cases hzy : z < x
              · simp [hyz, hzy] at h2
              · simp only [hyz, hzy, if_false] at h2 ⊢
                exact ih ys zs h1 h2

theorem sortOrder_oldest (P : Platform) :
    SortOrder App (compareApps P "oldest") (fun a b => a.uploadDate ≤ b.uploadDate) where
  total := fun a b => Nat.le_total _ _
  trans := fun a b c h1 h2 => Nat.le_trans h1 h2
  neg_iff := by
    intro x y c h
    simp only [compareApps, if_true, Except.ok.injEq] at h
    subst h
    omega

theorem sortOrder_newest (P : Platform) (sort : String) (h1 : sort ≠ "oldest")
    (h2 : sort ≠ "title") :
    SortOrder App (compareApps P sort) (fun a b => b.uploadDate ≤ a.uploadDate) where
  total := fun a b => Nat.le_total _ _
  trans := fun a b c h1 h2 => Nat.le_trans h2 h1
  neg_iff := by
    intro x y c h
    simp only [compareApps, h1, h2, if_false, Except.ok.injEq] at h
    subst h
    omega

theorem compareApps_title_ok (P : Platform) (x y : App) (c : Int)
    (h : compareApps P "title" x y = .ok c) :
    ∃ s t, x.title = .str s ∧ y.title.toStr = .ok t ∧ c = P.localeCompare s t := by
  have hne : ("title" : String) ≠ "oldest" := by decide
  simp only [compareApps, hne, if_false, if_true] at h
  cases ht : x.title with
  | str s =>
    simp only [ht] at h
    cases hy : y.title.toStr with
    | error e => simp [hy] at h
    | ok t =>
      simp only [hy, Except.ok.injEq] at h
      exact ⟨s, t, rfl, rfl, h.symm⟩
  | undefined => simp [ht] at h
  | null => simp [ht] at h
  | bool b => simp [ht] at h
  | num n => simp [ht] at h
  | arr xs => simp [ht] at h
  | obj fs => simp [ht] at h

theorem textOf_of_ok (v : JVal) (s : String) (h : v.toStr = .ok s) : textOf v = s := by
  simp only [textOf, h]

theorem sortOrder_title (P : Platform) :
    SortOrder App (compareApps P "title")
      (fun a b => P.localeCompare (textOf a.title) (textOf b.title) ≤ 0) where
  total := by
    intro a b
    simp only [Platform.localeCompare]
    rw [compareKeys_swap (P.collationKey (textOf a.title))]
    omega
  trans := fun a b c h1 h2 => compareKeys_trans _ _ _ h1 h2
  neg_iff := by
    intro x y c h
    obtain ⟨s, t, hx, hy, hc⟩ := compareApps_title_ok P x y c h
    have hxs : textOf x.title = s := textOf_of_ok _ _ (by rw [hx]; rfl)
    have hyt : textOf y.title = t := textOf_of_ok _ _ hy
    rw [hxs, hyt, hc]
    simp only [Platform.localeCompare]
    rw [compareKeys_swap (P.collationKey s)]
    omega

theorem insertOrdered_calls {α : Type} (cmp : α → α → Except JsError Int) (x y : α)
    (ys r : List α) (h : insertOrdered cmp x (y :: ys) = .ok r) :
    (∃ c, cmp x y = .ok c) ∧ r ≠ [] := by
  simp only [insertOrdered] at h
  cases hc : cmp x y with
  | error e => simp [hc] at h
  | ok c =>
    refine ⟨⟨c, rfl⟩, ?_⟩
    simp only [hc] at h
    split at h
    · simp only [Except.ok.injEq] at h; rw [← h]; simp
    · split at h
      · simp at h
      · simp only [Except.ok.injEq] at h; rw [← h]; simp

theorem arraySortFrom_calls {α : Type} (cmp : α → α → Except JsError Int)
    (xs run r : List α) (hrun : run ≠ []) (h : arraySortFrom cmp run xs = .ok r) :
    ∀ x ∈ xs, ∃ y c, cmp x y = .ok c := by
  induction xs generalizing run with
  | nil => intro x hx; simp at hx
  | cons z zs ih =>
    simp only [arraySortFrom] at h
    cases hi : insertOrdered cmp z run with
    | error e => simp [hi] at h
    | ok run1 =>
      simp only [hi] at h
      cases run with
      | nil => exact absurd rfl hrun
      | cons y ys =>
        obtain ⟨⟨c, hc⟩, hne⟩ := insertOrdered_calls cmp z y ys run1 hi
        intro x hx
        simp only [List.mem_cons] at hx
        rcases hx with hx | hx
        · rw [hx]; exact ⟨y, c, hc⟩
        · exact ih run1 hne h x hx

theorem arraySort_calls {α : Type} (cmp : α → α → Except JsError Int)
    (e0 e1 : α) (rest r : List α) (h : arraySort cmp (e0 :: e1 :: rest) = .ok r) :
    (∃ c, cmp e1 e0 = .ok c) ∧ ∀ x ∈ e1 :: rest, ∃ y c, cmp x y = .ok c := by
  have h1 : arraySortFrom cmp [e0] (e1 :: rest) = .ok r := by
    simpa [arraySort, arraySortFrom, insertOrdered] using h
  refine ⟨?_, arraySortFrom_calls cmp (e1 :: rest) [e0] r (by simp) h1⟩
  simp only [arraySortFrom] at h1
  cases hi : insertOrdered cmp e1 [e0] with
  | error e => simp [hi] at h1
  | ok run1 => exact (insertOrdered_calls cmp e1 e0 [] run1 hi).1

theorem arraySort_title_texts (P : Platform) (xs r : List App)
    (h : arraySort (compareApps P "title") xs = .ok r) (hlen : 2 ≤ xs.length) :
    ∀ a ∈ xs, ∃ s, a.title.toStr = .ok s := by
  cases xs with
  | nil => simp at hlen
  | cons e0 tl =>
    cases tl with
    | nil => simp at hlen
    | cons e1 rest =>
      obtain ⟨⟨c, hc⟩, hall⟩ := arraySort_calls _ e0 e1 rest r h
      intro a ha
      simp only [List.mem_cons] at ha
      rcases ha with ha | ha
      · obtain ⟨s, t, _, hy, _⟩ := compareApps_title_ok P e1 e0 c hc
        rw [ha]; exact ⟨t, hy⟩
      · obtain ⟨y, c1, hc1⟩ := hall a (by simpa using ha)
        obtain ⟨s, t, hx, _, _⟩ := compareApps_title_ok P a y c1 hc1
        exact ⟨s, by rw [hx]; rfl⟩

theorem arraySortFrom_total {α : Type} (cmp : α → α → Except JsError Int) (xs run : List α)
    (h : ∀ x ∈ xs, ∀ y, ∃ c, cmp x y = .ok c) : ∃ r, arraySortFrom cmp run xs = .ok r := by
  have hins : ∀ (x : α), (∀ y, ∃ c, cmp x y = .ok c) → ∀ ys, ∃ r, insertOrdered cmp x ys = .ok r := by
    intro x hx ys
    induction ys with
    | nil => exact ⟨[x], rfl⟩
    | cons y ys ih =>
      obtain ⟨c, hc⟩ := hx y
      obtain ⟨r1, hr1⟩ := ih
      simp only [insertOrdered, hc, hr1]
      by_cases hlt : c < 0
      · simp [hlt]
      · simp [hlt]
  induction xs generalizing run with
  | nil => exact ⟨run, rfl⟩
  | cons x xs ih =>
    obtain ⟨r1, hr1⟩ := hins x (h x (List.mem_cons_self _ _)) run
    simp only [arraySortFrom, hr1]
    exact ih r1 (fun z hz => h z (List.mem_cons_of_mem _ hz))

theorem insertOrdered_total_on {α : Type} (cmp : α → α → Except JsError Int) (Q : α → Prop)
    (hQ : ∀ x y, Q x → Q y → ∃ c, cmp x y = .ok c) (x : α) (hx : Q x) (ys : List α)
    (hys : ∀ y ∈ ys, Q y) :
    ∃ r, insertOrdered cmp x ys = .ok r ∧ ∀ z ∈ r, Q z := by
  induction ys with
  | nil =>
    refine ⟨[x], rfl, ?_⟩
    intro z hz
    simp only [List.mem_singleton] at hz
    rw [hz]; exact hx
  | cons y ys ih =>
    obtain ⟨c, hc⟩ := hQ x y hx (hys y (List.mem_cons_self _ _))
    obtain ⟨r1, hr1, hq1⟩ := ih (fun z hz => hys z (List.mem_cons_of_mem _ hz))
    simp only [insertOrdered, hc, hr1]
    by_cases hlt : c < 0
    · refine ⟨x :: y :: ys, by simp [hlt], ?_⟩
      intro z hz
      simp only [List.mem_cons] at hz
      rcases hz with hz | hz | hz
      · rw [hz]; exact hx
      · rw [hz]; exact hys y (List.mem_cons_self _ _)
      · exact hys z (List.mem_cons_of_mem _ hz)
    · refine ⟨y :: r1, by simp [hlt], ?_⟩
      intro z hz
      simp only [List.mem_cons] at hz
      rcases hz with hz | hz
      · rw [hz]; exact hys y (List.mem_cons_self _ _)
      · exact hq1 z hz

theorem arraySortFrom_total_on {α : Type} (cmp : α → α → Except JsError Int) (Q : α → Prop)
    (hQ : ∀ x y, Q x → Q y → ∃ c, cmp x y = .ok c) (xs run : List α)
    (hxs : ∀ x ∈ xs, Q x) (hrun : ∀ y ∈ run, Q y) :
    ∃ r, arraySortFrom cmp run xs = .ok r := by
  induction xs generalizing run with
  | nil => exact ⟨run, rfl⟩
  | cons x xs ih =>
    obtain ⟨r1, hr1, hq1⟩ :=
      insertOrdered_total_on cmp Q hQ x (hxs x (List.mem_cons_self _ _)) run hrun
    simp only [arraySortFrom, hr1]
    exact ih r1 (fun z hz => hxs z (List.mem_cons_of_mem _ hz)) hq1

theorem arraySort_title_total (P : Platform) (xs : List App)
    (h : ∀ a ∈ xs, ∃ s, a.title = .str s) :
    ∃ r, arraySort (compareApps P "title") xs = .ok r := by
  apply arraySortFrom_total_on (compareApps P "title") (fun a => ∃ s, a.title = .str s) ?_ xs []
    h (by simp)
  intro x y hx hy
  obtain ⟨s, hs⟩ := hx
  obtain ⟨t, ht⟩ := hy
  have hne : ("title" : String) ≠ "oldest" := by decide
  refine ⟨P.localeCompare s t, ?_⟩
  simp only [compareApps, hne, if_false, if_true, hs, ht, JVal.toStr]

theorem textOf_of_textIs (t : String) (v : JVal) (h : textIs t v = true) : textOf v = t := by
  unfold textIs at h
  unfold textOf
  cases hv : v.toStr with
  | error e => simp [hv] at h
  | ok s =>
    simp only [hv] at h
    simpa using h

/-! ## Catalog listing: proofs -/

theorem filterSearch_ok (P : Platform) (search : String) (apps kept : List App)
    (h : filterSearch P search apps = .ok kept) :
    kept.Sublist apps ∧
    (∀ a ∈ apps, ∃ b, matchesSearch P search a = .ok b) ∧
    (∀ a, a ∈ kept ↔ a ∈ apps ∧ matchesSearch P search a = .ok true) := by
  induction apps generalizing kept with
  | nil =>
    simp only [filterSearch, Except.ok.injEq] at h
    subst h
    simp
  | cons x rest ih =>
    simp only [filterSearch] at h
    cases hm : matchesSearch P search x with
    | error e => simp [hm] at h
    | ok keep =>
      simp only [hm] at h
      cases hr : filterSearch P search rest with
      | error e => simp [hr] at h
      | ok kept1 =>
        simp only [hr, Except.ok.injEq] at h
        obtain ⟨ih1, ih2, ih3⟩ := ih kept1 hr
        refine ⟨?_, ?_, ?_⟩
        · rw [← h]
          cases keep with
          | true => simpa using ih1.cons₂ x
          | false => simpa using ih1.cons x
        · intro a ha
          simp only [List.mem_cons] at ha
          rcases ha with ha | ha
          · rw [ha]; exact ⟨keep, hm⟩
          · exact ih2 a ha
        · intro a
          rw [← h]
          cases keep with
          | true =>
            simp only [if_true, List.mem_cons, ih3]
            constructor
            · rintro (h1 | h1)
              · rw [h1]; exact ⟨Or.inl rfl, hm⟩
              · exact ⟨Or.inr h1.1, h1.2⟩
            · rintro ⟨h1 | h1, h2⟩
              · exact Or.inl h1
              · exact Or.inr ⟨h1, h2⟩
          | false =>
            simp only [Bool.false_eq_true, if_false, List.mem_cons, ih3]
            constructor
            · rintro ⟨h1, h2⟩; exact ⟨Or.inr h1, h2⟩
            · rintro ⟨h1 | h1, h2⟩
              · rw [h1, hm] at h2; simp at h2
              · exact ⟨h1, h2⟩

theorem filteredApps_sublist_visible (P : Platform) (u : SessionUser) (req : Request)
    (apps sel : List App) (h : filteredApps P u req apps = .ok sel) :
    sel.Sublist (visibleApps u apps) := by
  unfold filteredApps at h
  simp only at h
  split at h
  · simp at h
  · rename_i apps2 h2
    simp only [Except.ok.injEq] at h
    have hs2 : apps2.Sublist (visibleApps u apps) := by
      split at h2
      · exact (filterSearch_ok P _ _ _ h2).1
      · simp only [Except.ok.injEq] at h2; rw [← h2]
    rw [← h]
    split
    · exact (List.filter_sublist _).trans hs2
    · exact hs2

theorem visibleApps_sublist (u : SessionUser) (apps : List App) :
    (visibleApps u apps).Sublist apps := by
  unfold visibleApps
  split
  · exact List.Sublist.refl _
  · exact List.filter_sublist _

theorem filteredApps_sublist (P : Platform) (u : SessionUser) (req : Request)
    (apps sel : List App) (h : filteredApps P u req apps = .ok sel) : sel.Sublist apps :=
  (filteredApps_sublist_visible P u req apps sel h).trans (visibleApps_sublist u apps)

theorem handleList_of_user (P : Platform) (env : Env) (st st1 : State) (req : Request)
    (u : SessionUser) (hauth : requireAuth P env st req = .ok (st1, .user u)) :
    handleList P env st req =
      match filteredApps P u req (readDb P env st1).1.apps with
      | .error e => .error e
      | .ok selected =>
        match arraySort (compareApps P (sortMode req)) selected with
        | .error e => .error e
        | .ok sorted =>
          .ok ((readDb P env st1).2, json 200 (.apps (sorted.map toClientApp))) := by
  simp only [handleList, hauth]

theorem handleList_apps (P : Platform) (env : Env) (st st1 : State) (req : Request)
    (r : Response) (l : List ClientApp) (h : handleList P env st req = .ok (st1, r))
    (hl : r.body = .apps l) :
    ∃ st0 u sel sorted, requireAuth P env st req = .ok (st0, .user u) ∧
      filteredApps P u req (readDb P env st0).1.apps = .ok sel ∧
      arraySort (compareApps P (sortMode req)) sel = .ok sorted ∧
      l = sorted.map toClientApp ∧ st1 = (readDb P env st0).2 := by
  cases hauth : requireAuth P env st req with
  | error e => simp [handleList, hauth] at h
  | ok v =>
    obtain ⟨st0, a⟩ := v
    cases a with
    | reject r0 =>
      simp only [handleList, hauth, Except.ok.injEq, Prod.mk.injEq] at h
      have hr := requireAuth_eq P env st req
      rw [hauth] at hr
      split at hr
      · simp at hr
      · simp only [Except.ok.injEq, Prod.mk.injEq, Auth.reject.injEq] at hr
        rw [← h.2, hr.2] at hl
        simp [json] at hl
      · simp at hr
    | user u =>
      rw [handleList_of_user P env st st0 req u hauth] at h
      cases hf : filteredApps P u req (readDb P env st0).1.apps with
      | error e => simp [hf] at h
      | ok sel =>
        simp only [hf] at h
        cases hs : arraySort (compareApps P (sortMode req)) sel with
        | error e => simp [hs] at h
        | ok sorted =>
          simp only [hs, Except.ok.injEq, Prod.mk.injEq] at h
          refine ⟨st0, u, sel, sorted, rfl, hf, hs, ?_, h.1.symm⟩
          rw [← h.2] at hl
          simp only [json, ResBody.apps.injEq] at hl
          exact hl.symm

theorem sortMode_title (req : Request) : sortMode req = "title" ↔ req.sort = some "title" := by
  unfold sortMode
  cases hreq : req.sort with
  | none => simp
  | some s =>
    by_cases hs : s = ""
    · subst hs; simp
    · simp [hs]

theorem sortMode_oldest (req : Request) :
    sortMode req = "oldest" ↔ req.sort = some "oldest" := by
  unfold sortMode
  cases hreq : req.sort with
  | none => simp
  | some s =>
    by_cases hs : s = ""
    · subst hs; simp
    · simp [hs]

/-- C7: the apps returned by `GET /api/apps` are in non-decreasing `localeCompare` order
of title when `sort=title` (each title being compared through `ToString`, which for a
string title is the title itself), in non-decreasing upload time when `sort=oldest`, and
in non-increasing upload time for every other value of `sort`, `newest` and an absent
parameter included. The handler does answer 200 with a list whenever the session is
valid, the search filter does not throw and, for `sort=title`, the titles of the selected
records are strings. -/
theorem handleList_sorted (P : Platform) (env : Env) (st : State) (req : Request) :
    (∀ st1 r l, handleList P env st req = .ok (st1, r) → r.body = .apps l →
      (req.sort = some "title" →
        l.Pairwise (fun a b => ∃ s t, a.title.toStr = .ok s ∧ b.title.toStr = .ok t ∧
          P.localeCompare s t ≤ 0)) ∧
      (req.sort = some "oldest" → l.Pairwise (fun a b => a.uploadDate ≤ b.uploadDate)) ∧
      (req.sort ≠ some "title" → req.sort ≠ some "oldest" →
        l.Pairwise (fun a b => b.uploadDate ≤ a.uploadDate))) ∧
    (∀ st0 u sel, requireAuth P env st req = .ok (st0, .user u) →
      filteredApps P u req (readDb P env st0).1.apps = .ok sel →
      (req.sort = some "title" → ∀ a ∈ sel, ∃ s, a.title = .str s) →
      ∃ l, handleList P env st req = .ok ((readDb P env st0).2, json 200 (.apps l))) := by
  constructor
  · intro st1 r l h hl
    obtain ⟨st0, u, sel, sorted, _, _, hs, hmap, _⟩ :=
      handleList_apps P env st st1 req r l h hl
    subst hmap
    refine ⟨fun ht => ?_, fun ho => ?_, fun hnt hno => ?_⟩
    · rw [(sortMode_title req).2 ht] at hs
      obtain ⟨hp, hperm, _⟩ := arraySort_spec (sortOrder_title P) (fun _ => false) (by simp) _ _ hs
      have hp2 : sorted.Pairwise (fun a b => ∃ s t, a.title.toStr = .ok s ∧
          b.title.toStr = .ok t ∧ P.localeCompare s t ≤ 0) := by
        by_cases hlen : 2 ≤ sel.length
        · have htexts := arraySort_title_texts P sel sorted hs hlen
          refine List.Pairwise.imp_of_mem ?_ hp
          intro a b ha hb hab
          obtain ⟨s, hs1⟩ := htexts a (hperm.subset ha)
          obtain ⟨t, ht1⟩ := htexts b (hperm.subset hb)
          rw [textOf_of_ok _ _ hs1, textOf_of_ok _ _ ht1] at hab
          exact ⟨s, t, hs1, ht1, hab⟩
        · have hl1 : sorted.length ≤ 1 := by
            rw [hperm.length_eq]; omega
          match sorted, hl1 with
          | [], _ => exact List.Pairwise.nil
          | [a], _ => exact List.pairwise_singleton _ _
      exact List.Pairwise.map toClientApp (fun a b hab => hab) hp2
    · rw [(sortMode_oldest req).2 ho] at hs
      have hp := (arraySort_spec (sortOrder_oldest P) (fun _ => false) (by simp) _ _ hs).1
      exact List.Pairwise.map toClientApp (fun a b hab => hab) hp
    · have h1 : sortMode req ≠ "oldest" := fun e => hno ((sortMode_oldest req).1 e)
      have h2 : sortMode req ≠ "title" := fun e => hnt ((sortMode_title req).1 e)
      have hp := (arraySort_spec (sortOrder_newest P _ h1 h2) (fun _ => false) (by simp) _ _ hs).1
      exact List.Pairwise.map toClientApp (fun a b hab => hab) hp
  · intro st0 u sel hauth hsel htitles
    rw [handleList_of_user P env st st0 req u hauth, hsel]
    have htot : ∃ r, arraySort (compareApps P (sortMode req)) sel = .ok r := by
      by_cases ht : sortMode req = "title"
      · rw [ht]
        exact arraySort_title_total P sel (htitles ((sortMode_title req).1 ht))
      · apply arraySortFrom_total
        intro x hx y
        by_cases ho : sortMode req = "oldest"
        · exact ⟨_, by simp only [compareApps, ho, if_true]; rfl⟩
        · exact ⟨_, by simp only [compareApps, ho, ht, if_false]; rfl⟩
    obtain ⟨r, hr⟩ := htot
    exact ⟨r.map toClientApp, by simp only [hr]⟩

/-- C8: the apps returned by `GET /api/apps` are a permutation of the stored records
that are visible to the user and pass the search and category filters (`filteredApps`,
a sublist of the stored list); the records sharing a sort key (the same title text, or
more generally the same collation key, under `sort=title`; the same upload time
otherwise) come out in the order they have in the stored list. -/
theorem handleList_stable (P : Platform) (env : Env) (st st1 : State) (req : Request)
    (r : Response) (l : List ClientApp) (h : handleList P env st req = .ok (st1, r))
    (hl : r.body = .apps l) :
    ∃ st0 u sel, requireAuth P env st req = .ok (st0, .user u) ∧
      filteredApps P u req (readDb P env st0).1.apps = .ok sel ∧
      sel.Sublist (readDb P env st0).1.apps ∧
      l.Perm (sel.map toClientApp) ∧
      (req.sort = some "title" →
        (∀ t : String, l.filter (fun c => textIs t c.title) =
          (sel.filter (fun a => textIs t a.title)).map toClientApp) ∧
        (∀ k : List Nat, l.filter (fun c => decide (P.collationKey (textOf c.title) = k)) =
          (sel.filter (fun a => decide (P.collationKey (textOf a.title) = k))).map
            toClientApp)) ∧
      (req.sort ≠ some "title" →
        ∀ t : Nat, l.filter (fun c => decide (c.uploadDate = t)) =
          (sel.filter (fun a => decide (a.uploadDate = t))).map toClientApp) := by
  obtain ⟨st0, u, sel, sorted, hauth, hsel, hs, hmap, _⟩ :=
    handleList_apps P env st st1 req r l h hl
  subst hmap
  refine ⟨st0, u, sel, hauth, hsel, filteredApps_sublist P u req _ _ hsel,
    (arraySort_perm _ _ _ hs).map toClientApp, fun ht => ⟨fun t => ?_, fun k => ?_⟩,
    fun hnt t => ?_⟩
  · rw [(sortMode_title req).2 ht] at hs
    have hf := (arraySort_spec (sortOrder_title P)
      (fun a => textIs t a.title) (by
        intro a b ha hb
        have ha1 : textOf a.title = t := textOf_of_textIs _ _ ha
        have hb1 : textOf b.title = t := textOf_of_textIs _ _ hb
        simp only [Platform.localeCompare, ha1, hb1, compareKeys_self, le_refl]) _ _ hs).2.2
    rw [← hf, List.filter_map]; rfl
  · rw [(sortMode_title req).2 ht] at hs
    have hf := (arraySort_spec (sortOrder_title P)
      (fun a => decide (P.collationKey (textOf a.title) = k)) (by
        intro a b ha hb
        simp only [decide_eq_true_eq] at ha hb
        simp only [Platform.localeCompare, ha, hb, compareKeys_self, le_refl]) _ _ hs).2.2
    rw [← hf, List.filter_map]; rfl
  · have h2 : sortMode req ≠ "title" := fun e => hnt ((sortMode_title req).1 e)
    by_cases ho : sortMode req = "oldest"
    · rw [ho] at hs
      have hf := (arraySort_spec (sortOrder_oldest P)
        (fun a => decide (a.uploadDate = t)) (by
          intro a b ha hb
          simp only [decide_eq_true_eq] at ha hb
          omega) _ _ hs).2.2
      rw [← hf, List.filter_map]; rfl
    · have hf := (arraySort_spec (sortOrder_newest P _ ho h2)
        (fun a => decide (a.uploadDate = t)) (by
          intro a b ha hb
          simp only [decide_eq_true_eq] at ha hb
          omega) _ _ hs).2.2
      rw [← hf, List.filter_map]; rfl

theorem handleList_sorted_witness :
    ∃ l, handleList demoPlatform (demoEnv 100 "x") catalogState
        (listRequest "sid=s-admin" (some "title")) = .ok (catalogState, json 200 (.apps l)) ∧
      l.Pairwise (fun a b => ∃ s t, a.title.toStr = .ok s ∧ b.title.toStr = .ok t ∧
        demoPlatform.localeCompare s t ≤ 0) := by
  have hs := handleList_sorted demoPlatform (demoEnv 100 "x") catalogState
    (listRequest "sid=s-admin" (some "title"))
  obtain ⟨l, hl⟩ := hs.2 catalogState adminUser catalogDb.apps rfl rfl (by
    intro _ a ha
    simp only [catalogDb, List.mem_cons, List.mem_singleton, List.not_mem_nil, or_false] at ha
    rcases ha with h | h | h | h <;> exact ⟨_, by rw [h]; rfl⟩)
  exact ⟨l, hl, (hs.1 _ _ l hl rfl).1 rfl⟩

theorem handleList_stable_witness :
    handleList demoPlatform (demoEnv 100 "x") catalogState
        (listRequest "sid=s-user" (some "title")) =
      .ok (catalogState, json 200 (.apps (List.map toClientApp
        [demoApp "a4" "Mid" 20 true, demoApp "a1" "Zeta" 30 true,
         demoApp "a3" "Zeta" 20 true]))) ∧
    (List.map toClientApp [demoApp "a4" "Mid" 20 true, demoApp "a1" "Zeta" 30 true,
        demoApp "a3" "Zeta" 20 true]).filter (fun c => textIs "Zeta" c.title) =
      List.map toClientApp [demoApp "a1" "Zeta" 30 true, demoApp "a3" "Zeta" 20 true] := by
  have h : handleList demoPlatform (demoEnv 100 "x") catalogState
        (listRequest "sid=s-user" (some "title")) =
      .ok (catalogState, json 200 (.apps (List.map toClientApp
        [demoApp "a4" "Mid" 20 true, demoApp "a1" "Zeta" 30 true,
         demoApp "a3" "Zeta" 20 true]))) := rfl
  obtain ⟨st0, u, sel, hauth, hsel, _, _, ht, _⟩ := handleList_stable demoPlatform
    (demoEnv 100 "x") catalogState _ (listRequest "sid=s-user" (some "title")) _ _ h rfl
  have hauth1 : requireAuth demoPlatform (demoEnv 100 "x") catalogState
      (listRequest "sid=s-user" (some "title")) = .ok (catalogState, .user plainUser) := rfl
  rw [hauth1] at hauth
  simp only [Except.ok.injEq, Prod.mk.injEq, Auth.user.injEq] at hauth
  obtain ⟨h1, h2⟩ := hauth
  subst h1; subst h2
  have hsel1 : filteredApps demoPlatform plainUser (listRequest "sid=s-user" (some "title"))
      (readDb demoPlatform (demoEnv 100 "x") catalogState).1.apps =
      .ok [demoApp "a1" "Zeta" 30 true, demoApp "a3" "Zeta" 20 true,
        demoApp "a4" "Mid" 20 true] := rfl
  rw [hsel1] at hsel
  simp only [Except.ok.injEq] at hsel
  subst hsel
  exact ⟨h, (ht rfl).1 "Zeta"⟩

/-! ## Visibility: proofs -/

theorem findApp_some (id : String) (apps : List App) (a : App)
    (h : findApp id apps = some a) : a ∈ apps ∧ a.id = id := by
  unfold findApp at h
  exact ⟨List.mem_of_find?_eq_some h, by simpa using List.find?_some h⟩

theorem updateFirst_mem (id : String) (f : App → App) (apps : List App) (a : App)
    (h : a ∈ updateFirst id f apps) : a ∈ apps ∨ ∃ b ∈ apps, b.id = id ∧ a = f b := by
  induction apps with
  | nil => simp [updateFirst] at h
  | cons b rest ih =>
    simp only [updateFirst] at h
    by_cases hb : b.id = id
    · simp only [hb, if_true, List.mem_cons] at h
      rcases h with h | h
      · exact Or.inr ⟨b, List.mem_cons_self _ _, hb, h⟩
      · exact Or.inl (List.mem_cons_of_mem _ h)
    · simp only [hb, if_false, List.mem_cons] at h
      rcases h with h | h
      · exact Or.inl (by rw [h]; exact List.mem_cons_self _ _)
      · rcases ih h with h1 | ⟨c, hc, hc1, hc2⟩
        · exact Or.inl (List.mem_cons_of_mem _ h1)
        · exact Or.inr ⟨c, List.mem_cons_of_mem _ hc, hc1, hc2⟩

theorem updateFirst_mem_of_find (id : String) (f : App → App) (apps : List App) (a : App)
    (h : findApp id apps = some a) : f a ∈ updateFirst id f apps := by
  induction apps with
  | nil => simp [findApp] at h
  | cons b rest ih =>
    unfold findApp at h ih
    simp only [updateFirst]
    by_cases hb : b.id = id
    · simp only [List.find?_cons, hb, decide_True, Option.some.injEq] at h
      subst h
      simp [hb]
    · simp only [List.find?_cons, hb, decide_False] at h
      simp only [hb, if_false]
      exact List.mem_cons_of_mem _ (ih h)

theorem dedupValues_subset (vs : List JVal) (n : JVal) (h : n ∈ dedupValues vs) : n ∈ vs := by
  induction vs with
  | nil => simp [dedupValues] at h
  | cons v vs ih =>
    simp only [dedupValues, List.mem_cons] at h
    rcases h with h | h
    · exact h ▸ List.mem_cons_self _ _
    · exact List.mem_cons_of_mem _ (ih (List.mem_filter.1 h).1)

theorem handleCategories_of_user (P : Platform) (env : Env) (st st0 : State) (req : Request)
    (u : SessionUser) (hauth : requireAuth P env st req = .ok (st0, .user u)) :
    handleCategories P env st req =
      .ok ((readDb P env st0).2, json 200 (.categories (dedupValues
        (((visibleApps u (readDb P env st0).1.apps).map (fun a => a.category)).filter
          JVal.truthy)))) := by
  simp only [handleCategories, hauth]

theorem handleDetail_of_user (P : Platform) (env : Env) (st st0 : State) (req : Request)
    (u : SessionUser) (id : String)
    (hauth : requireAuth P env st req = .ok (st0, .user u)) :
    handleDetail P env st req id =
      match findApp id (readDb P env st0).1.apps with
      | none => .ok ((readDb P env st0).2, json 404 (.message "Not found"))
      | some app =>
        if !app.isPublished && u.role != "admin" then
          .ok ((readDb P env st0).2, json 404 (.message "Not found"))
        else
          .ok (writeDb (readDb P env st0).2
                { (readDb P env st0).1 with
                  apps := updateFirst id bumpViews (readDb P env st0).1.apps },
               json 200 (.detail (toClientApp (bumpViews app))
                 (relatedApps u (bumpViews app)
                   (updateFirst id bumpViews (readDb P env st0).1.apps)))) := by
  simp only [handleDetail, hauth]

theorem handleDownload_of_user (P : Platform) (env : Env) (st st0 : State) (req : Request)
    (u : SessionUser) (id : String)
    (hauth : requireAuth P env st req = .ok (st0, .user u)) :
    handleDownload P env st req id =
      match findApp id (readDb P env st0).1.apps with
      | none => .ok ((readDb P env st0).2, json 404 (.message "Not found"))
      | some app =>
        if !app.isPublished && u.role != "admin" then
          .ok ((readDb P env st0).2, json 404 (.message "Not found"))
        else if app.fileType = .url then
          match app.downloadUrl with
          | .undefined => .error (.typeError "Invalid value undefined for header Location")
          | loc =>
            match loc.toStr with
            | .error e => .error e
            | .ok text =>
              if validHeaderValue text then
                .ok ((readDb P env st0).2, json 302 (.redirect loc))
              else .error (.typeError "Invalid character in header content [Location]")
        else
          match sendDownload (readDb P env st0).2 app with
          | .error e => .error e
          | .ok r => .ok ((readDb P env st0).2, r) := by
  simp only [handleDownload, hauth]

theorem visibleApps_published (u : SessionUser) (hrole : u.role ≠ "admin") (apps : List App)
    (a : App) (h : a ∈ visibleApps u apps) : a ∈ apps ∧ a.isPublished = true := by
  simp only [visibleApps, hrole, if_false, List.mem_filter] at h
  exact h

/-- C1: for a session user whose role is not `admin`, every record of the
`GET /api/apps` response, the `app` and every `related` entry of a `GET /api/apps/:id`
response, and every name of the `GET /api/categories` response is the projection (the
category, for names) of a stored record with `isPublished = true`; and for every id
whose record has `isPublished = false`, `GET /api/apps/:id` and
`GET /api/apps/:id/download` answer 404. -/
theorem nonadmin_sees_only_published (P : Platform) (env : Env) (st st0 : State)
    (req : Request) (u : SessionUser)
    (hauth : requireAuth P env st req = .ok (st0, .user u)) (hrole : u.role ≠ "admin") :
    (∀ st1 r l, handleList P env st req = .ok (st1, r) → r.body = .apps l →
      ∀ c ∈ l, ∃ a ∈ (readDb P env st0).1.apps, a.isPublished = true ∧ c = toClientApp a) ∧
    (∃ names, handleCategories P env st req =
        .ok ((readDb P env st0).2, json 200 (.categories names)) ∧
      ∀ n ∈ names, ∃ a ∈ (readDb P env st0).1.apps, a.isPublished = true ∧ a.category = n) ∧
    (∀ id st1 r c rel, handleDetail P env st req id = .ok (st1, r) →
      r.body = .detail c rel →
      ∃ db1, st1.db = some db1 ∧
        (∃ a ∈ db1.apps, a.isPublished = true ∧ c = toClientApp a) ∧
        ∀ x ∈ rel, ∃ a ∈ db1.apps, a.isPublished = true ∧ x = toClientApp a) ∧
    (∀ id a, findApp id (readDb P env st0).1.apps = some a → a.isPublished = false →
      handleDetail P env st req id =
        .ok ((readDb P env st0).2, json 404 (.message "Not found")) ∧
      handleDownload P env st req id =
        .ok ((readDb P env st0).2, json 404 (.message "Not found"))) := by
  have hadm : (u.role != "admin") = true := by simpa using hrole
  refine ⟨?_, ?_, ?_, ?_⟩
  · intro st1 r l h hl c hc
    obtain ⟨st2, u2, sel, sorted, hauth2, hsel, hs, hmap, _⟩ :=
      handleList_apps P env st st1 req r l h hl
    rw [hauth] at hauth2
    simp only [Except.ok.injEq, Prod.mk.injEq, Auth.user.injEq] at hauth2
    obtain ⟨e1, e2⟩ := hauth2
    subst e1; subst e2; subst hmap
    obtain ⟨a, ha, hca⟩ := List.mem_map.1 hc
    have ha1 := (arraySort_perm _ _ _ hs).subset ha
    have ha2 := (filteredApps_sublist_visible P u req _ _ hsel).subset ha1
    obtain ⟨ha3, ha4⟩ := visibleApps_published u hrole _ a ha2
    exact ⟨a, ha3, ha4, hca.symm⟩
  · refine ⟨_, handleCategories_of_user P env st st0 req u hauth, ?_⟩
    intro n hn
    have h1 := dedupValues_subset _ n hn
    obtain ⟨h2, _⟩ := List.mem_filter.1 h1
    obtain ⟨a, ha, hca⟩ := List.mem_map.1 h2
    obtain ⟨ha3, ha4⟩ := visibleApps_published u hrole _ a ha
    exact ⟨a, ha3, ha4, hca⟩
  · intro id st1 r c rel h hb
    rw [handleDetail_of_user P env st st0 req u id hauth] at h
    cases hf : findApp id (readDb P env st0).1.apps with
    | none =>
      simp only [hf, Except.ok.injEq, Prod.mk.injEq] at h
      rw [← h.2] at hb; simp [json] at hb
    | some app =>
      simp only [hf] at h
      by_cases hpub : app.isPublished = true
      · simp only [hpub, Bool.not_true, Bool.false_and, Bool.false_eq_true, if_false,
          Except.ok.injEq, Prod.mk.injEq] at h
        obtain ⟨h1, h2⟩ := h
        rw [← h2] at hb
        simp only [json, ResBody.detail.injEq] at hb
        obtain ⟨hc, hrel⟩ := hb
        refine ⟨_, by rw [← h1]; rfl, ⟨bumpViews app, ?_, hpub, hc.symm⟩, ?_⟩
        · exact updateFirst_mem_of_find id bumpViews _ app hf
        · intro x hx
          rw [← hrel] at hx
          unfold relatedApps at hx
          obtain ⟨a, ha, hxa⟩ := List.mem_map.1 hx
          have ha1 := List.mem_filter.1 (List.mem_of_mem_take ha)
          refine ⟨a, ha1.1, ?_, hxa.symm⟩
          have hcond := ha1.2
          simp only [Bool.and_eq_true, Bool.or_eq_true, beq_iff_eq] at hcond
          rcases hcond.2 with h3 | h3
          · exact absurd h3 hrole
          · exact h3
      · have hpub1 : app.isPublished = false := by simpa using hpub
        simp only [hpub1, Bool.not_false, Bool.true_and, hadm, if_true, Except.ok.injEq,
          Prod.mk.injEq] at h
        rw [← h.2] at hb; simp [json] at hb
  · intro id a hf hpub
    constructor
    · rw [handleDetail_of_user P env st st0 req u id hauth]
      simp only [hf, hpub, Bool.not_false, Bool.true_and, hadm, if_true]
    · rw [handleDownload_of_user P env st st0 req u id hauth]
      simp only [hf, hpub, Bool.not_false, Bool.true_and, hadm, if_true]

theorem nonadmin_sees_only_published_witness :
    handleDetail demoPlatform (demoEnv 100 "x") catalogState
        (listRequest "sid=s-user" none) "a2" =
      .ok (catalogState, json 404 (.message "Not found")) ∧
    handleDownload demoPlatform (demoEnv 100 "x") catalogState
        (listRequest "sid=s-user" none) "a2" =
      .ok (catalogState, json 404 (.message "Not found")) :=
  (nonadmin_sees_only_published demoPlatform (demoEnv 100 "x") catalogState catalogState
    (listRequest "sid=s-user" none) plainUser rfl (by decide)).2.2.2 "a2"
      (demoApp "a2" "Alpha" 10 false) rfl rfl

/-! ## View counter: proofs -/

theorem updateFirst_split (id : String) (f : App → App) (apps : List App) (a : App)
    (h : findApp id apps = some a) :
    ∃ pre post, apps = pre ++ a :: post ∧ (∀ b ∈ pre, b.id ≠ id) ∧
      updateFirst id f apps = pre ++ f a :: post := by
  induction apps with
  | nil => simp [findApp] at h
  | cons b rest ih =>
    unfold findApp at h ih
    by_cases hb : b.id = id
    · simp only [List.find?_cons, hb, decide_True, Option.some.injEq] at h
      subst h
      exact ⟨[], rest, rfl, by simp, by simp [updateFirst, hb]⟩
    · simp only [List.find?_cons, hb, decide_False] at h
      obtain ⟨pre, post, h1, h2, h3⟩ := ih h
      refine ⟨b :: pre, post, by rw [h1]; rfl, ?_, by simp [updateFirst, hb, h3]⟩
      intro c hc
      simp only [List.mem_cons] at hc
      rcases hc with hc | hc
      · rw [hc]; exact hb
      · exact h2 c hc

/-- C6: with a valid session, `GET /api/apps/:id` answers 200 or 404. On 200 the
persisted document is the previous one with the first record of that id replaced by
itself with `views` increased by exactly 1, every other record, every other field, the
users, the sessions and the files being unchanged, and the returned app is the
projection of the incremented record. On 404 the persisted document is the previous
one. -/
theorem handleDetail_views (P : Platform) (env : Env) (st st0 : State) (req : Request)
    (u : SessionUser) (id : String)
    (hauth : requireAuth P env st req = .ok (st0, .user u)) :
    (∃ st1 r, handleDetail P env st req id = .ok (st1, r) ∧
      (r.status = 200 ∨ r.status = 404)) ∧
    (∀ st1 r, handleDetail P env st req id = .ok (st1, r) → r.status = 200 →
      ∃ app pre post, (readDb P env st0).1.apps = pre ++ app :: post ∧ app.id = id ∧
        (∀ b ∈ pre, b.id ≠ id) ∧ (app.isPublished = true ∨ u.role = "admin") ∧
        st1.db = some { users := (readDb P env st0).1.users,
                        apps := pre ++ { app with views := app.views + 1 } :: post } ∧
        st1.sessions = st0.sessions ∧ st1.files = st0.files ∧
        ∃ rel, r.body = .detail (toClientApp { app with views := app.views + 1 }) rel ∧
          (toClientApp { app with views := app.views + 1 }).views = app.views + 1) ∧
    (∀ st1 r, handleDetail P env st req id = .ok (st1, r) → r.status = 404 →
      st1.db = some (readDb P env st0).1 ∧ st1.sessions = st0.sessions ∧
        st1.files = st0.files ∧
        (findApp id (readDb P env st0).1.apps = none ∨
          ∃ app, findApp id (readDb P env st0).1.apps = some app ∧
            app.isPublished = false ∧ u.role ≠ "admin")) := by
  have hread : (readDb P env st0).2.db = some (readDb P env st0).1 ∧
      (readDb P env st0).2.sessions = st0.sessions ∧
      (readDb P env st0).2.files = st0.files := by
    unfold readDb
    cases hdb : st0.db with
    | none => simp
    | some d => simp [hdb]
  have hd := handleDetail_of_user P env st st0 req u id hauth
  cases hf : findApp id (readDb P env st0).1.apps with
  | none =>
    simp only [hf] at hd
    refine ⟨⟨_, _, hd, Or.inr rfl⟩, ?_, ?_⟩
    · intro st1 r h h200
      rw [hd] at h
      simp only [Except.ok.injEq, Prod.mk.injEq] at h
      rw [← h.2] at h200; simp [json] at h200
    · intro st1 r h _
      rw [hd] at h
      simp only [Except.ok.injEq, Prod.mk.injEq] at h
      rw [← h.1]
      exact ⟨hread.1, hread.2.1, hread.2.2, Or.inl rfl⟩
  | some app =>
    simp only [hf] at hd
    by_cases hhide : (!app.isPublished && u.role != "admin") = true
    · simp only [hhide, if_true] at hd
      refine ⟨⟨_, _, hd, Or.inr rfl⟩, ?_, ?_⟩
      · intro st1 r h h200
        rw [hd] at h
        simp only [Except.ok.injEq, Prod.mk.injEq] at h
        rw [← h.2] at h200; simp [json] at h200
      · intro st1 r h _
        rw [hd] at h
        simp only [Except.ok.injEq, Prod.mk.injEq] at h
        rw [← h.1]
        refine ⟨hread.1, hread.2.1, hread.2.2, Or.inr ⟨app, rfl, ?_⟩⟩
        simpa using hhide
    · simp only [hhide, Bool.false_eq_true, if_false] at hd
      refine ⟨⟨_, _, hd, Or.inl rfl⟩, ?_, ?_⟩
      · intro st1 r h _
        rw [hd] at h
        simp only [Except.ok.injEq, Prod.mk.injEq] at h
        obtain ⟨pre, post, h1, h2, h3⟩ := updateFirst_split id bumpViews _ app hf
        refine ⟨app, pre, post, h1, (findApp_some id _ app hf).2, h2, ?_, ?_, ?_, ?_, ?_⟩
        · by_cases hp : app.isPublished = true
          · exact Or.inl hp
          · right
            by_contra hr
            apply hhide
            simp [hp, hr]
        · rw [← h.1, h3]; rfl
        · rw [← h.1]; exact hread.2.1
        · rw [← h.1]; exact hread.2.2
        · exact ⟨_, by rw [← h.2]; rfl, rfl⟩
      · intro st1 r h h404
        rw [hd] at h
        simp only [Except.ok.injEq, Prod.mk.injEq] at h
        rw [← h.2] at h404; simp [json] at h404

theorem handleDetail_views_witness :
    requireAuth demoPlatform (demoEnv 100 "x") catalogState (listRequest "sid=s-user" none) =
      .ok (catalogState, .user plainUser) ∧
    ∃ st1 r, handleDetail demoPlatform (demoEnv 100 "x") catalogState
        (listRequest "sid=s-user" none) "a3" = .ok (st1, r) ∧ r.status = 200 ∧
      ∃ app pre post, catalogDb.apps = pre ++ app :: post ∧ app.id = "a3" ∧
        st1.db = some { users := catalogDb.users,
                        apps := pre ++ { app with views := app.views + 1 } :: post } := by
  have h : handleDetail demoPlatform (demoEnv 100 "x") catalogState
      (listRequest "sid=s-user" none) "a3" =
        .ok (writeDb catalogState
              { catalogDb with apps := updateFirst "a3" bumpViews catalogDb.apps },
             json 200 (.detail (toClientApp (bumpViews (demoApp "a3" "Zeta" 20 true)))
               (relatedApps plainUser (bumpViews (demoApp "a3" "Zeta" 20 true))
                 (updateFirst "a3" bumpViews catalogDb.apps)))) := rfl
  obtain ⟨app, pre, post, h1, h2, _, _, h5, _⟩ :=
    (handleDetail_views demoPlatform (demoEnv 100 "x") catalogState catalogState
      (listRequest "sid=s-user" none) plainUser "a3" rfl).2.1 _ _ h rfl
  exact ⟨rfl, _, _, h, rfl, app, pre, post, h1, h2, h5⟩

/-! ## Create then fetch: proofs -/

theorem readDb_db (P : Platform) (env : Env) (st : State) :
    (readDb P env st).2.db = some (readDb P env st).1 ∧
    (readDb P env st).2.sessions = st.sessions ∧ (readDb P env st).2.files = st.files := by
  unfold readDb
  cases hdb : st.db with
  | none => simp
  | some d => simp [hdb]

theorem readDb_congr (P : Platform) (env : Env) (st st1 : State) (h : st1.db = st.db) :
    (readDb P env st1).1 = (readDb P env st).1 := by
  unfold readDb
  rw [h]
  cases st.db <;> rfl

theorem readDb_some (P : Platform) (env : Env) (st : State) (db : Db) (h : st.db = some db) :
    (readDb P env st).1 = roundTripDb db := by
  unfold readDb
  rw [h]

theorem findApp_roundTrip (id : String) (apps : List App) :
    findApp id (apps.map roundTripApp) = (findApp id apps).map roundTripApp := by
  induction apps with
  | nil => rfl
  | cons b rest ih =>
    unfold findApp at ih ⊢
    by_cases hb : b.id = id
    · have hb1 : (roundTripApp b).id = id := hb
      simp [List.find?_cons, hb, hb1]
    · have hb1 : ¬ (roundTripApp b).id = id := hb
      simp only [List.map_cons, List.find?_cons, hb, hb1, decide_False]
      exact ih

theorem roundTrip_num_idem (text : String) :
    (JVal.num text).roundTrip.roundTrip = (JVal.num text).roundTrip := by
  simp only [JVal.roundTrip]
  by_cases h : isNonFinite text = true
  · simp [h, JVal.roundTrip]
  · simp [h, JVal.roundTrip]

mutual
theorem roundTrip_idem : ∀ v : JVal, v.roundTrip.roundTrip = v.roundTrip
  | .undefined => rfl
  | .null => rfl
  | .bool _ => rfl
  | .num text => roundTrip_num_idem text
  | .str _ => rfl
  | .arr xs => by
    simp only [JVal.roundTrip]
    rw [roundTripElems_idem xs]
  | .obj fields => by
    simp only [JVal.roundTrip]
    rw [roundTripFields_idem fields]
theorem roundTripElems_idem : ∀ xs : List JVal,
    JVal.roundTripElems (JVal.roundTripElems xs) = JVal.roundTripElems xs
  | [] => rfl
  | .undefined :: xs => by
    simp only [JVal.roundTripElems, JVal.roundTrip]
    rw [roundTripElems_idem xs]
  | .null :: xs => by
    simp only [JVal.roundTripElems, JVal.roundTrip]
    rw [roundTripElems_idem xs]
  | .bool b :: xs => by
    simp only [JVal.roundTripElems, JVal.roundTrip]
    rw [roundTripElems_idem xs]
  | .num t :: xs => by
    simp only [JVal.roundTripElems, JVal.roundTrip]
    by_cases h : isNonFinite t = true
    · simp only [h, if_true, JVal.roundTripElems, JVal.roundTrip]
      rw [roundTripElems_idem xs]
    · simp only [h, Bool.false_eq_true, if_false, JVal.roundTripElems, JVal.roundTrip]
      rw [roundTripElems_idem xs]
  | .str s :: xs => by
    simp only [JVal.roundTripElems, JVal.roundTrip]
    rw [roundTripElems_idem xs]
  | .arr ys :: xs => by
    simp only [JVal.roundTripElems, JVal.roundTrip]
    rw [roundTripElems_idem xs, roundTripElems_idem ys]
  | .obj fs :: xs => by
    simp only [JVal.roundTripElems, JVal.roundTrip]
    rw [roundTripElems_idem xs, roundTripFields_idem fs]
theorem roundTripFields_idem : ∀ fs : List (String × JVal),
    JVal.roundTripFields (JVal.roundTripFields fs) = JVal.roundTripFields fs
  | [] => rfl
  | (k, .undefined) :: rest => by
    simp only [JVal.roundTripFields]
    rw [roundTripFields_idem rest]
  | (k, .null) :: rest => by
    simp only [JVal.roundTripFields, JVal.roundTrip]
    rw [roundTripFields_idem rest]
  | (k, .bool b) :: rest => by
    simp only [JVal.roundTripFields, JVal.roundTrip]
    rw [roundTripFields_idem rest]
  | (k, .num t) :: rest => by
    simp only [JVal.roundTripFields, JVal.roundTrip]
    by_cases h : isNonFinite t = true
    · simp only [h, if_true, JVal.roundTripFields, JVal.roundTrip]
      rw [roundTripFields_idem rest]
    · simp only [h, Bool.false_eq_true, if_false, JVal.roundTripFields, JVal.roundTrip]
      rw [roundTripFields_idem rest]
  | (k, .str s) :: rest => by
    simp only [JVal.roundTripFields, JVal.roundTrip]
    rw [roundTripFields_idem rest]
  | (k, .arr ys) :: rest => by
    simp only [JVal.roundTripFields, JVal.roundTrip]
    rw [roundTripFields_idem rest, roundTripElems_idem ys]
  | (k, .obj fs) :: rest => by
    simp only [JVal.roundTripFields, JVal.roundTrip]
    rw [roundTripFields_idem rest, roundTripFields_idem fs]
end

theorem roundTripApp_idem (a : App) : roundTripApp (roundTripApp a) = roundTripApp a := by
  simp only [roundTripApp, roundTrip_idem]

theorem roundTripDb_idem (db : Db) : roundTripDb (roundTripDb db) = roundTripDb db := by
  simp only [roundTripDb, List.map_map]
  congr 1
  apply List.map_congr_left
  intro a _
  exact roundTripApp_idem a

theorem readDb_twice (P : Platform) (env : Env) (st : State) :
    (readDb P env (readDb P env st).2).1 = (readDb P env st).1 := by
  unfold readDb
  cases hdb : st.db with
  | none => simp [seedData, roundTripDb, roundTripApp, JVal.roundTrip]
  | some d => simp only [roundTripDb_idem]

theorem readFields_ok (body : JVal) (f : BodyFields) (h : readFields body = .ok f) :
    f.title = body.getOpt "title" ∧ f.description = body.getOpt "description" ∧
    f.version = body.getOpt "version" ∧ f.category = body.getOpt "category" ∧
    parseTags (body.getOpt "tags") = .ok f.tags ∧
    f.isPublished = (body.getOpt "isPublished").truthy ∧
    f.featured = (body.getOpt "featured").truthy ∧
    f.file = body.getOpt "file" ∧ f.downloadUrl = body.getOpt "downloadUrl" := by
  unfold readFields at h
  cases hg : body.get "title" with
  | error e => simp [hg] at h
  | ok title =>
    simp only [hg] at h
    cases ht : parseTags (body.getOpt "tags") with
    | error e => simp [ht] at h
    | ok tags =>
      simp only [ht, Except.ok.injEq] at h
      subst h
      refine ⟨?_, rfl, rfl, rfl, rfl, rfl, rfl, rfl, rfl⟩
      cases body <;> simp_all [JVal.get, JVal.getOpt]

theorem assignFileInfo_fields (app : App) (info : Option FileInfo) :
    (assignFileInfo app info).id = app.id ∧ (assignFileInfo app info).title = app.title ∧
    (assignFileInfo app info).description = app.description ∧
    (assignFileInfo app info).version = app.version ∧
    (assignFileInfo app info).category = app.category ∧
    (assignFileInfo app info).tags = app.tags ∧
    (assignFileInfo app info).uploadDate = app.uploadDate ∧
    (assignFileInfo app info).isPublished = app.isPublished ∧
    (assignFileInfo app info).featured = app.featured ∧
    (assignFileInfo app info).fileType = app.fileType ∧
    (assignFileInfo app info).downloadUrl = app.downloadUrl ∧
    (assignFileInfo app info).views = app.views := by
  cases info <;> simp [assignFileInfo]

theorem saveUploadedFile_db (env : Env) (st st1 : State) (fileObj : JVal)
    (info : Option FileInfo) (h : saveUploadedFile env st fileObj = .ok (st1, info)) :
    st1.db = st.db ∧ st1.sessions = st.sessions := by
  unfold saveUploadedFile at h
  split at h
  · simp at h
  · split at h
    · simp only [Except.ok.injEq, Prod.mk.injEq] at h
      rw [← h.1]; exact ⟨rfl, rfl⟩
    · split at h
      · simp only [Except.ok.injEq, Prod.mk.injEq] at h
        rw [← h.1]; exact ⟨rfl, rfl⟩
      · simp at h

theorem handleCreate_created (P : Platform) (env : Env) (st st1 : State) (req : Request)
    (body : JVal) (r : Response) (hbody : req.body = .ok body)
    (h : handleCreate P env st req = .ok (st1, r)) (h201 : r.status = 201) :
    ∃ f info, readFields body = .ok f ∧
      st1.db = some { users := (readDb P env st).1.users,
                      apps := (readDb P env st).1.apps ++
                        [assignFileInfo (newApp env f) info] } ∧
      r = json 201 (.app (toClientApp (assignFileInfo (newApp env f) info))) := by
  unfold handleCreate at h
  cases hadm : requireAdmin P env st req with
  | error e => simp [hadm] at h
  | ok v =>
    obtain ⟨st0, a⟩ := v
    cases a with
    | reject r0 =>
      simp only [hadm, Except.ok.injEq, Prod.mk.injEq] at h
      have hs := requireAdmin_reject_status P env st st0 req r0 hadm
      rw [h.2] at hs
      omega
    | user u0 =>
      have hdb0 := (requireAdmin_db P env st st0 req _ hadm).1
      have hrd := readDb_congr P env st st0 hdb0
      simp only [hadm, hbody] at h
      cases hf : readFields body with
      | error e =>
        simp only [hf, Except.ok.injEq, Prod.mk.injEq] at h
        rw [← h.2] at h201; simp [json] at h201
      | ok f =>
        simp only [hf] at h
        split at h
        · cases hsv : saveUploadedFile env (readDb P env st0).2 f.file with
          | error e =>
            simp only [hsv, Except.ok.injEq, Prod.mk.injEq] at h
            rw [← h.2] at h201; simp [json] at h201
          | ok w =>
            obtain ⟨st3, info⟩ := w
            simp only [hsv, Except.ok.injEq, Prod.mk.injEq] at h
            refine ⟨f, info, rfl, ?_, h.2.symm⟩
            rw [← h.1, ← hrd]; rfl
        · simp only [Except.ok.injEq, Prod.mk.injEq] at h
          refine ⟨f, none, rfl, ?_, h.2.symm⟩
          rw [← h.1, ← hrd]; rfl

theorem findApp_append_fresh (id : String) (apps : List App) (a : App) (ha : a.id = id)
    (hfresh : ∀ b ∈ apps, b.id ≠ id) : findApp id (apps ++ [a]) = some a := by
  induction apps with
  | nil => simp [findApp, ha]
  | cons b rest ih =>
    have hb : b.id ≠ id := hfresh b (List.mem_cons_self _ _)
    unfold findApp at ih ⊢
    simp only [List.cons_append, List.find?_cons, hb, decide_False]
    exact ih (fun c hc => hfresh c (List.mem_cons_of_mem _ hc))

/-- C9 (as amended): when `POST /api/apps` answers 201 for a body and the generated id is
not yet in the store, a following `GET /api/apps/:id` for that id by an admin session
answers 200 with an app whose `title`, `description`, `version` and `category` are the
submitted values as the JSON file returns them (`JVal.roundTrip`: a non-finite number
such as `1e400` comes back `null`; strings, booleans, `null` and finite numbers come
back as submitted); whose `tags` are the submitted comma-separated string split at
commas, trimmed, empty items dropped; whose `isPublished` and `featured` are the
truthiness of the submitted values; and whose `downloadUrl` is `/api/apps/<id>/download`
when a file payload was attached, and otherwise the submitted value as the file returns
it, the empty string standing for a falsy one. The id, `uploadDate` and `views` (1 after
this first fetch) are server-assigned. -/
theorem create_then_detail (P : Platform) (env1 env2 : Env) (st st1 st2 : State)
    (req1 req2 : Request) (body : JVal) (r1 : Response) (u : SessionUser)
    (hbody : req1.body = .ok body)
    (hpost : handleCreate P env1 st req1 = .ok (st1, r1)) (h201 : r1.status = 201)
    (hfresh : ∀ a ∈ (readDb P env1 st).1.apps, a.id ≠ env1.uuid)
    (hauth : requireAuth P env2 st1 req2 = .ok (st2, .user u)) (hadmin : u.role = "admin") :
    ∃ st3 c rel, handleDetail P env2 st1 req2 env1.uuid = .ok (st3, json 200 (.detail c rel)) ∧
      c.id = env1.uuid ∧ c.uploadDate = env1.now ∧ c.views = 1 ∧
      c.title = (body.getOpt "title").roundTrip ∧
      c.description = (body.getOpt "description").roundTrip ∧
      c.version = (body.getOpt "version").roundTrip ∧
      c.category = (body.getOpt "category").roundTrip ∧
      parseTags (body.getOpt "tags") = .ok c.tags ∧
      c.isPublished = (body.getOpt "isPublished").truthy ∧
      c.featured = (body.getOpt "featured").truthy ∧
      c.downloadUrl =
        (if ((body.getOpt "file").getOpt "base64").truthy then
          .str ("/api/apps/" ++ env1.uuid ++ "/download")
        else ((body.getOpt "downloadUrl").or (.str "")).roundTrip) := by
  obtain ⟨f, info, hf, hdb1, _⟩ := handleCreate_created P env1 st st1 req1 body r1 hbody hpost h201
  obtain ⟨f1, f2, f3, f4, f5, f6, f7, f8, f9⟩ := readFields_ok body f hf
  obtain ⟨a1, a2, a3, a4, a5, a6, a7, a8, a9, a10, a11, a12⟩ :=
    assignFileInfo_fields (newApp env1 f) info
  have hdb2 : st2.db = st1.db := (requireAuth_db P env2 st1 st2 req2 _ hauth).1
  have hrd : (readDb P env2 st2).1 =
      roundTripDb (Db.mk (readDb P env1 st).1.users
        ((readDb P env1 st).1.apps ++ [assignFileInfo (newApp env1 f) info])) :=
    readDb_some P env2 st2 _ (by rw [hdb2, hdb1])
  have hfind : findApp env1.uuid (readDb P env2 st2).1.apps =
      some (roundTripApp (assignFileInfo (newApp env1 f) info)) := by
    rw [hrd]
    simp only [roundTripDb]
    rw [findApp_roundTrip, findApp_append_fresh _ _ _ (by rw [a1]; rfl) hfresh]
    rfl
  have hd := handleDetail_of_user P env2 st1 st2 req2 u env1.uuid hauth
  have hrole : (u.role != "admin") = false := by simp [hadmin]
  simp only [hfind, hrole, Bool.and_false, Bool.false_eq_true, if_false] at hd
  refine ⟨_, _, _, hd, ?_, ?_, ?_, ?_, ?_, ?_, ?_, ?_, ?_, ?_, ?_⟩
  · simp only [toClientApp, bumpViews, roundTripApp, a1]; rfl
  · simp only [toClientApp, bumpViews, roundTripApp, a7]; rfl
  · simp only [toClientApp, bumpViews, roundTripApp, a12]; rfl
  · simp only [toClientApp, bumpViews, roundTripApp, a2]; rw [← f1]; rfl
  · simp only [toClientApp, bumpViews, roundTripApp, a3]; rw [← f2]; rfl
  · simp only [toClientApp, bumpViews, roundTripApp, a4]; rw [← f3]; rfl
  · simp only [toClientApp, bumpViews, roundTripApp, a5]; rw [← f4]; rfl
  · simp only [toClientApp, bumpViews, roundTripApp, a6]; exact f5
  · simp only [toClientApp, bumpViews, roundTripApp, a8]; exact f6
  · simp only [toClientApp, bumpViews, roundTripApp, a9]; exact f7
  · simp only [toClientApp, bumpViews, roundTripApp, a10, a11, a1]
    simp only [newApp, f8, f9]
    by_cases hb : ((body.getOpt "file").getOpt "base64").truthy = true
    · simp [hb]
    · simp [hb]

theorem create_then_detail_witness :
    ∃ st3 c rel, handleDetail demoPlatform (demoEnv 200 "y")
        (writeDb catalogState { catalogDb with apps := catalogDb.apps ++
          [newApp (demoEnv 100 "new-1")
            { title := .str "Notes", description := .undefined, version := .undefined,
              category := .undefined, tags := ["a", "b"], isPublished := false,
              featured := false, file := .undefined,
              downloadUrl := .str "https://x.test/a" }] })
        (demoRequest "sid=s-admin" (.obj [])) "new-1" = .ok (st3, json 200 (.detail c rel)) ∧
      c.title = .str "Notes" ∧ c.tags = ["a", "b"] ∧ c.isPublished = false ∧
      c.downloadUrl = .str "https://x.test/a" := by
  obtain ⟨st3, c, rel, h, _, _, _, h1, _, _, _, h2, h3, _, h4⟩ :=
    create_then_detail demoPlatform (demoEnv 100 "new-1") (demoEnv 200 "y") catalogState
      _ _ (demoRequest "sid=s-admin" tagsBody) (demoRequest "sid=s-admin" (.obj []))
      tagsBody _ adminUser rfl rfl rfl (by decide) rfl rfl
  refine ⟨st3, c, rel, h, h1, ?_, h3, h4⟩
  have h5 : parseTags (tagsBody.getOpt "tags") = .ok ["a", "b"] := rfl
  rw [h5] at h2
  simp only [Except.ok.injEq] at h2
  exact h2.symm

/-- C9 (as stated) fails on every field the amendment touches. The body `mixedBody` is
accepted with 201 and the app fetched afterwards has `title` `null` for the submitted
number `1e400`, `tags` the array `["a", "b"]` for the submitted string `"a,b"`,
`isPublished` `true` for the submitted string `"yes"`, `featured` `true` for the submitted
number `1`, and `downloadUrl` `""` though none was submitted; the body `fileBody`, which
carries a file payload, is accepted with 201 and the app fetched afterwards has
`downloadUrl` `/api/apps/new-2/download`, not the submitted URL. -/
theorem create_then_detail_counterexample :
    (∃ st1 c0 st3 c rel,
      handleCreate demoPlatform (demoEnv 100 "new-1") catalogState
        (demoRequest "sid=s-admin" mixedBody) = .ok (st1, json 201 (.app c0)) ∧
      handleDetail demoPlatform (demoEnv 200 "y") st1
        (demoRequest "sid=s-admin" (.obj [])) "new-1" = .ok (st3, json 200 (.detail c rel)) ∧
      (mixedBody.getOpt "title" = .num "Infinity" ∧ c.field "title" = .null) ∧
      (mixedBody.getOpt "tags" = .str "a,b" ∧ c.field "tags" = .arr [.str "a", .str "b"]) ∧
      (mixedBody.getOpt "isPublished" = .str "yes" ∧ c.field "isPublished" = .bool true) ∧
      (mixedBody.getOpt "featured" = .num "1" ∧ c.field "featured" = .bool true) ∧
      (mixedBody.getOpt "downloadUrl" = .undefined ∧ c.field "downloadUrl" = .str "")) ∧
    (∃ st1 c0 st3 c rel,
      handleCreate demoPlatform (demoEnv 100 "new-2") catalogState
        (demoRequest "sid=s-admin" fileBody) = .ok (st1, json 201 (.app c0)) ∧
      handleDetail demoPlatform (demoEnv 200 "y") st1
        (demoRequest "sid=s-admin" (.obj [])) "new-2" = .ok (st3, json 200 (.detail c rel)) ∧
      fileBody.getOpt "downloadUrl" = .str "https://x.test/a" ∧
      c.field "downloadUrl" = .str "/api/apps/new-2/download") :=
  ⟨⟨_, _, _, _, _, rfl, rfl, ⟨rfl, rfl⟩, ⟨rfl, rfl⟩, ⟨rfl, rfl⟩, ⟨rfl, rfl⟩, ⟨rfl, rfl⟩⟩,
    ⟨_, _, _, _, _, rfl, rfl, rfl, rfl⟩⟩

/-! ## Reachable stores and the file-field invariant -/

theorem FileFieldsOk.mono (files files1 : List String) (a : App)
    (hsub : ∀ p ∈ files, p ∈ files1) (h : FileFieldsOk files a) : FileFieldsOk files1 a :=
  ⟨h.1, fun p hp => ⟨hsub p (h.2.1 p hp).1, (h.2.1 p hp).2⟩, h.2.2⟩

theorem heldOk_of_eq (st st1 : State) (hdb : st1.db = st.db) (hfiles : st1.files = st.files)
    (h : HeldOk st) : HeldOk st1 := by
  intro db hd a ha
  rw [hfiles]
  exact h db (by rw [← hdb]; exact hd) a ha

theorem seed_fileFieldsOk (P : Platform) (env : Env) (files : List String) :
    ∀ a ∈ (seedData P env).apps, FileFieldsOk files a := by
  intro a ha
  simp only [seedData, List.mem_singleton] at ha
  subst ha
  exact ⟨rfl, fun p hp => by simp at hp, Or.inr (Or.inr rfl)⟩

theorem roundTrip_urlOk (v : JVal) (h : v = .str "" ∨ v = .null ∨ v.truthy = true) :
    v.roundTrip = .str "" ∨ v.roundTrip = .null ∨ v.roundTrip.truthy = true := by
  rcases h with h | h | h
  · rw [h]; exact Or.inl rfl
  · rw [h]; exact Or.inr (Or.inl rfl)
  · cases v with
    | undefined => simp [JVal.truthy] at h
    | null => exact Or.inr (Or.inl rfl)
    | bool b => exact Or.inr (Or.inr h)
    | num text =>
      simp only [JVal.roundTrip]
      by_cases hn : isNonFinite text = true
      · simp [hn]
      · simp only [hn, Bool.false_eq_true, if_false]; exact Or.inr (Or.inr h)
    | str s => exact Or.inr (Or.inr h)
    | arr xs => exact Or.inr (Or.inr (by simp [JVal.roundTrip, JVal.truthy]))
    | obj fs => exact Or.inr (Or.inr (by simp [JVal.roundTrip, JVal.truthy]))

theorem roundTripApp_ok (files : List String) (a : App) (h : FileFieldsOk files a) :
    FileFieldsOk files (roundTripApp a) :=
  ⟨h.1, h.2.1, roundTrip_urlOk _ h.2.2⟩

theorem roundTripDb_ok (files : List String) (db : Db)
    (h : ∀ a ∈ db.apps, FileFieldsOk files a) :
    ∀ a ∈ (roundTripDb db).apps, FileFieldsOk files a := by
  intro a ha
  simp only [roundTripDb, List.mem_map] at ha
  obtain ⟨b, hb, hab⟩ := ha
  rw [← hab]
  exact roundTripApp_ok files b (h b hb)

theorem readDb_heldOk (P : Platform) (env : Env) (st : State) (h : HeldOk st) :
    (∀ a ∈ (readDb P env st).1.apps, FileFieldsOk st.files a) ∧ HeldOk (readDb P env st).2 := by
  unfold readDb
  cases hdb : st.db with
  | none =>
    refine ⟨seed_fileFieldsOk P env _, ?_⟩
    intro db hd a ha
    simp only [Option.some.injEq] at hd
    subst hd
    exact seed_fileFieldsOk P env _ a ha
  | some d =>
    refine ⟨roundTripDb_ok _ d (h d hdb), ?_⟩
    intro db hd a ha
    simp only [Option.some.injEq] at hd
    subst hd
    exact roundTripDb_ok _ d (h d hdb) a ha

theorem saveUploadedFile_spec (env : Env) (st st1 : State) (fileObj : JVal)
    (info : Option FileInfo) (h : saveUploadedFile env st fileObj = .ok (st1, info)) :
    (info = none ∧ st1.files = st.files) ∨
      ∃ i, info = some i ∧ st1.files = i.filePath :: st.files ∧
        ∃ (stamp : Nat) (safe : String),
          i.filePath = UPLOAD_DIR ++ (toString stamp ++ "-" ++ safe) ∧
          safe.data.all isSafeNameChar = true := by
  unfold saveUploadedFile at h
  split at h
  · simp at h
  · split at h
    · simp only [Except.ok.injEq, Prod.mk.injEq] at h
      rw [← h.1, ← h.2]; exact Or.inl ⟨rfl, rfl⟩
    · split at h
      · rename_i name _
        simp only [Except.ok.injEq, Prod.mk.injEq] at h
        rw [← h.1, ← h.2]
        refine Or.inr ⟨_, rfl, rfl, env.now, String.mk (name.data.filter isSafeNameChar), rfl, ?_⟩
        simp [List.all_eq_true]
      · simp at h

theorem assignFileInfo_ok (files files1 : List String) (app : App) (info : Option FileInfo)
    (hinfo : (info = none ∧ files1 = files) ∨ ∃ i, info = some i ∧ files1 = i.filePath :: files ∧
        ∃ (stamp : Nat) (safe : String),
          i.filePath = UPLOAD_DIR ++ (toString stamp ++ "-" ++ safe) ∧
          safe.data.all isSafeNameChar = true)
    (h : FileFieldsOk files app) : FileFieldsOk files1 (assignFileInfo app info) := by
  rcases hinfo with ⟨h1, h2⟩ | ⟨i, h1, h2, h3⟩
  · subst h1; subst h2; exact h
  · subst h1; subst h2
    refine ⟨rfl, ?_, h.2.2⟩
    intro p hp
    simp only [assignFileInfo, Option.some.injEq] at hp
    rw [← hp]; exact ⟨List.mem_cons_self _ _, h3⟩

theorem or_ok (a b : JVal) (hb : b = .str "" ∨ b = .null ∨ b.truthy = true) :
    a.or b = .str "" ∨ a.or b = .null ∨ (a.or b).truthy = true := by
  unfold JVal.or
  by_cases ha : a.truthy = true
  · simp [ha]
  · simp only [ha, Bool.false_eq_true, if_false]; exact hb

theorem newApp_ok (env : Env) (f : BodyFields) (files : List String) :
    FileFieldsOk files (newApp env f) :=
  ⟨rfl, fun p hp => by simp [newApp] at hp, or_ok _ _ (Or.inl rfl)⟩

theorem applyFields_ok (files : List String) (app : App) (f : BodyFields)
    (h : FileFieldsOk files app) : FileFieldsOk files (applyFields app f) :=
  ⟨h.1, h.2.1, or_ok _ _ h.2.2⟩

theorem removeFirst_mem (id : String) (apps : List App) (a : App)
    (h : a ∈ removeFirst id apps) : a ∈ apps := by
  induction apps with
  | nil => simp [removeFirst] at h
  | cons b rest ih =>
    simp only [removeFirst] at h
    by_cases hb : b.id = id
    · simp only [hb, if_true] at h; exact List.mem_cons_of_mem _ h
    · simp only [hb, if_false, List.mem_cons] at h
      rcases h with h | h
      · rw [h]; exact List.mem_cons_self _ _
      · exact List.mem_cons_of_mem _ (ih h)

theorem readDb_pair_heldOk (P : Platform) (env : Env) (st st2 : State) (db : Db)
    (hrd : readDb P env st = (db, st2)) (h : HeldOk st) :
    (∀ a ∈ db.apps, FileFieldsOk st.files a) ∧ HeldOk st2 ∧ st2.files = st.files := by
  have h1 := readDb_heldOk P env st h
  have h2 := readDb_db P env st
  rw [hrd] at h1 h2
  exact ⟨h1.1, h1.2, h2.2.2⟩

theorem heldOk_sessions (st : State) (m : Sessions) (h : HeldOk st) :
    HeldOk { st with sessions := m } :=
  heldOk_of_eq st _ rfl rfl h

theorem requireAuth_heldOk (P : Platform) (env : Env) (st st1 : State) (req : Request)
    (a : Auth) (hra : requireAuth P env st req = .ok (st1, a)) (h : HeldOk st) :
    HeldOk st1 :=
  heldOk_of_eq st st1 (requireAuth_db P env st st1 req a hra).1
    (requireAuth_db P env st st1 req a hra).2 h

theorem requireAdmin_heldOk (P : Platform) (env : Env) (st st1 : State) (req : Request)
    (a : Auth) (hra : requireAdmin P env st req = .ok (st1, a)) (h : HeldOk st) :
    HeldOk st1 :=
  heldOk_of_eq st st1 (requireAdmin_db P env st st1 req a hra).1
    (requireAdmin_db P env st st1 req a hra).2 h

theorem handleLogin_heldOk (P : Platform) (env : Env) (st st1 : State) (req : Request)
    (r : Response) (hh : handleLogin P env st req = .ok (st1, r)) (h : HeldOk st) :
    HeldOk st1 := by
  unfold handleLogin at hh
  split at hh
  · simp only [Except.ok.injEq, Prod.mk.injEq] at hh
    rw [← hh.1]; exact h
  · split at hh
    rename_i db st2 hrd
    have h2 := (readDb_pair_heldOk P env st st2 db hrd h).2.1
    split at hh
    · simp only [Except.ok.injEq, Prod.mk.injEq] at hh
      rw [← hh.1]; exact h2
    · split at hh
      · simp only [Except.ok.injEq, Prod.mk.injEq] at hh
        rw [← hh.1]; exact h2
      · split at hh
        · simp only [Except.ok.injEq, Prod.mk.injEq] at hh
          rw [← hh.1]; exact h2
        · split at hh
          · simp only [Except.ok.injEq, Prod.mk.injEq] at hh
            rw [← hh.1]; exact h2
          · simp only [Except.ok.injEq, Prod.mk.injEq] at hh
            rw [← hh.1]; exact h2
          · simp only [Except.ok.injEq, Prod.mk.injEq] at hh
            rw [← hh.1]; exact heldOk_sessions _ _ h2

theorem handleLogout_heldOk (P : Platform) (st st1 : State) (req : Request)
    (r : Response) (hh : handleLogout P st req = .ok (st1, r)) (h : HeldOk st) :
    HeldOk st1 := by
  unfold handleLogout at hh
  split at hh
  · simp at hh
  · simp only [Except.ok.injEq, Prod.mk.injEq] at hh
    rw [← hh.1]; exact heldOk_sessions _ _ h

theorem handleMe_heldOk (P : Platform) (env : Env) (st st1 : State) (req : Request)
    (r : Response) (hh : handleMe P env st req = .ok (st1, r)) (h : HeldOk st) :
    HeldOk st1 := by
  unfold handleMe at hh
  split at hh
  · simp at hh
  · simp only [Except.ok.injEq, Prod.mk.injEq] at hh
    rw [← hh.1]; exact heldOk_sessions _ _ h
  · simp only [Except.ok.injEq, Prod.mk.injEq] at hh
    rw [← hh.1]; exact heldOk_sessions _ _ h

theorem handleCategories_heldOk (P : Platform) (env : Env) (st st1 : State) (req : Request)
    (r : Response) (hh : handleCategories P env st req = .ok (st1, r)) (h : HeldOk st) :
    HeldOk st1 := by
  unfold handleCategories at hh
  split at hh
  · simp at hh
  · rename_i st0 r0 hra
    simp only [Except.ok.injEq, Prod.mk.injEq] at hh
    rw [← hh.1]; exact requireAuth_heldOk P env st st0 req _ hra h
  · rename_i st0 u hra
    have h0 := requireAuth_heldOk P env st st0 req _ hra h
    split at hh
    rename_i db st2 hrd
    simp only [Except.ok.injEq, Prod.mk.injEq] at hh
    rw [← hh.1]; exact (readDb_pair_heldOk P env st0 st2 db hrd h0).2.1

theorem handleList_heldOk (P : Platform) (env : Env) (st st1 : State) (req : Request)
    (r : Response) (hh : handleList P env st req = .ok (st1, r)) (h : HeldOk st) :
    HeldOk st1 := by
  unfold handleList at hh
  split at hh
  · simp at hh
  · rename_i st0 r0 hra
    simp only [Except.ok.injEq, Prod.mk.injEq] at hh
    rw [← hh.1]; exact requireAuth_heldOk P env st st0 req _ hra h
  · rename_i st0 u hra
    have h0 := requireAuth_heldOk P env st st0 req _ hra h
    split at hh
    rename_i db st2 hrd
    split at hh
    · simp at hh
    · split at hh
      · simp at hh
      · simp only [Except.ok.injEq, Prod.mk.injEq] at hh
        rw [← hh.1]; exact (readDb_pair_heldOk P env st0 st2 db hrd h0).2.1

theorem handleDownload_heldOk (P : Platform) (env : Env) (st st1 : State) (req : Request)
    (id : String) (r : Response) (hh : handleDownload P env st req id = .ok (st1, r))
    (h : HeldOk st) : HeldOk st1 := by
  unfold handleDownload at hh
  split at hh
  · simp at hh
  · rename_i st0 r0 hra
    simp only [Except.ok.injEq, Prod.mk.injEq] at hh
    rw [← hh.1]; exact requireAuth_heldOk P env st st0 req _ hra h
  · rename_i st0 u hra
    have h0 := requireAuth_heldOk P env st st0 req _ hra h
    split at hh
    rename_i db st2 hrd
    have h2 := (readDb_pair_heldOk P env st0 st2 db hrd h0).2.1
    split at hh
    · simp only [Except.ok.injEq, Prod.mk.injEq] at hh
      rw [← hh.1]; exact h2
    · split at hh
      · simp only [Except.ok.injEq, Prod.mk.injEq] at hh
        rw [← hh.1]; exact h2
      · split at hh
        · split at hh
          · simp at hh
          · split at hh
            · simp at hh
            · split at hh
              · simp only [Except.ok.injEq, Prod.mk.injEq] at hh
                rw [← hh.1]; exact h2
              · simp at hh
        · split at hh
          · simp at hh
          · simp only [Except.ok.injEq, Prod.mk.injEq] at hh
            rw [← hh.1]; exact h2

theorem writeDb_heldOk (st : State) (db : Db)
    (h : ∀ a ∈ db.apps, FileFieldsOk st.files a) : HeldOk (writeDb st db) := by
  intro db1 hd a ha
  simp only [writeDb, Option.some.injEq] at hd
  subst hd
  exact h a ha

theorem handleCreate_heldOk (P : Platform) (env : Env) (st st1 : State) (req : Request)
    (r : Response) (hh : handleCreate P env st req = .ok (st1, r)) (h : HeldOk st) :
    HeldOk st1 := by
  unfold handleCreate at hh
  split at hh
  · simp at hh
  · rename_i st0 r0 hra
    simp only [Except.ok.injEq, Prod.mk.injEq] at hh
    rw [← hh.1]; exact requireAdmin_heldOk P env st st0 req _ hra h
  · rename_i st0 u hra
    have h0 := requireAdmin_heldOk P env st st0 req _ hra h
    split at hh
    · simp only [Except.ok.injEq, Prod.mk.injEq] at hh
      rw [← hh.1]; exact h0
    · split at hh
      rename_i db st2 hrd
      obtain ⟨hdb, h2, hfiles⟩ := readDb_pair_heldOk P env st0 st2 db hrd h0
      split at hh
      · simp only [Except.ok.injEq, Prod.mk.injEq] at hh
        rw [← hh.1]; exact h2
      · rename_i f hf
        split at hh
        · split at hh
          · simp only [Except.ok.injEq, Prod.mk.injEq] at hh
            rw [← hh.1]; exact h2
          · rename_i st3 info hsv
            simp only [Except.ok.injEq, Prod.mk.injEq] at hh
            rw [← hh.1]
            have hspec := saveUploadedFile_spec env st2 st3 f.file info hsv
            have hsub : ∀ p ∈ st0.files, p ∈ st3.files := by
              intro p hp
              rcases hspec with ⟨_, e⟩ | ⟨i, _, e, _⟩
              · rw [e, hfiles]; exact hp
              · rw [e, hfiles]; exact List.mem_cons_of_mem _ hp
            apply writeDb_heldOk
            intro a ha
            simp only [List.mem_append, List.mem_singleton] at ha
            rcases ha with ha | ha
            · exact FileFieldsOk.mono _ _ a hsub (hdb a ha)
            · rw [ha]
              exact assignFileInfo_ok st2.files st3.files _ info hspec (newApp_ok env f _)
        · simp only [Except.ok.injEq, Prod.mk.injEq] at hh
          rw [← hh.1]
          apply writeDb_heldOk
          intro a ha
          simp only [List.mem_append, List.mem_singleton] at ha
          rcases ha with ha | ha
          · rw [hfiles]; exact hdb a ha
          · rw [ha]; exact newApp_ok env f _

theorem bumpViews_ok (files : List String) (a : App) (h : FileFieldsOk files a) :
    FileFieldsOk files (bumpViews a) := h

theorem handleDetail_heldOk (P : Platform) (env : Env) (st st1 : State) (req : Request)
    (id : String) (r : Response) (hh : handleDetail P env st req id = .ok (st1, r))
    (h : HeldOk st) : HeldOk st1 := by
  unfold handleDetail at hh
  split at hh
  · simp at hh
  · rename_i st0 r0 hra
    simp only [Except.ok.injEq, Prod.mk.injEq] at hh
    rw [← hh.1]; exact requireAuth_heldOk P env st st0 req _ hra h
  · rename_i st0 u hra
    have h0 := requireAuth_heldOk P env st st0 req _ hra h
    split at hh
    rename_i db st2 hrd
    obtain ⟨hdb, h2, hfiles⟩ := readDb_pair_heldOk P env st0 st2 db hrd h0
    split at hh
    · simp only [Except.ok.injEq, Prod.mk.injEq] at hh
      rw [← hh.1]; exact h2
    · split at hh
      · simp only [Except.ok.injEq, Prod.mk.injEq] at hh
        rw [← hh.1]; exact h2
      · simp only [Except.ok.injEq, Prod.mk.injEq] at hh
        rw [← hh.1]
        apply writeDb_heldOk
        intro a ha
        rw [hfiles]
        rcases updateFirst_mem id bumpViews db.apps a ha with ha1 | ⟨b, hb, _, hab⟩
        · exact hdb a ha1
        · rw [hab]; exact bumpViews_ok _ b (hdb b hb)

theorem handleDelete_heldOk (P : Platform) (env : Env) (st st1 : State) (req : Request)
    (id : String) (r : Response) (hh : handleDelete P env st req id = .ok (st1, r))
    (h : HeldOk st) : HeldOk st1 := by
  unfold handleDelete at hh
  split at hh
  · simp at hh
  · rename_i st0 r0 hra
    simp only [Except.ok.injEq, Prod.mk.injEq] at hh
    rw [← hh.1]; exact requireAdmin_heldOk P env st st0 req _ hra h
  · rename_i st0 u hra
    have h0 := requireAdmin_heldOk P env st st0 req _ hra h
    split at hh
    rename_i db st2 hrd
    obtain ⟨hdb, h2, hfiles⟩ := readDb_pair_heldOk P env st0 st2 db hrd h0
    split at hh
    · simp only [Except.ok.injEq, Prod.mk.injEq] at hh
      rw [← hh.1]; exact h2
    · simp only [Except.ok.injEq, Prod.mk.injEq] at hh
      rw [← hh.1]
      apply writeDb_heldOk
      intro a ha
      rw [hfiles]
      exact hdb a (removeFirst_mem id db.apps a ha)

theorem handleUpdate_heldOk (P : Platform) (env : Env) (st st1 : State) (req : Request)
    (id : String) (r : Response) (hh : handleUpdate P env st req id = .ok (st1, r))
    (h : HeldOk st) : HeldOk st1 := by
  unfold handleUpdate at hh
  split at hh
  · simp at hh
  · rename_i st0 r0 hra
    simp only [Except.ok.injEq, Prod.mk.injEq] at hh
    rw [← hh.1]; exact requireAdmin_heldOk P env st st0 req _ hra h
  · rename_i st0 u hra
    have h0 := requireAdmin_heldOk P env st st0 req _ hra h
    split at hh
    · simp only [Except.ok.injEq, Prod.mk.injEq] at hh
      rw [← hh.1]; exact h0
    · split at hh
      rename_i db st2 hrd
      obtain ⟨hdb, h2, hfiles⟩ := readDb_pair_heldOk P env st0 st2 db hrd h0
      split at hh
      · simp only [Except.ok.injEq, Prod.mk.injEq] at hh
        rw [← hh.1]; exact h2
      · rename_i app hfind
        have happ : FileFieldsOk st0.files app := hdb app (findApp_some id db.apps app hfind).1
        split at hh
        · simp only [Except.ok.injEq, Prod.mk.injEq] at hh
          rw [← hh.1]; exact h2
        · rename_i f hf
          split at hh
          · split at hh
            · simp only [Except.ok.injEq, Prod.mk.injEq] at hh
              rw [← hh.1]; exact h2
            · rename_i st3 info hsv
              simp only [Except.ok.injEq, Prod.mk.injEq] at hh
              rw [← hh.1]
              have hspec := saveUploadedFile_spec env st2 st3 f.file info hsv
              have hsub : ∀ p ∈ st0.files, p ∈ st3.files := by
                intro p hp
                rcases hspec with ⟨_, e⟩ | ⟨i, _, e, _⟩
                · rw [e, hfiles]; exact hp
                · rw [e, hfiles]; exact List.mem_cons_of_mem _ hp
              apply writeDb_heldOk
              intro a ha
              rcases updateFirst_mem id _ db.apps a ha with ha1 | ⟨b, _, _, hab⟩
              · exact FileFieldsOk.mono _ _ a hsub (hdb a ha1)
              · rw [hab]
                apply assignFileInfo_ok st2.files st3.files _ info hspec
                rw [hfiles]
                exact applyFields_ok _ app f happ
          · simp only [Except.ok.injEq, Prod.mk.injEq] at hh
            rw [← hh.1]
            apply writeDb_heldOk
            intro a ha
            rw [hfiles]
            rcases updateFirst_mem id _ db.apps a ha with ha1 | ⟨b, _, _, hab⟩
            · exact hdb a ha1
            · rw [hab]
              split
              · exact applyFields_ok _ app f happ
              · exact applyFields_ok _ app f happ

theorem handle_dispatch (P : Platform) (env : Env) (st st1 : State) (req : Request)
    (call : Call) (r : Response) (h : handle P env st req call = .ok (st1, r)) :
    req.urlError = none ∧ dispatch P env st req call = .ok (st1, r) := by
  unfold handle at h
  cases hu : req.urlError with
  | some e => simp [hu] at h
  | none => simp only [hu] at h; exact ⟨rfl, h⟩

theorem reachable_heldOk (P : Platform) (st : State) (h : Reachable P st) : HeldOk st := by
  induction h with
  | init =>
    intro db hd
    simp [initState] at hd
  | step st st1 env req call r _ hh ih =>
    have hd := (handle_dispatch P env st st1 req call r hh).2
    cases call with
    | login => exact handleLogin_heldOk P env st st1 req r hd ih
    | logout => exact handleLogout_heldOk P st st1 req r hd ih
    | me => exact handleMe_heldOk P env st st1 req r hd ih
    | categories => exact handleCategories_heldOk P env st st1 req r hd ih
    | list => exact handleList_heldOk P env st st1 req r hd ih
    | create => exact handleCreate_heldOk P env st st1 req r hd ih
    | detail id => exact handleDetail_heldOk P env st st1 req id r hd ih
    | update id => exact handleUpdate_heldOk P env st st1 req id r hd ih
    | delete id => exact handleDelete_heldOk P env st st1 req id r hd ih
    | download id => exact handleDownload_heldOk P env st st1 req id r hd ih

/-- C10 (as amended): in every state reachable from a fresh server through answered API
requests, every app record, in the document the server holds and in the document a read
of the persisted file returns, has `filePath` and `fileName` set together or not at all;
a set `filePath` is the path of a file the server wrote directly under the upload
directory (a time stamp, a dash and characters out of `a-zA-Z0-9._-`); and `downloadUrl`
is the empty string, `null` (a submitted non-finite number, as persisted) or a truthy
value. -/
theorem reachable_storeOk (P : Platform) (st : State) (h : Reachable P st) : StoreOk st :=
  ⟨reachable_heldOk P st h,
    fun db hd => roundTripDb_ok st.files db (reachable_heldOk P st h db hd)⟩

set_option maxRecDepth 200000 in
theorem afterCreate_reachable : Reachable demoPlatform afterCreate := by
  have h1 : handle demoPlatform (demoEnv 1000 "sid-1") initState (demoRequest "" loginBody)
      .login = .ok (afterLogin, ⟨200, .user (some adminUser),
        some "sid=sid-1; HttpOnly; SameSite=Strict; Path=/"⟩) := rfl
  have h2 : handle demoPlatform (demoEnv 2000 "app-1") afterLogin
      (demoRequest "sid=sid-1" bareBody) .create =
        .ok (afterCreate, json 201 (.app (toClientApp bareApp))) := rfl
  exact Reachable.step _ _ _ _ _ _ (Reachable.step _ _ _ _ _ _ Reachable.init h1) h2

set_option maxRecDepth 200000 in
theorem afterCreate_db :
    afterCreate.db = some ⟨(seedData demoPlatform (demoEnv 1000 "sid-1")).users,
      (seedData demoPlatform (demoEnv 1000 "sid-1")).apps ++ [bareApp]⟩ := rfl

theorem reachable_storeOk_witness : Reachable demoPlatform afterCreate ∧ StoreOk afterCreate :=
  ⟨afterCreate_reachable, reachable_storeOk demoPlatform afterCreate afterCreate_reachable⟩

set_option maxRecDepth 200000 in
theorem afterUpload_reachable : Reachable demoPlatform afterUpload := by
  have h : handle demoPlatform (demoEnv 3000 "app-2") afterCreate
      (demoRequest "sid=sid-1" fileBody) .create =
        .ok (afterUpload, json 201 (.app (toClientApp uploadedApp))) := rfl
  exact Reachable.step _ _ _ _ _ _ afterCreate_reachable h

set_option maxRecDepth 200000 in
theorem afterUpload_db :
    afterUpload.db = some ⟨(seedData demoPlatform (demoEnv 1000 "sid-1")).users,
      (seedData demoPlatform (demoEnv 1000 "sid-1")).apps ++ [bareApp, uploadedApp]⟩ := rfl

set_option maxRecDepth 200000 in
theorem afterSwitch_reachable : Reachable demoPlatform afterSwitch := by
  have h : handle demoPlatform (demoEnv 4000 "unused") afterUpload
      (demoRequest "sid=sid-1" switchBody) (.update "app-2") =
        .ok (afterSwitch, json 200 (.app (toClientApp switchedApp))) := rfl
  exact Reachable.step _ _ _ _ _ _ afterUpload_reachable h

set_option maxRecDepth 200000 in
theorem afterSwitch_db :
    afterSwitch.db = some ⟨(seedData demoPlatform (demoEnv 1000 "sid-1")).users,
      (seedData demoPlatform (demoEnv 1000 "sid-1")).apps ++ [bareApp, switchedApp]⟩ := rfl

set_option maxRecDepth 200000 in
theorem afterInfinite_reachable : Reachable demoPlatform afterInfinite := by
  have h1 : handle demoPlatform (demoEnv 1000 "sid-1") initState (demoRequest "" loginBody)
      .login = .ok (afterLogin, ⟨200, .user (some adminUser),
        some "sid=sid-1; HttpOnly; SameSite=Strict; Path=/"⟩) := rfl
  have h2 : handle demoPlatform (demoEnv 2000 "app-9") afterLogin
      (demoRequest "sid=sid-1" infiniteBody) .create =
        .ok (afterInfinite, json 201 (.app (toClientApp infiniteApp))) := rfl
  exact Reachable.step _ _ _ _ _ _ (Reachable.step _ _ _ _ _ _ Reachable.init h1) h2

set_option maxRecDepth 200000 in
theorem afterInfinite_db :
    afterInfinite.db = some ⟨(seedData demoPlatform (demoEnv 1000 "sid-1")).users,
      (seedData demoPlatform (demoEnv 1000 "sid-1")).apps ++ [infiniteApp]⟩ := rfl

/-- C10 (as stated) fails in stores reachable from the seed: after the administrator logs
in and posts a body with only a title, the stored record has `fileType = url`, an empty
`downloadUrl` and no `filePath` or `fileName` (neither source populated); after a post
with both a URL and a file payload the stored record has `fileType = file` with both
sources populated; after an update of that record with a new URL it has
`fileType = url` and still carries `filePath` and `fileName`; and after a post whose
`downloadUrl` is the number `1e400` the record read back from the file has
`fileType = url` and `downloadUrl` `null`. -/
theorem file_invariant_counterexample :
    (Reachable demoPlatform afterCreate ∧
      (∃ db, afterCreate.db = some db ∧ bareApp ∈ db.apps) ∧
      bareApp.fileType = .url ∧ bareApp.downloadUrl = .str "" ∧
      bareApp.filePath = none ∧ bareApp.fileName = none ∧ ¬ SpecFileInvariant bareApp) ∧
    (Reachable demoPlatform afterUpload ∧
      (∃ db, afterUpload.db = some db ∧ uploadedApp ∈ db.apps) ∧
      uploadedApp.fileType = .file ∧ uploadedApp.downloadUrl = .str "https://x.test/a" ∧
      uploadedApp.filePath = some "uploads/3000-tool.bin" ∧
      ¬ SpecFileInvariant uploadedApp) ∧
    (Reachable demoPlatform afterSwitch ∧
      (∃ db, afterSwitch.db = some db ∧ switchedApp ∈ db.apps) ∧
      switchedApp.fileType = .url ∧ switchedApp.filePath = some "uploads/3000-tool.bin" ∧
      ¬ SpecFileInvariant switchedApp) ∧
    (Reachable demoPlatform afterInfinite ∧
      (∃ db, afterInfinite.db = some db ∧ roundTripApp infiniteApp ∈ (roundTripDb db).apps) ∧
      (roundTripApp infiniteApp).fileType = .url ∧
      (roundTripApp infiniteApp).downloadUrl = .null ∧
      ¬ SpecFileInvariant (roundTripApp infiniteApp)) :=
  ⟨⟨afterCreate_reachable, ⟨_, afterCreate_db, by simp⟩, rfl, rfl, rfl, rfl,
      by simp [SpecFileInvariant, bareApp, JVal.truthy]⟩,
    ⟨afterUpload_reachable, ⟨_, afterUpload_db, by simp⟩, rfl, rfl, rfl,
      by simp [SpecFileInvariant, uploadedApp, JVal.truthy]⟩,
    ⟨afterSwitch_reachable, ⟨_, afterSwitch_db, by simp⟩, rfl, rfl,
      by simp [SpecFileInvariant, switchedApp, uploadedApp]⟩,
    ⟨afterInfinite_reachable, ⟨_, afterInfinite_db, by simp [roundTripDb]⟩, rfl, rfl,
      by simp [SpecFileInvariant, roundTripApp, infiniteApp, JVal.roundTrip, isNonFinite,
        JVal.truthy]⟩⟩

/-! ## Search filter: proofs -/

theorem startsWithChars_iff (p s : List Char) :
    startsWithChars p s = true ↔ ∃ post, s = p ++ post := by
  induction p generalizing s with
  | nil => simp [startsWithChars]
  | cons c cs ih =>
    cases s with
    | nil => simp [startsWithChars]
    | cons d ds =>
      simp only [startsWithChars, Bool.and_eq_true, beq_iff_eq, ih, List.cons_append,
        List.cons.injEq]
      constructor
      · rintro ⟨h1, post, h2⟩
        exact ⟨post, h1.symm, h2⟩
      · rintro ⟨post, h1, h2⟩
        exact ⟨h1.symm, post, h2⟩

theorem includesChars_iff (needle hay : List Char) :
    includesChars needle hay = true ↔ IsSubstring needle hay := by
  unfold IsSubstring
  induction hay with
  | nil =>
    simp only [includesChars, List.isEmpty_iff]
    constructor
    · intro h; exact ⟨[], [], by simp [h]⟩
    · rintro ⟨pre, post, h⟩
      have h1 := congrArg List.length h
      simp only [List.length_nil, List.length_append] at h1
      exact List.eq_nil_of_length_eq_zero (by omega)
  | cons c cs ih =>
    simp only [includesChars, Bool.or_eq_true, startsWithChars_iff, ih]
    constructor
    · rintro (⟨post, h⟩ | ⟨pre, post, h⟩)
      · exact ⟨[], post, by simpa using h⟩
      · exact ⟨c :: pre, post, by simp [h]⟩
    · rintro ⟨pre, post, h⟩
      cases pre with
      | nil => exact Or.inl ⟨post, by simpa using h⟩
      | cons d pre =>
        simp only [List.cons_append, List.cons.injEq] at h
        exact Or.inr ⟨pre, post, h.2⟩

theorem toStrElems_str (l : List String) : JVal.toStrElems (l.map JVal.str) = .ok l := by
  induction l with
  | nil => rfl
  | cons x xs ih => simp [JVal.toStrElems, JVal.toStr, ih]

theorem searchText_strings (a : App) (t d : String) (ht : a.title = .str t)
    (hd : a.description = .str d) :
    searchText a = .ok (String.intercalate " " (t :: d :: a.tags)) := by
  unfold searchText
  rw [ht, hd]
  simp [JVal.toStrElems, JVal.toStr, toStrElems_str]

theorem matchesSearch_true_iff (P : Platform) (search : String) (a : App) :
    matchesSearch P search a = .ok true ↔
      ∃ text, searchText a = .ok text ∧
        IsSubstring search.data (P.toLowerCase text).data := by
  unfold matchesSearch
  cases ht : searchText a with
  | error e => simp
  | ok text =>
    simp only [Except.ok.injEq, exists_eq_left']
    exact includesChars_iff _ _

theorem matchesSearch_ok_iff (P : Platform) (search : String) (a : App) :
    (∃ b, matchesSearch P search a = .ok b) ↔ ∃ text, searchText a = .ok text := by
  unfold matchesSearch
  cases ht : searchText a with
  | error e => simp
  | ok text => simp

theorem filterSearch_total (P : Platform) (search : String) (apps : List App)
    (h : ∀ a ∈ apps, ∃ b, matchesSearch P search a = .ok b) :
    ∃ kept, filterSearch P search apps = .ok kept := by
  induction apps with
  | nil => exact ⟨[], rfl⟩
  | cons x rest ih =>
    obtain ⟨b, hb⟩ := h x (List.mem_cons_self _ _)
    obtain ⟨kept, hk⟩ := ih (fun a ha => h a (List.mem_cons_of_mem _ ha))
    exact ⟨if b then x :: kept else kept, by simp only [filterSearch, hb, hk]⟩

theorem filteredApps_mem_iff (P : Platform) (u : SessionUser) (req : Request)
    (apps sel : List App) (h : filteredApps P u req apps = .ok sel) (a : App) :
    a ∈ sel ↔
      a ∈ visibleApps u apps ∧
      (P.toLowerCase (req.search.getD "") = "" ∨
        matchesSearch P (P.toLowerCase (req.search.getD "")) a = .ok true) ∧
      (req.category.getD "" = "" ∨
        a.category.strictEq (.str (req.category.getD "")) = true) := by
  unfold filteredApps at h
  simp only at h
  by_cases h1 : P.toLowerCase (req.search.getD "") = ""
  · simp only [h1, ne_eq, not_true_eq_false, if_false, Except.ok.injEq] at h
    rw [← h]
    by_cases h2 : req.category.getD "" = ""
    · simp [h1, h2]
    · simp [h1, h2, List.mem_filter]
  · simp only [h1, ne_eq, not_false_eq_true, if_true] at h
    cases hf : filterSearch P (P.toLowerCase (req.search.getD "")) (visibleApps u apps) with
    | error e => simp [hf] at h
    | ok kept =>
      simp only [hf, Except.ok.injEq] at h
      have hk := (filterSearch_ok P _ _ kept hf).2.2 a
      rw [← h]
      by_cases h2 : req.category.getD "" = ""
      · simp [h1, h2, hk]
      · simp only [h2, not_false_eq_true, if_true, List.mem_filter, hk, h1, false_or]
        tauto

theorem filteredApps_texts (P : Platform) (u : SessionUser) (req : Request)
    (apps sel : List App) (h : filteredApps P u req apps = .ok sel)
    (hne : P.toLowerCase (req.search.getD "") ≠ "") :
    ∀ a ∈ visibleApps u apps, ∃ text, searchText a = .ok text := by
  unfold filteredApps at h
  simp only [hne, ne_eq, not_false_eq_true, if_true] at h
  cases hf : filterSearch P (P.toLowerCase (req.search.getD "")) (visibleApps u apps) with
  | error e => simp [hf] at h
  | ok kept =>
    intro a ha
    exact (matchesSearch_ok_iff P _ a).1 ((filterSearch_ok P _ _ kept hf).2.1 a ha)

theorem filteredApps_total (P : Platform) (u : SessionUser) (req : Request)
    (apps : List App) (h : ∀ a ∈ visibleApps u apps, ∃ text, searchText a = .ok text) :
    ∃ sel, filteredApps P u req apps = .ok sel := by
  unfold filteredApps
  simp only
  by_cases h1 : P.toLowerCase (req.search.getD "") = ""
  · simp only [h1, ne_eq, not_true_eq_false, if_false]
    exact ⟨_, rfl⟩
  · simp only [h1, ne_eq, not_false_eq_true, if_true]
    obtain ⟨kept, hk⟩ := filterSearch_total P (P.toLowerCase (req.search.getD ""))
      (visibleApps u apps) (fun a ha => (matchesSearch_ok_iff P _ a).2 (h a ha))
    rw [hk]
    exact ⟨_, rfl⟩

theorem requireAuth_search (P : Platform) (env : Env) (st : State) (req : Request)
    (s : Option String) :
    requireAuth P env st { req with search := s } = requireAuth P env st req := by
  simp only [requireAuth, getSessionUser, cookieSid, parseCookies]

/-- C11: with a valid session and a `search` parameter `s`, whenever the filters of
`GET /api/apps` return (they do when every visible record has a search text, and only
then when the lower-cased `s` is non-empty: `join` throws on a title or description that
is an object with an own `toString` property), a visible record is kept exactly when the
lower-cased `s` is a substring of the lower-cased text
`[title, description, ...tags].join(' ')` (no record being dropped when the lower-cased
`s` is empty) and the record passes the `category` filter, when one is given; for string
title and description that text is the title, the description and the tags joined by
single spaces; the response is a permutation of the projections of the kept records; and
a search string with the same lower-casing gives the same answer. -/
theorem handleList_search (P : Platform) (env : Env) (st st0 : State) (req : Request)
    (u : SessionUser) (s : String)
    (hauth : requireAuth P env st req = .ok (st0, .user u))
    (hs : req.search = some s) :
    (∀ sel, filteredApps P u req (readDb P env st0).1.apps = .ok sel →
      (∀ a ∈ visibleApps u (readDb P env st0).1.apps,
        (a ∈ sel ↔
          (P.toLowerCase s = "" ∨
            ∃ text, searchText a = .ok text ∧
              IsSubstring (P.toLowerCase s).data (P.toLowerCase text).data) ∧
          (req.category.getD "" = "" ∨
            a.category.strictEq (.str (req.category.getD "")) = true))) ∧
      (∀ a ∈ sel, a ∈ visibleApps u (readDb P env st0).1.apps) ∧
      (P.toLowerCase s ≠ "" →
        ∀ a ∈ visibleApps u (readDb P env st0).1.apps, ∃ text, searchText a = .ok text)) ∧
    ((∀ a ∈ visibleApps u (readDb P env st0).1.apps, ∃ text, searchText a = .ok text) →
      ∃ sel, filteredApps P u req (readDb P env st0).1.apps = .ok sel) ∧
    (∀ a t d, a.title = .str t → a.description = .str d →
      searchText a = .ok (String.intercalate " " (t :: d :: a.tags))) ∧
    (∀ st1 r l, handleList P env st req = .ok (st1, r) → r.body = .apps l →
      ∃ sel, filteredApps P u req (readDb P env st0).1.apps = .ok sel ∧
        l.Perm (sel.map toClientApp)) ∧
    (∀ s2, P.toLowerCase s2 = P.toLowerCase s →
      handleList P env st { req with search := some s2 } = handleList P env st req) := by
  have hsd : req.search.getD "" = s := by rw [hs]; rfl
  refine ⟨?_, ?_, ?_, ?_, ?_⟩
  · intro sel hsel
    refine ⟨?_, ?_, ?_⟩
    · intro a ha
      rw [filteredApps_mem_iff P u req _ sel hsel a, hsd, matchesSearch_true_iff]
      constructor
      · rintro ⟨_, h1, h2⟩; exact ⟨h1, h2⟩
      · rintro ⟨h1, h2⟩; exact ⟨ha, h1, h2⟩
    · intro a ha
      exact (filteredApps_sublist_visible P u req _ sel hsel).subset ha
    · intro hne
      exact filteredApps_texts P u req _ sel hsel (by rw [hsd]; exact hne)
  · exact filteredApps_total P u req _
  · intro a t d ht hd
    exact searchText_strings a t d ht hd
  · intro st1 r l h hl
    obtain ⟨st2, u2, sel, sorted, hauth2, hsel, hsort, hmap, _⟩ :=
      handleList_apps P env st st1 req r l h hl
    rw [hauth] at hauth2
    simp only [Except.ok.injEq, Prod.mk.injEq, Auth.user.injEq] at hauth2
    obtain ⟨e1, e2⟩ := hauth2
    subst e1; subst e2; subst hmap
    exact ⟨sel, hsel, (arraySort_perm _ _ _ hsort).map toClientApp⟩
  · intro s2 h2
    have hf : ∀ (v : SessionUser) (apps : List App),
        filteredApps P v { req with search := some s2 } apps = filteredApps P v req apps := by
      intro v apps
      simp only [filteredApps, Option.getD_some, h2, hsd]
    simp only [handleList, requireAuth_search, hf]
    rfl

set_option maxRecDepth 200000 in
theorem handleList_search_witness :
    requireAuth demoPlatform (demoEnv 100 "x") catalogState
        { listRequest "sid=s-user" none with search := some "ZETA" } =
      .ok (catalogState, .user plainUser) ∧
    (demoApp "a3" "Zeta" 20 true ∈
        [demoApp "a1" "Zeta" 30 true, demoApp "a3" "Zeta" 20 true] ↔
      (demoPlatform.toLowerCase "ZETA" = "" ∨
        ∃ text, searchText (demoApp "a3" "Zeta" 20 true) = .ok text ∧
          IsSubstring (demoPlatform.toLowerCase "ZETA").data
            (demoPlatform.toLowerCase text).data) ∧
        ((none : Option String).getD "" = "" ∨
          (demoApp "a3" "Zeta" 20 true).category.strictEq (.str ((none : Option String).getD ""))
            = true)) ∧
    handleList demoPlatform (demoEnv 100 "x") catalogState
        { listRequest "sid=s-user" none with search := some "zeta" } =
      handleList demoPlatform (demoEnv 100 "x") catalogState
        { listRequest "sid=s-user" none with search := some "ZETA" } := by
  have h := handleList_search demoPlatform (demoEnv 100 "x") catalogState catalogState
    { listRequest "sid=s-user" none with search := some "ZETA" } plainUser "ZETA"
    rfl rfl
  have hmem : demoApp "a3" "Zeta" 20 true ∈ visibleApps plainUser
      (readDb demoPlatform (demoEnv 100 "x") catalogState).1.apps := by
    show demoApp "a3" "Zeta" 20 true ∈
      [demoApp "a1" "Zeta" 30 true, demoApp "a3" "Zeta" 20 true, demoApp "a4" "Mid" 20 true]
    simp
  have hsel : filteredApps demoPlatform plainUser
      { listRequest "sid=s-user" none with search := some "ZETA" }
      (readDb demoPlatform (demoEnv 100 "x") catalogState).1.apps =
      .ok [demoApp "a1" "Zeta" 30 true, demoApp "a3" "Zeta" 20 true] := rfl
  exact ⟨rfl, (h.1 _ hsel).1 (demoApp "a3" "Zeta" 20 true) hmem, h.2.2.2.2 "zeta" rfl⟩

/-! ## Responses of the handlers: proofs -/

theorem requireAuth_cases (P : Platform) (env : Env) (st : State) (req : Request) :
    (∃ e, requireAuth P env st req = .error e) ∨
    (∃ st0, requireAuth P env st req =
      .ok (st0, .reject (json 401 (.message "Unauthorized")))) ∨
    (∃ st0 u, requireAuth P env st req = .ok (st0, .user u)) := by
  rw [requireAuth_eq]
  cases hg : getSessionUser P env st.sessions req with
  | error e => exact Or.inl ⟨e, rfl⟩
  | ok v =>
    obtain ⟨m1, ou⟩ := v
    cases ou with
    | none => exact Or.inr (Or.inl ⟨_, rfl⟩)
    | some u => exact Or.inr (Or.inr ⟨_, u, rfl⟩)

theorem requireAdmin_cases (P : Platform) (env : Env) (st : State) (req : Request) :
    (∃ e, requireAdmin P env st req = .error e) ∨
    (∃ st0 m, requireAdmin P env st req = .ok (st0, .reject (json 401 (.message m)))) ∨
    (∃ st0 m, requireAdmin P env st req = .ok (st0, .reject (json 403 (.message m)))) ∨
    (∃ st0 u, requireAdmin P env st req = .ok (st0, .user u)) := by
  unfold requireAdmin
  rcases requireAuth_cases P env st req with ⟨e, h⟩ | ⟨st0, h⟩ | ⟨st0, u, h⟩
  · exact Or.inl ⟨e, by simp only [h]⟩
  · exact Or.inr (Or.inl ⟨st0, "Unauthorized", by simp only [h]⟩)
  · by_cases hr : u.role = "admin"
    · exact Or.inr (Or.inr (Or.inr ⟨st0, u, by simp [h, hr]⟩))
    · exact Or.inr (Or.inr (Or.inl ⟨st0, "Forbidden",
        by simp only [h, hr, ne_eq, not_false_eq_true, if_true]⟩))

theorem errorShape_message (call : Call) (status : Nat) (m : String) :
    ErrorShape call (json status (.message m)) :=
  Or.inr (Or.inl ⟨m, rfl⟩)

theorem handleLogin_shape (P : Platform) (env : Env) (st st1 : State) (req : Request)
    (r : Response) (h : handleLogin P env st req = .ok (st1, r)) : ErrorShape .login r := by
  unfold handleLogin at h
  repeat' split at h
  all_goals
    simp only [Except.ok.injEq, Prod.mk.injEq] at h
    obtain ⟨_, h2⟩ := h
    subst h2
    first
      | exact errorShape_message _ _ _
      | exact Or.inl (by simp [json])

theorem handleLogout_shape (P : Platform) (st st1 : State) (req : Request)
    (r : Response) (h : handleLogout P st req = .ok (st1, r)) : ErrorShape .logout r := by
  unfold handleLogout at h
  split at h
  · simp at h
  · simp only [Except.ok.injEq, Prod.mk.injEq] at h
    obtain ⟨_, h2⟩ := h
    subst h2
    exact Or.inl (by simp [json])

theorem handleMe_shape (P : Platform) (env : Env) (st st1 : State) (req : Request)
    (r : Response) (h : handleMe P env st req = .ok (st1, r)) : ErrorShape .me r := by
  unfold handleMe at h
  split at h
  · simp at h
  · simp only [Except.ok.injEq, Prod.mk.injEq] at h
    obtain ⟨_, h2⟩ := h
    subst h2
    exact Or.inr (Or.inr ⟨rfl, rfl, rfl⟩)
  · simp only [Except.ok.injEq, Prod.mk.injEq] at h
    obtain ⟨_, h2⟩ := h
    subst h2
    exact Or.inl (by simp [json])

theorem handleCategories_shape (P : Platform) (env : Env) (st st1 : State) (req : Request)
    (r : Response) (h : handleCategories P env st req = .ok (st1, r)) :
    ErrorShape .categories r := by
  unfold handleCategories at h
  rcases requireAuth_cases P env st req with ⟨e, h0⟩ | ⟨st0, h0⟩ | ⟨st0, u, h0⟩ <;>
    simp only [h0] at h
  · simp at h
  · simp only [Except.ok.injEq, Prod.mk.injEq] at h
    rw [← h.2]; exact errorShape_message _ _ _
  · simp only [Except.ok.injEq, Prod.mk.injEq] at h
    rw [← h.2]; exact Or.inl (by simp [json])

theorem handleList_shape (P : Platform) (env : Env) (st st1 : State) (req : Request)
    (r : Response) (h : handleList P env st req = .ok (st1, r)) : ErrorShape .list r := by
  unfold handleList at h
  rcases requireAuth_cases P env st req with ⟨e, h0⟩ | ⟨st0, h0⟩ | ⟨st0, u, h0⟩ <;>
    simp only [h0] at h
  · simp at h
  · simp only [Except.ok.injEq, Prod.mk.injEq] at h
    rw [← h.2]; exact errorShape_message _ _ _
  · split at h
    · simp at h
    · split at h
      · simp at h
      · simp only [Except.ok.injEq, Prod.mk.injEq] at h
        rw [← h.2]; exact Or.inl (by simp [json])

theorem handleCreate_shape (P : Platform) (env : Env) (st st1 : State) (req : Request)
    (r : Response) (h : handleCreate P env st req = .ok (st1, r)) : ErrorShape .create r := by
  unfold handleCreate at h
  rcases requireAdmin_cases P env st req with
    ⟨e, h0⟩ | ⟨st0, m, h0⟩ | ⟨st0, m, h0⟩ | ⟨st0, u, h0⟩ <;> simp only [h0] at h
  · simp at h
  · simp only [Except.ok.injEq, Prod.mk.injEq] at h
    rw [← h.2]; exact errorShape_message _ _ _
  · simp only [Except.ok.injEq, Prod.mk.injEq] at h
    rw [← h.2]; exact errorShape_message _ _ _
  · repeat' split at h
    all_goals
      simp only [Except.ok.injEq, Prod.mk.injEq] at h
      obtain ⟨_, h2⟩ := h
      subst h2
      first
        | exact errorShape_message _ _ _
        | exact Or.inl (by simp [json])

theorem handleDetail_shape (P : Platform) (env : Env) (st st1 : State) (req : Request)
    (id : String) (r : Response) (h : handleDetail P env st req id = .ok (st1, r)) :
    ErrorShape (.detail id) r := by
  unfold handleDetail at h
  rcases requireAuth_cases P env st req with ⟨e, h0⟩ | ⟨st0, h0⟩ | ⟨st0, u, h0⟩ <;>
    simp only [h0] at h
  · simp at h
  · simp only [Except.ok.injEq, Prod.mk.injEq] at h
    rw [← h.2]; exact errorShape_message _ _ _
  · repeat' split at h
    all_goals
      simp only [Except.ok.injEq, Prod.mk.injEq] at h
      obtain ⟨_, h2⟩ := h
      subst h2
      first
        | exact errorShape_message _ _ _
        | exact Or.inl (by simp [json])

theorem handleUpdate_shape (P : Platform) (env : Env) (st st1 : State) (req : Request)
    (id : String) (r : Response) (h : handleUpdate P env st req id = .ok (st1, r)) :
    ErrorShape (.update id) r := by
  unfold handleUpdate at h
  rcases requireAdmin_cases P env st req with
    ⟨e, h0⟩ | ⟨st0, m, h0⟩ | ⟨st0, m, h0⟩ | ⟨st0, u, h0⟩ <;> simp only [h0] at h
  · simp at h
  · simp only [Except.ok.injEq, Prod.mk.injEq] at h
    rw [← h.2]; exact errorShape_message _ _ _
  · simp only [Except.ok.injEq, Prod.mk.injEq] at h
    rw [← h.2]; exact errorShape_message _ _ _
  · repeat' split at h
    all_goals
      simp only [Except.ok.injEq, Prod.mk.injEq] at h
      obtain ⟨_, h2⟩ := h
      subst h2
      first
        | exact errorShape_message _ _ _
        | exact Or.inl (by simp [json])

theorem handleDelete_shape (P : Platform) (env : Env) (st st1 : State) (req : Request)
    (id : String) (r : Response) (h : handleDelete P env st req id = .ok (st1, r)) :
    ErrorShape (.delete id) r := by
  unfold handleDelete at h
  rcases requireAdmin_cases P env st req with
    ⟨e, h0⟩ | ⟨st0, m, h0⟩ | ⟨st0, m, h0⟩ | ⟨st0, u, h0⟩ <;> simp only [h0] at h
  · simp at h
  · simp only [Except.ok.injEq, Prod.mk.injEq] at h
    rw [← h.2]; exact errorShape_message _ _ _
  · simp only [Except.ok.injEq, Prod.mk.injEq] at h
    rw [← h.2]; exact errorShape_message _ _ _
  · repeat' split at h
    all_goals
      simp only [Except.ok.injEq, Prod.mk.injEq] at h
      obtain ⟨_, h2⟩ := h
      subst h2
      first
        | exact errorShape_message _ _ _
        | exact Or.inl (by simp [json])

theorem sendDownload_shape (call : Call) (st : State) (app : App) (r : Response)
    (h : sendDownload st app = .ok r) : ErrorShape call r := by
  unfold sendDownload at h
  split at h
  · split at h
    · simp only [Except.ok.injEq] at h
      rw [← h]; exact errorShape_message _ _ _
    · simp only at h
      split at h
      · simp only [Except.ok.injEq] at h
        rw [← h]; exact Or.inl (by simp [json])
      · simp at h
  · simp only [Except.ok.injEq] at h
    rw [← h]; exact errorShape_message _ _ _

theorem handleDownload_shape (P : Platform) (env : Env) (st st1 : State) (req : Request)
    (id : String) (r : Response) (h : handleDownload P env st req id = .ok (st1, r)) :
    ErrorShape (.download id) r := by
  unfold handleDownload at h
  rcases requireAuth_cases P env st req with ⟨e, h0⟩ | ⟨st0, h0⟩ | ⟨st0, u, h0⟩ <;>
    simp only [h0] at h
  · simp at h
  · simp only [Except.ok.injEq, Prod.mk.injEq] at h
    rw [← h.2]; exact errorShape_message _ _ _
  · split at h
    · simp only [Except.ok.injEq, Prod.mk.injEq] at h
      rw [← h.2]; exact errorShape_message _ _ _
    · split at h
      · simp only [Except.ok.injEq, Prod.mk.injEq] at h
        rw [← h.2]; exact errorShape_message _ _ _
      · split at h
        · split at h
          · simp at h
          · split at h
            · simp at h
            · split at h
              · simp only [Except.ok.injEq, Prod.mk.injEq] at h
                rw [← h.2]; exact Or.inl (by simp [json])
              · simp at h
        · split at h
          · simp at h
          · rename_i r0 hsd
            simp only [Except.ok.injEq, Prod.mk.injEq] at h
            rw [← h.2]; exact sendDownload_shape _ _ _ _ hsd

theorem handle_shape (P : Platform) (env : Env) (st st1 : State) (req : Request)
    (call : Call) (r : Response) (h : handle P env st req call = .ok (st1, r)) :
    ErrorShape call r := by
  replace h := (handle_dispatch P env st st1 req call r h).2
  cases call with
  | login => exact handleLogin_shape P env st st1 req r h
  | logout => exact handleLogout_shape P st st1 req r h
  | me => exact handleMe_shape P env st st1 req r h
  | categories => exact handleCategories_shape P env st st1 req r h
  | list => exact handleList_shape P env st st1 req r h
  | create => exact handleCreate_shape P env st st1 req r h
  | detail id => exact handleDetail_shape P env st st1 req id r h
  | update id => exact handleUpdate_shape P env st st1 req id r h
  | delete id => exact handleDelete_shape P env st st1 req id r h
  | download id => exact handleDownload_shape P env st st1 req id r h

theorem handleLogin_total (P : Platform) (env : Env) (st : State) (req : Request) :
    ∃ st1 r, handleLogin P env st req = .ok (st1, r) := by
  unfold handleLogin
  repeat' split
  all_goals exact ⟨_, _, rfl⟩

theorem getSessionUser_total (P : Platform) (env : Env) (m : Sessions) (req : Request)
    (o : Option String) (hc : cookieSid P req = .ok o) :
    ∃ v, getSessionUser P env m req = .ok v := by
  unfold getSessionUser
  rw [hc]
  repeat' split
  all_goals first | exact ⟨_, rfl⟩ | simp_all

theorem requireAuth_total (P : Platform) (env : Env) (st : State) (req : Request)
    (o : Option String) (hc : cookieSid P req = .ok o) :
    ∃ st0 a, requireAuth P env st req = .ok (st0, a) := by
  obtain ⟨v, hv⟩ := getSessionUser_total P env st.sessions req o hc
  obtain ⟨m1, ou⟩ := v
  rw [requireAuth_eq, hv]
  cases ou with
  | none => exact ⟨_, _, rfl⟩
  | some u => exact ⟨_, _, rfl⟩

theorem requireAdmin_total (P : Platform) (env : Env) (st : State) (req : Request)
    (o : Option String) (hc : cookieSid P req = .ok o) :
    ∃ st0 a, requireAdmin P env st req = .ok (st0, a) := by
  obtain ⟨st0, a, h⟩ := requireAuth_total P env st req o hc
  unfold requireAdmin
  rw [h]
  cases a with
  | reject r => exact ⟨_, _, rfl⟩
  | user u =>
    by_cases hr : u.role = "admin"
    · exact ⟨st0, .user u, by simp [hr]⟩
    · exact ⟨st0, .reject (json 403 (.message "Forbidden")),
        by simp only [hr, ne_eq, not_false_eq_true, if_true]⟩

theorem handle_of_url (P : Platform) (env : Env) (st : State) (req : Request)
    (call : Call) (hurl : req.urlError = none) :
    handle P env st req call = dispatch P env st req call := by
  simp only [handle, hurl]

theorem handle_total (P : Platform) (env : Env) (st : State) (req : Request)
    (call : Call) (o : Option String) (hurl : req.urlError = none)
    (hc : cookieSid P req = .ok o)
    (hlist : call ≠ .list) (hdown : ∀ id, call ≠ .download id) :
    ∃ st1 r, handle P env st req call = .ok (st1, r) := by
  rw [handle_of_url P env st req call hurl]
  cases call with
  | login => exact handleLogin_total P env st req
  | logout =>
    simp only [dispatch, handleLogout, hc]
    exact ⟨_, _, rfl⟩
  | me =>
    obtain ⟨v, hv⟩ := getSessionUser_total P env st.sessions req o hc
    obtain ⟨m1, ou⟩ := v
    simp only [dispatch, handleMe, hv]
    cases ou with
    | none => exact ⟨_, _, rfl⟩
    | some u => exact ⟨_, _, rfl⟩
  | categories =>
    obtain ⟨st0, a, h⟩ := requireAuth_total P env st req o hc
    simp only [dispatch, handleCategories, h]
    cases a with
    | reject r => exact ⟨_, _, rfl⟩
    | user u => exact ⟨_, _, rfl⟩
  | list => exact absurd rfl hlist
  | create =>
    obtain ⟨st0, a, h⟩ := requireAdmin_total P env st req o hc
    simp only [dispatch, handleCreate, h]
    cases a with
    | reject r => exact ⟨_, _, rfl⟩
    | user u =>
      simp only
      repeat' split
      all_goals exact ⟨_, _, rfl⟩
  | detail id =>
    obtain ⟨st0, a, h⟩ := requireAuth_total P env st req o hc
    simp only [dispatch, handleDetail, h]
    cases a with
    | reject r => exact ⟨_, _, rfl⟩
    | user u =>
      simp only
      repeat' split
      all_goals exact ⟨_, _, rfl⟩
  | update id =>
    obtain ⟨st0, a, h⟩ := requireAdmin_total P env st req o hc
    simp only [dispatch, handleUpdate, h]
    cases a with
    | reject r => exact ⟨_, _, rfl⟩
    | user u =>
      simp only
      repeat' split
      all_goals exact ⟨_, _, rfl⟩
  | delete id =>
    obtain ⟨st0, a, h⟩ := requireAdmin_total P env st req o hc
    simp only [dispatch, handleDelete, h]
    cases a with
    | reject r => exact ⟨_, _, rfl⟩
    | user u =>
      simp only
      repeat' split
      all_goals exact ⟨_, _, rfl⟩
  | download id => exact absurd rfl (hdown id)

set_option maxRecDepth 200000 in
theorem afterLogin_reachable : Reachable demoPlatform afterLogin := by
  have h1 : handle demoPlatform (demoEnv 1000 "sid-1") initState (demoRequest "" loginBody)
      .login = .ok (afterLogin, ⟨200, .user (some adminUser),
        some "sid=sid-1; HttpOnly; SameSite=Strict; Path=/"⟩) := rfl
  exact Reachable.step _ _ _ _ _ _ Reachable.init h1

set_option maxRecDepth 200000 in
theorem untitledState_reachable : Reachable demoPlatform untitledState := by
  have h1 : handle demoPlatform (demoEnv 2000 "app-x") afterLogin
      (demoRequest "sid=sid-1" (.obj [])) .create =
        .ok (afterUntitled1, json 201 (.app (toClientApp (untitledApp "app-x" 2000)))) := rfl
  have h2 : handle demoPlatform (demoEnv 3000 "app-y") afterUntitled1
      (demoRequest "sid=sid-1" (.obj [])) .create =
        .ok (afterUntitled2, json 201 (.app (toClientApp (untitledApp "app-y" 3000)))) := rfl
  have h3 : handle demoPlatform (demoEnv 4000 "unused") afterUntitled2
      (demoRequest "sid=sid-1" (.obj [])) (.delete "seed-app") =
        .ok (untitledState, json 200 .ok) := rfl
  exact Reachable.step _ _ _ _ _ _
    (Reachable.step _ _ _ _ _ _ (Reachable.step _ _ _ _ _ _ afterLogin_reachable h1) h2) h3

set_option maxRecDepth 200000 in
theorem untitledState_db :
    untitledState.db = some ⟨(seedData demoPlatform (demoEnv 1000 "sid-1")).users,
      [untitledApp "app-x" 2000, untitledApp "app-y" 3000]⟩ := rfl

set_option maxRecDepth 200000 in
theorem untitledState_list_throws :
    handle demoPlatform (demoEnv 5000 "unused") untitledState
        (listRequest "sid=sid-1" (some "title")) .list =
      .error (.typeError "a.title.localeCompare is not a function") := rfl

set_option maxRecDepth 200000 in
theorem initState_me :
    handle demoPlatform (demoEnv 100 "x") initState (demoRequest "" (.obj [])) .me =
      .ok (initState, json 401 (.user none)) := rfl

set_option maxRecDepth 200000 in
theorem badUrl_login_throws :
    handle demoPlatform (demoEnv 100 "x") initState badUrlRequest .login =
      .error (.typeError "Invalid URL") := rfl

/-- C12 (as amended): whenever an API handler answers with a status of 400 or above, the
body is `{ message }`, except `GET /api/auth/me`, which answers 401 with `{ user: null }`.
A request whose URL does not parse (`new URL(req.url, ...)` throws) gets no answer on any
route: the exception escapes the listener. When the URL parses, `POST /api/auth/login`
always answers, and every route other than the list and the download answers whenever the
`Cookie` header is parsed without an exception. -/
theorem handlers_answer_shape (P : Platform) (env : Env) (st : State) (req : Request)
    (call : Call) :
    (∀ st1 r, handle P env st req call = .ok (st1, r) → 400 ≤ r.status →
      (∃ m, r.body = .message m) ∨ (call = .me ∧ r.status = 401 ∧ r.body = .user none)) ∧
    (∀ e, req.urlError = some e → handle P env st req call = .error e) ∧
    (req.urlError = none → ∃ st1 r, handle P env st req .login = .ok (st1, r)) ∧
    (∀ o, req.urlError = none → cookieSid P req = .ok o → call ≠ .list →
      (∀ id, call ≠ .download id) →
      ∃ st1 r, handle P env st req call = .ok (st1, r)) := by
  refine ⟨?_, ?_, ?_, ?_⟩
  · intro st1 r h hs
    rcases handle_shape P env st st1 req call r h with h1 | h1 | h1
    · omega
    · exact Or.inl h1
    · exact Or.inr h1
  · intro e he
    simp only [handle, he]
  · intro hurl
    rw [handle_of_url P env st req .login hurl]
    exact handleLogin_total P env st req
  · intro o hurl hc hlist hdown
    exact handle_total P env st req call o hurl hc hlist hdown

theorem handlers_answer_shape_witness :
    handle demoPlatform (demoEnv 100 "new-id") userState
        (demoRequest "sid=s-user" (.obj [("title", .str "Injected")])) .create =
      .ok (userState, json 403 (.message "Forbidden")) ∧
    400 ≤ (json 403 (.message "Forbidden")).status ∧
    ((∃ m, (json 403 (.message "Forbidden")).body = .message m) ∨
      (Call.create = .me ∧ (json 403 (.message "Forbidden")).status = 401 ∧
        (json 403 (.message "Forbidden")).body = .user none)) :=
  ⟨rfl, by simp [json],
    (handlers_answer_shape demoPlatform (demoEnv 100 "new-id") userState
      (demoRequest "sid=s-user" (.obj [("title", .str "Injected")])) .create).1
      userState (json 403 (.message "Forbidden")) rfl (by simp [json])⟩

/-- C12 (as stated) fails in three ways. With no session, `GET /api/auth/me` answers 401
with the body `{ user: null }`, which is not `{ message }`. In the store reached when the
administrator logs in, posts `{}` twice and deletes the seed record, `GET /api/apps` with
`sort=title` throws a `TypeError` out of the handler: the comparator calls
`localeCompare` on a title that is `undefined`. And a login request whose URL does not
parse throws a `TypeError` out of the listener before any route is reached. -/
theorem handlers_answer_counterexample :
    (handle demoPlatform (demoEnv 100 "x") initState (demoRequest "" (.obj [])) .me =
        .ok (initState, json 401 (.user none)) ∧
      400 ≤ (json 401 (.user none)).status ∧
      ¬ ∃ m, (json 401 (.user none)).body = .message m) ∧
    (Reachable demoPlatform untitledState ∧
      (∃ m, handle demoPlatform (demoEnv 5000 "unused") untitledState
          (listRequest "sid=sid-1" (some "title")) .list = .error (.typeError m)) ∧
      ¬ ∃ st1 r, handle demoPlatform (demoEnv 5000 "unused") untitledState
          (listRequest "sid=sid-1" (some "title")) .list = .ok (st1, r)) ∧
    (Reachable demoPlatform initState ∧
      handle demoPlatform (demoEnv 100 "x") initState badUrlRequest .login =
        .error (.typeError "Invalid URL") ∧
      ¬ ∃ st1 r, handle demoPlatform (demoEnv 100 "x") initState badUrlRequest .login =
        .ok (st1, r)) :=
  ⟨⟨initState_me, by simp [json], by simp [json]⟩,
    ⟨untitledState_reachable, ⟨_, untitledState_list_throws⟩, by
      rintro ⟨st1, r, h⟩
      rw [untitledState_list_throws] at h
      cases h⟩,
    ⟨Reachable.init, badUrl_login_throws, by
      rintro ⟨st1, r, h⟩
      rw [badUrl_login_throws] at h
      cases h⟩⟩

/-! ## Publish toggle: evaluation -/

set_option maxRecDepth 200000 in
theorem toggle_answer :
    handleUpdate demoPlatform (demoEnv 5000 "unused") afterUpload
        (demoRequest "sid=sid-1" (toggleBody (toClientApp uploadedApp))) "app-2" =
      .ok (afterToggle, json 200 (.app (toClientApp toggledApp))) := rfl

set_option maxRecDepth 200000 in
theorem afterToggle_db :
    afterToggle.db = some ⟨(seedData demoPlatform (demoEnv 1000 "sid-1")).users,
      (seedData demoPlatform (demoEnv 1000 "sid-1")).apps ++ [bareApp, toggledApp]⟩ := rfl

set_option maxRecDepth 200000 in
theorem download_before_toggle :
    handleDownload demoPlatform (demoEnv 6000 "unused") afterUpload
        (demoRequest "sid=sid-1" (.obj [])) "app-2" =
      .ok (afterUpload, json 200 (.file "uploads/3000-tool.bin"
        ("attachment; filename=" ++ String.mk [Char.ofNat 34] ++ "tool.bin" ++
          String.mk [Char.ofNat 34]))) := rfl

set_option maxRecDepth 200000 in
theorem download_after_toggle :
    handleDownload demoPlatform (demoEnv 6000 "unused") afterToggle
        (demoRequest "sid=sid-1" (.obj [])) "app-2" =
      .ok (afterToggle, json 302 (.redirect (.str "/api/apps/app-2/download"))) := rfl

/-- C13 fails on a file-type record: in the reachable store `afterUpload`, whose record
`app-2` has `fileType = file`, the publish toggle (the `PUT` with the body the client
builds from `toClientApp`) answers 200 and stores the record with `isPublished` negated
but also with `fileType = url` and `downloadUrl = /api/apps/app-2/download`; the download
route, which streamed the file before, afterwards redirects to its own address. -/
theorem toggle_breaks_file_record :
    Reachable demoPlatform afterUpload ∧
    findApp "app-2" [bareApp, uploadedApp] = some uploadedApp ∧
    uploadedApp.fileType = .file ∧
    handleUpdate demoPlatform (demoEnv 5000 "unused") afterUpload
        (demoRequest "sid=sid-1" (toggleBody (toClientApp uploadedApp))) "app-2" =
      .ok (afterToggle, json 200 (.app (toClientApp toggledApp))) ∧
    afterToggle.db = some ⟨(seedData demoPlatform (demoEnv 1000 "sid-1")).users,
      (seedData demoPlatform (demoEnv 1000 "sid-1")).apps ++ [bareApp, toggledApp]⟩ ∧
    toggledApp.isPublished = !uploadedApp.isPublished ∧
    toggledApp.fileType = .url ∧ toggledApp.fileType ≠ uploadedApp.fileType ∧
    toggledApp.downloadUrl = .str "/api/apps/app-2/download" ∧
    toggledApp.downloadUrl ≠ uploadedApp.downloadUrl ∧
    handleDownload demoPlatform (demoEnv 6000 "unused") afterUpload
        (demoRequest "sid=sid-1" (.obj [])) "app-2" =
      .ok (afterUpload, json 200 (.file "uploads/3000-tool.bin"
        ("attachment; filename=" ++ String.mk [Char.ofNat 34] ++ "tool.bin" ++
          String.mk [Char.ofNat 34]))) ∧
    handleDownload demoPlatform (demoEnv 6000 "unused") afterToggle
        (demoRequest "sid=sid-1" (.obj [])) "app-2" =
      .ok (afterToggle, json 302 (.redirect (.str "/api/apps/app-2/download"))) :=
  ⟨afterUpload_reachable, rfl, rfl, toggle_answer, afterToggle_db, rfl, rfl, by decide, rfl,
    by
      intro h
      have h1 : (JVal.str "/api/apps/app-2/download") = .str "https://x.test/a" := h
      simp at h1,
    download_before_toggle, download_after_toggle⟩

theorem intercalate_go_data (sep acc : String) (l : List String) :
    (String.intercalate.go acc sep l).data =
      acc.data ++ (l.map (fun a => sep.data ++ a.data)).flatten := by
  induction l generalizing acc with
  | nil => simp [String.intercalate.go]
  | cons a as ih =>
    simp only [String.intercalate.go, ih, String.data_append, List.map_cons, List.flatten_cons,
      List.append_assoc]

theorem splitChars_joined (t : String) (ts : List String)
    (ht : ',' ∉ t.data) (hts : ∀ x ∈ ts, ',' ∉ x.data) :
    splitChars ',' (t.data ++ (ts.map (fun a => ",".data ++ a.data)).flatten) =
      t.data :: ts.map String.data := by
  induction ts generalizing t with
  | nil => simpa using splitChars_of_not_mem ',' t.data ht
  | cons a as ih =>
    have h1 : t.data ++ ((a :: as).map (fun a => ",".data ++ a.data)).flatten =
        t.data ++ ',' :: (a.data ++ (as.map (fun a => ",".data ++ a.data)).flatten) := by
      simp
    rw [h1, splitChars_append _ _ _ ht,
      ih a (hts a (List.mem_cons_self _ _)) (fun x hx => hts x (List.mem_cons_of_mem _ hx))]
    rfl

theorem map_eq_self {α : Type} (f : α → α) (l : List α) (h : ∀ x ∈ l, f x = x) :
    l.map f = l := by
  induction l with
  | nil => rfl
  | cons a as ih =>
    simp only [List.map_cons, h a (List.mem_cons_self _ _),
      ih (fun x hx => h x (List.mem_cons_of_mem _ hx))]

theorem parseTags_joined (tags : List String) (h : CleanTags tags) :
    parseTags (.str (String.intercalate "," tags)) = .ok tags := by
  cases tags with
  | nil => rfl
  | cons t ts =>
    have hsplit : jsSplit ',' (String.intercalate "," (t :: ts)) = t :: ts := by
      unfold jsSplit
      show List.map String.mk (splitChars ',' (String.intercalate.go t "," ts).data) = _
      rw [intercalate_go_data,
        splitChars_joined t ts (h t (List.mem_cons_self _ _)).2.2
          (fun x hx => (h x (List.mem_cons_of_mem _ hx)).2.2)]
      simp only [List.map_cons, List.map_map]
      rw [map_eq_self (String.mk ∘ String.data) ts (fun x _ => rfl)]
    have htrim : (t :: ts).map jsTrim = t :: ts :=
      map_eq_self jsTrim _ (fun x hx => (h x hx).2.1)
    have hfilter : (t :: ts).filter (fun x => x != "") = t :: ts := by
      rw [List.filter_eq_self]
      intro x hx
      simpa using (h x hx).1
    cases hj : (JVal.str (String.intercalate "," (t :: ts))).truthy with
    | true =>
      simp only [parseTags, JVal.or, hj, if_true, hsplit, htrim, hfilter]
    | false =>
      have hj2 : String.intercalate "," (t :: ts) = "" := by
        simpa [JVal.truthy] using hj
      have hd := congrArg String.data hj2
      have hd2 : (String.intercalate "," (t :: ts)).data =
          t.data ++ (ts.map (fun a => ",".data ++ a.data)).flatten := intercalate_go_data "," t ts
      rw [hd2] at hd
      have ht0 : t.data = [] := by
        cases htd : t.data with
        | nil => rfl
        | cons c cs => rw [htd] at hd; simp at hd
      exact absurd (String.ext ht0) (h t (List.mem_cons_self _ _)).1

theorem lookupField_cons_ne (k k1 : String) (v : JVal) (rest : List (String × JVal))
    (h : k1 ≠ k) : lookupField k ((k1, v) :: rest) = lookupField k rest := by
  simp only [lookupField]
  cases lookupField k rest <;> simp [h]

theorem lookupField_cons_eq (k : String) (v : JVal) (rest : List (String × JVal))
    (h : lookupField k rest = .undefined) : lookupField k ((k, v) :: rest) = v := by
  simp only [lookupField, h, if_true]

theorem or_self_eq (a : JVal) : a.or a = a := by
  unfold JVal.or
  split <;> rfl

theorem readFields_toggleBody (c : ClientApp) (h : CleanTags c.tags) :
    readFields (toggleBody c) =
      .ok { title := c.title, description := c.description, version := c.version,
            category := c.category, tags := c.tags, isPublished := !c.isPublished,
            featured := c.featured, file := .undefined, downloadUrl := c.downloadUrl } := by
  have e1 : lookupField "title" (match toggleBody c with | .obj fs => fs | _ => []) = c.title := by
    simp only [toggleBody]
    rw [lookupField_cons_ne _ _ _ _ (by decide), lookupField_cons_eq]
    rfl
  have e2 : (toggleBody c).getOpt "description" = c.description := by
    simp only [toggleBody, JVal.getOpt]
    rw [lookupField_cons_ne _ _ _ _ (by decide), lookupField_cons_ne _ _ _ _ (by decide),
      lookupField_cons_eq]
    rfl
  have e3 : (toggleBody c).getOpt "version" = c.version := by
    simp only [toggleBody, JVal.getOpt]
    rw [lookupField_cons_ne _ _ _ _ (by decide), lookupField_cons_ne _ _ _ _ (by decide),
      lookupField_cons_ne _ _ _ _ (by decide), lookupField_cons_eq]
    rfl
  have e4 : (toggleBody c).getOpt "category" = c.category := by
    simp only [toggleBody, JVal.getOpt]
    rw [lookupField_cons_ne _ _ _ _ (by decide), lookupField_cons_ne _ _ _ _ (by decide),
      lookupField_cons_ne _ _ _ _ (by decide), lookupField_cons_ne _ _ _ _ (by decide),
      lookupField_cons_eq]
    rfl
  have e5 : (toggleBody c).getOpt "tags" = .str (String.intercalate "," c.tags) := by
    simp only [toggleBody, JVal.getOpt]
    rw [lookupField_cons_ne _ _ _ _ (by decide), lookupField_cons_ne _ _ _ _ (by decide),
      lookupField_cons_ne _ _ _ _ (by decide), lookupField_cons_ne _ _ _ _ (by decide),
      lookupField_cons_ne _ _ _ _ (by decide), lookupField_cons_eq]
    rfl
  have e6 : (toggleBody c).getOpt "isPublished" = .bool (!c.isPublished) := by
    simp only [toggleBody, JVal.getOpt]
    rw [lookupField_cons_ne _ _ _ _ (by decide), lookupField_cons_ne _ _ _ _ (by decide),
      lookupField_cons_ne _ _ _ _ (by decide), lookupField_cons_ne _ _ _ _ (by decide),
      lookupField_cons_ne _ _ _ _ (by decide), lookupField_cons_ne _ _ _ _ (by decide),
      lookupField_cons_ne _ _ _ _ (by decide), lookupField_cons_eq]
    rfl
  have e7 : (toggleBody c).getOpt "featured" = .bool c.featured := by
    simp only [toggleBody, JVal.getOpt]
    rw [lookupField_cons_ne _ _ _ _ (by decide), lookupField_cons_ne _ _ _ _ (by decide),
      lookupField_cons_ne _ _ _ _ (by decide), lookupField_cons_ne _ _ _ _ (by decide),
      lookupField_cons_ne _ _ _ _ (by decide), lookupField_cons_ne _ _ _ _ (by decide),
      lookupField_cons_ne _ _ _ _ (by decide), lookupField_cons_ne _ _ _ _ (by decide),
      lookupField_cons_eq]
    rfl
  have e8 : (toggleBody c).getOpt "file" = .undefined := by
    simp only [toggleBody, JVal.getOpt]
    repeat rw [lookupField_cons_ne _ _ _ _ (by decide)]
    rfl
  have e9 : (toggleBody c).getOpt "downloadUrl" = c.downloadUrl := by
    simp only [toggleBody, JVal.getOpt]
    repeat rw [lookupField_cons_ne _ _ _ _ (by decide)]
    rw [lookupField_cons_eq]
    rfl
  have e0 : (toggleBody c).get "title" = .ok c.title := by
    have := e1
    simp only [toggleBody] at this
    simp only [toggleBody, JVal.get, this]
  unfold readFields
  rw [e0]
  simp only [e2, e3, e4, e5, e6, e7, e8, e9, parseTags_joined c.tags h, JVal.truthy]

/-- The toggle on a url-type record whose tags are as the handlers store them: the answer
is 200 and the stored record differs from the previous one in `isPublished` only. -/
theorem toggle_url_record (P : Platform) (env : Env) (st st0 : State) (req : Request)
    (u : SessionUser) (id : String) (r : App)
    (hadmin : requireAdmin P env st req = .ok (st0, .user u))
    (hbody : req.body = .ok (toggleBody (toClientApp r)))
    (hfind : findApp id (readDb P env st0).1.apps = some r)
    (hurl : r.fileType = .url) (htags : CleanTags r.tags) :
    handleUpdate P env st req id =
      .ok (writeDb (readDb P env st0).2
            { users := (readDb P env st0).1.users,
              apps := updateFirst id (fun _ => { r with isPublished := !r.isPublished })
                (readDb P env st0).1.apps },
           json 200 (.app (toClientApp { r with isPublished := !r.isPublished }))) := by
  have hne : ¬ r.fileType = .file := by rw [hurl]; decide
  have hdl : (toClientApp r).downloadUrl = r.downloadUrl := by
    simp only [toClientApp, hne, if_false]
  have hf : readFields (toggleBody (toClientApp r)) =
      .ok { title := r.title, description := r.description, version := r.version,
            category := r.category, tags := r.tags, isPublished := !r.isPublished,
            featured := r.featured, file := .undefined, downloadUrl := r.downloadUrl } := by
    rw [readFields_toggleBody (toClientApp r) htags, hdl]
    rfl
  have happ : applyFields r
      { title := r.title, description := r.description, version := r.version,
        category := r.category, tags := r.tags, isPublished := !r.isPublished,
        featured := r.featured, file := .undefined, downloadUrl := r.downloadUrl } =
      { r with isPublished := !r.isPublished } := by
    simp only [applyFields, or_self_eq]
  have happ2 : ({ ({ r with isPublished := !r.isPublished } : App) with fileType := .url } : App) =
      { r with isPublished := !r.isPublished } := by
    cases r
    simp only [App.mk.injEq, true_and, and_true] at hurl ⊢
    exact hurl.symm
  unfold handleUpdate
  simp only [hadmin, hbody, hfind, hf, JVal.getOpt, JVal.truthy, Bool.false_eq_true,
    if_false, happ, happ2, ite_self]

end Catalog
